import Mathlib

/-!
# hypeman-go: the copy subsystem (`lib/cp.go`)

A shallow embedding of the path guard (`sanitizePath`), of the receive session
(`CpFromInstance`) and of the send session (`CpToInstance`) of `lib/cp.go`,
together with the Go standard-library path functions they call
(`path/filepath` on a Unix target: `Clean`, `IsAbs`, `Join`, `Abs`, `Dir`).

Go strings are modelled as `List Char`.  The path functions only ever compare
bytes with `'/'` and `'.'`, both ASCII, so on valid UTF-8 the character view
and the byte view agree.
-/

namespace Hypeman

/-! ## Go strings -/

/-- A Go `string`. -/
abbrev GoString := List Char

deriving instance DecidableEq for Except

/-- Go `strings.HasPrefix(s, pre)`. -/
def HasPrefix (s pre : GoString) : Bool := pre.isPrefixOf s

/-- Go `filepath.Separator` on Unix. -/
def Separator : Char := '/'

/-- Go `os.IsPathSeparator(c)` on Unix: `PathSeparator == c`. -/
def IsPathSeparator (c : Char) : Bool := c == Separator

/-! ## `path/filepath` (Unix) -/

/-- Go `filepath.IsAbs` on Unix: `strings.HasPrefix(path, "/")`. -/
def IsAbs (path : GoString) : Bool := HasPrefix path ['/']

/-- The inner loop of the `..` case of `Clean`, run after `out.w--`:
`for out.w > dotdot && !os.IsPathSeparator(out.index(out.w)) { out.w-- }`.
The argument is the current `out.w`, the result the final `out.w`. -/
def backtrackLoop (out : GoString) (dotdot : Nat) : Nat → Nat
  | 0 => 0
  | w + 1 =>
    if w + 1 > dotdot && !IsPathSeparator (out.getD (w + 1) ' ') then
      backtrackLoop out dotdot w
    else w + 1

/-- The "can backtrack" branch of `Clean`: `out.w--` followed by
`backtrackLoop`; `out` is the written part `buf[:w]` of the lazy buffer. -/
def backtrack (out : GoString) (dotdot : Nat) : GoString :=
  out.take (backtrackLoop out dotdot (out.length - 1))

/-- The main loop `for r < n { switch ... }` of Go `filepath.Clean`.
`rest` is the unread input `path[r:]`, `out` the written output `buf[:w]`,
`dotdot` the index in `out` where `..` must stop.  Every iteration reads at
least one byte, so `fuel = rest.length` always suffices. -/
def cleanLoop (rooted : Bool) : Nat → GoString → GoString → Nat → GoString
  | 0, _, out, _ => out
  | _ + 1, [], out, _ => out
  | fuel + 1, c :: t, out, dotdot =>
    if IsPathSeparator c then
      -- empty path element
      cleanLoop rooted fuel t out dotdot
    else if c == '.' && (t.isEmpty || IsPathSeparator (t.headD ' ')) then
      -- . element
      cleanLoop rooted fuel t out dotdot
    else if c == '.' && t.head? == some '.' &&
        (t.tail.isEmpty || IsPathSeparator (t.tail.headD ' ')) then
      -- .. element: remove to last separator
      if out.length > dotdot then
        -- can backtrack
        cleanLoop rooted fuel t.tail (backtrack out dotdot) dotdot
      else if !rooted then
        -- cannot backtrack, but not rooted, so append .. element
        let out1 := if out.length > 0 then out ++ [Separator] else out
        let out2 := out1 ++ ['.', '.']
        cleanLoop rooted fuel t.tail out2 out2.length
      else
        cleanLoop rooted fuel t.tail out dotdot
    else
      -- real path element: add slash if needed, then copy the element
      let out1 :=
        if (rooted && out.length != 1) || (!rooted && out.length != 0) then
          out ++ [Separator]
        else out
      cleanLoop rooted fuel ((c :: t).dropWhile (fun x => !IsPathSeparator x))
        (out1 ++ (c :: t).takeWhile (fun x => !IsPathSeparator x)) dotdot

/-- Go `filepath.Clean` on Unix (no volume name, `FromSlash` is the
identity). -/
def Clean (path : GoString) : GoString :=
  if path.isEmpty then ['.']
  else
    let rooted := IsPathSeparator (path.headD ' ')
    let out :=
      if rooted then cleanLoop rooted path.length path.tail [Separator] 1
      else cleanLoop rooted path.length path [] 0
    -- Turn empty string into "."
    if out.length == 0 then ['.'] else out

/-- Go `filepath.Join` on Unix for two elements: the first non-empty element
and everything after it are joined with the separator and cleaned. -/
def Join (a b : GoString) : GoString :=
  if a ≠ [] then Clean (a ++ [Separator] ++ b)
  else if b ≠ [] then Clean b
  else []

/-- Go `filepath.Abs` on Unix.  `wd` is the outcome of `os.Getwd()`: the
working directory, or the text of its error. -/
def Abs (wd : Except GoString GoString) (path : GoString) : Except GoString GoString :=
  if IsAbs path then .ok (Clean path)
  else
    match wd with
    | .error e => .error e
    | .ok d => .ok (Join d path)

/-- The loop of Go `filepath.Dir`: starting from `i + 1 = len(path)`, step
back while `path[i]` is not a separator; the result is `i + 1`. -/
def dirLoop (path : GoString) : Nat → Nat
  | 0 => 0
  | i + 1 => if !IsPathSeparator (path.getD i ' ') then dirLoop path i else i + 1

/-- Go `filepath.Dir` on Unix. -/
def Dir (path : GoString) : GoString :=
  Clean (path.take (dirLoop path path.length))

/-! ## `sanitizePath` -/

/-- The `sanitizePath(base, path)` function of `lib/cp.go`: the result path,
or the text of the error. -/
def sanitizePath (wd : Except GoString GoString) (base path : GoString) :
    Except GoString GoString :=
  -- Clean the path to resolve any . or .. components
  let cleaned := Clean path
  -- Reject absolute paths
  if IsAbs cleaned then
    .error ("invalid path: absolute paths not allowed: ".toList ++ path)
  -- Reject paths that start with ..
  else if HasPrefix cleaned ['.', '.'] then
    .error ("invalid path: path escapes destination: ".toList ++ path)
  else
    -- Join with base and verify the result is under base
    let result := Join base cleaned
    match Abs wd base with
    | .error e => .error ("resolve base path: ".toList ++ e)
    | .ok absBase =>
      match Abs wd result with
      | .error e => .error ("resolve result path: ".toList ++ e)
      | .ok absResult =>
        let isRoot := absBase == ['/'] || absBase == [Separator]
        if !isRoot && !HasPrefix absResult (absBase ++ [Separator]) && absResult != absBase then
          .error ("invalid path: path escapes destination: ".toList ++ path)
        else .ok result

/-! ## Wire messages of the copy protocol

Text frames carry JSON.  A text frame is modelled by what `encoding/json`
makes of it at the places where `lib/cp.go` decodes it. -/

/-- File content and binary frame payloads. -/
abbrev Bytes := List UInt8

/-- The `cpRequest` struct: the JSON request sent over the WebSocket. -/
structure cpRequest where
  Direction : GoString
  GuestPath : GoString
  IsDir : Bool := false
  Mode : Nat := 0
  FollowLinks : Bool := false
  Uid : Nat := 0
  Gid : Nat := 0
  deriving DecidableEq

/-- The `cpFileHeader` struct: received from the server when copying from
the guest (its `type` field is the discriminant `"header"`). -/
structure cpFileHeader where
  Path : GoString
  Mode : Nat
  IsDir : Bool
  IsSymlink : Bool
  LinkTarget : GoString
  Size : Int
  Mtime : Int
  Uid : Nat
  Gid : Nat
  deriving DecidableEq

/-- The `cpEndMarker` struct: signals end of file or transfer. -/
structure cpEndMarker where
  Final : Bool
  deriving DecidableEq

/-- The `cpResult` struct: the response from a copy-to operation. -/
structure cpResult where
  Success : Bool
  Error : GoString
  BytesWritten : Int
  deriving DecidableEq

/-- The `cpError` struct: an error message from the server. -/
structure cpError where
  Message : GoString
  Path : GoString
  deriving DecidableEq

/-- What `encoding/json` makes of a payload, at each place where `lib/cp.go`
decodes one. -/
structure Decoded where
  /-- `json.Unmarshal(message, &msgMap)` followed by `msgMap["type"].(string)`:
  the decoding error, or the discriminant (empty when it is absent or not a
  string). -/
  asMap : Except GoString GoString
  /-- `json.Unmarshal(message, &msgType)` into `struct { Type string }`: the
  decoding error, or the discriminant. -/
  asType : Except GoString GoString
  /-- `json.Unmarshal(message, &header)`. -/
  asHeader : Except GoString cpFileHeader
  /-- `json.Unmarshal(message, &endMarker)`. -/
  asEndMarker : Except GoString cpEndMarker
  /-- `json.Unmarshal(message, &cpErr)`: the struct it leaves and its error. -/
  asError : cpError × Option GoString
  /-- `json.Unmarshal(message, &result)`: the struct it leaves and its error. -/
  asResult : cpResult × Option GoString
  deriving DecidableEq

/-- Go `websocket.TextMessage`. -/
def TextMessage : Int := 1

/-- Go `websocket.BinaryMessage`. -/
def BinaryMessage : Int := 2

/-- A message returned by `ws.ReadMessage()` with a nil error: its type, its
payload, and what the JSON decoder makes of the payload. -/
structure Frame where
  msgType : Int
  data : Bytes
  json : Decoded
  deriving DecidableEq

/-- The error that ends the frames of a connection. -/
inductive ReadError where
  /-- A close error with code `CloseNormalClosure`. -/
  | closeNormal
  /-- A close error with code `CloseGoingAway`. -/
  | closeGoingAway
  /-- Any other error, with its text. -/
  | failure (err : GoString)
  deriving DecidableEq

/-- `websocket.IsCloseError(err, CloseNormalClosure, CloseGoingAway)`. -/
def ReadError.isNormalClose : ReadError → Bool
  | .closeNormal => true
  | .closeGoingAway => true
  | .failure _ => false

/-! ## Observable effects -/

/-- What a copy operation does to the outside world, in order. -/
inductive Event where
  /-- `dialer.DialContext(ctx, wsURL, headers)` with the `Authorization` header. -/
  | dial (url : GoString) (authorization : GoString)
  /-- `ws.WriteMessage(websocket.TextMessage, reqJSON)` for a request. -/
  | sendRequest (req : cpRequest)
  /-- `ws.WriteMessage(websocket.BinaryMessage, data)`. -/
  | sendBinary (data : Bytes)
  /-- `ws.WriteMessage(websocket.TextMessage, endMsg)` for the end marker. -/
  | sendEnd
  /-- `ws.ReadMessage()`. -/
  | wsRead
  /-- `ws.Close()`. -/
  | wsClose
  /-- `os.MkdirAll(path, mode)`. -/
  | mkdirAll (path : GoString) (mode : Nat)
  /-- `os.Chown(path, uid, gid)`. -/
  | chown (path : GoString) (uid gid : Nat)
  /-- `os.Lchown(path, uid, gid)`. -/
  | lchown (path : GoString) (uid gid : Nat)
  /-- `os.Remove(path)`. -/
  | remove (path : GoString)
  /-- `os.Symlink(target, path)`. -/
  | symlink (target : GoString) (path : GoString)
  /-- `os.OpenFile(path, os.O_CREATE|os.O_WRONLY|os.O_TRUNC, mode)`. -/
  | openFile (path : GoString) (mode : Nat)
  /-- `currentFile.Write(data)` on the handle opened at `path`. -/
  | write (path : GoString) (data : Bytes)
  /-- `currentFile.Close()` on the handle opened at `path`. -/
  | closeFile (path : GoString)
  /-- `os.Chtimes(path, mtime, mtime)` with `mtime` in Unix seconds. -/
  | chtimes (path : GoString) (mtime : Int)
  /-- `os.Open(path)` of a source file. -/
  | openSource (path : GoString)
  /-- `file.Close()` of a source file. -/
  | closeSource (path : GoString)
  /-- `callbacks.OnFileStart(path, size)`. -/
  | onFileStart (path : GoString) (size : Int)
  /-- `callbacks.OnProgress(bytesCopied)`. -/
  | onProgress (bytesCopied : Int)
  /-- `callbacks.OnFileEnd(path)`. -/
  | onFileEnd (path : GoString)
  deriving DecidableEq

/-- The `CpCallbacks` struct: which of the optional callbacks are set. -/
structure CpCallbacks where
  OnFileStart : Bool
  OnProgress : Bool
  OnFileEnd : Bool
  deriving DecidableEq

/-- A failed dial: the error text and, when the upgrade was answered, the
HTTP status code and body of the response. -/
structure DialFailure where
  err : GoString
  resp : Option (Nat × GoString)
  deriving DecidableEq

/-- A scripted connection, as `MockWsConn` of the tests: the outcome of each
`WriteMessage` (by position, `none` is success), the frames `ReadMessage`
returns and the error it returns once they are used up. -/
structure Conn where
  writeErr : Nat → Option GoString
  frames : List Frame
  ending : ReadError

/-- The fields of Go `url.URL`. -/
structure URL where
  Scheme : GoString
  Opaque : GoString
  User : Option (GoString × Option GoString)
  Host : GoString
  Path : GoString
  RawPath : GoString
  OmitHost : Bool
  ForceQuery : Bool
  RawQuery : GoString
  Fragment : GoString
  RawFragment : GoString
  deriving DecidableEq

/-- The world around a copy operation. -/
structure Env where
  /-- `os.Getwd()`. -/
  wd : Except GoString GoString
  /-- The outcome of a local filesystem call whose error is checked, given
  the events so far: `none` is success, `some e` the error text. -/
  fsErr : List Event → Event → Option GoString
  /-- Go `url.Parse`. -/
  urlParse : GoString → Except GoString URL
  /-- Go `(*url.URL).String`. -/
  urlString : URL → GoString
  /-- `dialer.DialContext`: the `n`-th dial of the operation, to `url`. -/
  dial : Nat → GoString → Except DialFailure Conn
  /-- Decimal rendering of an HTTP status code (`%d`). -/
  showStatus : Nat → GoString

/-! ## `buildWsURL` -/

/-- Go `strings.Contains(s, substr)`. -/
def Contains : GoString → GoString → Bool
  | [], sub => sub.isEmpty
  | c :: t, sub => sub.isPrefixOf (c :: t) || Contains t sub

/-- The loop of Go `path.Join` that fills `buf`: empty leading elements are
skipped, every later element is preceded by a slash. -/
def pathJoinBuf : List GoString → GoString → GoString
  | [], buf => buf
  | e :: es, buf =>
    if buf.length > 0 || e != [] then
      pathJoinBuf es ((if buf.length > 0 then buf ++ ['/'] else buf) ++ e)
    else pathJoinBuf es buf

/-- Go `path.Join`.  `path.Clean` is the algorithm of `filepath.Clean` with
`/` as separator, which is `Clean` here. -/
def pathJoin (elem : List GoString) : GoString :=
  if (elem.map List.length).sum == 0 then [] else Clean (pathJoinBuf elem [])

/-- The `buildWsURL(baseURL, instanceID)` function of `lib/cp.go`. -/
def buildWsURL (env : Env) (baseURL instanceID : GoString) : Except GoString GoString :=
  -- Validate instanceID to prevent path traversal attacks
  if instanceID == [] then
    .error "instance ID cannot be empty".toList
  else if Contains instanceID ['/'] || Contains instanceID ['\\'] ||
      Contains instanceID ['.', '.'] then
    .error "invalid instance ID: contains path separator or traversal sequence".toList
  else
    match env.urlParse baseURL with
    | .error e => .error ("invalid base URL: ".toList ++ e)
    | .ok u =>
      -- Append to existing path (preserves any path prefix like /api)
      let u1 := { u with Path := pathJoin [u.Path, "instances".toList, instanceID, "cp".toList] }
      let u2 :=
        if u1.Scheme == "https".toList then { u1 with Scheme := "wss".toList }
        else if u1.Scheme == "http".toList then { u1 with Scheme := "ws".toList }
        else u1
      .ok (env.urlString u2)

/-! ## `CpFromInstance` -/

/-- The `CpConfig` struct. -/
structure CpConfig where
  BaseURL : GoString
  APIKey : GoString

/-- The `CpFromInstanceOptions` struct.  The `Dialer` field, or the default
dialer when it is nil, is `Env.dial`. -/
structure CpFromInstanceOptions where
  InstanceID : GoString
  SrcPath : GoString
  DstPath : GoString
  FollowLinks : Bool
  Archive : Bool
  Callbacks : Option CpCallbacks

/-- The local variables of `CpFromInstance` that live across iterations of
its receive loop, with the events so far.  An open `*os.File` is named by the
path it was opened at. -/
structure RecvState where
  currentFile : Option GoString
  currentHeader : Option cpFileHeader
  bytesReceived : Int
  receivedFinal : Bool
  trace : List Event

/-- Record one event. -/
def RecvState.emit (s : RecvState) (ev : Event) : RecvState :=
  { s with trace := s.trace ++ [ev] }

/-- What one iteration of the receive loop ends in: the next iteration, or a
`return` with an error (`none` is `return nil`). -/
inductive Step where
  | next (s : RecvState)
  | ret (s : RecvState) (err : Option GoString)

/-- The `case "header":` branch of `CpFromInstance`. -/
def onHeader (env : Env) (opts : CpFromInstanceOptions) (s0 : RecvState)
    (hd : Except GoString cpFileHeader) : Step :=
  -- Close previous file if any
  let s1 :=
    match s0.currentFile with
    | some f => { s0.emit (.closeFile f) with currentFile := none }
    | none => s0
  match hd with
  | .error e => .ret s1 (some ("parse header: ".toList ++ e))
  | .ok header =>
    let s := { s1 with currentHeader := some header }
    -- Sanitize server-provided path to prevent path traversal attacks
    match sanitizePath env.wd opts.DstPath header.Path with
    | .error e => .ret s (some ("invalid path from server: ".toList ++ e))
    | .ok targetPath =>
      if header.IsDir then
        match env.fsErr s.trace (.mkdirAll targetPath header.Mode) with
        | some e =>
          .ret (s.emit (.mkdirAll targetPath header.Mode))
            (some ("create directory ".toList ++ targetPath ++ ": ".toList ++ e))
        | none =>
          let s2 := s.emit (.mkdirAll targetPath header.Mode)
          -- Apply ownership if archive mode
          .next (if opts.Archive then s2.emit (.chown targetPath header.Uid header.Gid) else s2)
      else if header.IsSymlink then
        -- Validate symlink target to prevent pointing outside destination
        if IsAbs header.LinkTarget || HasPrefix (Clean header.LinkTarget) ['.', '.'] then
          .ret s (some ("invalid symlink target: ".toList ++ header.LinkTarget))
        else
          -- Create parent directory if needed
          match env.fsErr s.trace (.mkdirAll (Dir targetPath) 0o755) with
          | some e =>
            .ret (s.emit (.mkdirAll (Dir targetPath) 0o755))
              (some ("create parent dir for symlink: ".toList ++ e))
          | none =>
            let s2 := (s.emit (.mkdirAll (Dir targetPath) 0o755)).emit (.remove targetPath)
            match env.fsErr s2.trace (.symlink header.LinkTarget targetPath) with
            | some e =>
              .ret (s2.emit (.symlink header.LinkTarget targetPath))
                (some ("create symlink ".toList ++ targetPath ++ ": ".toList ++ e))
            | none =>
              let s3 := s2.emit (.symlink header.LinkTarget targetPath)
              -- Apply ownership if archive mode (use Lchown for symlinks)
              .next (if opts.Archive then s3.emit (.lchown targetPath header.Uid header.Gid)
                else s3)
      else
        match env.fsErr s.trace (.mkdirAll (Dir targetPath) 0o755) with
        | some e =>
          .ret (s.emit (.mkdirAll (Dir targetPath) 0o755))
            (some ("create parent dir: ".toList ++ e))
        | none =>
          let s2 := s.emit (.mkdirAll (Dir targetPath) 0o755)
          match env.fsErr s2.trace (.openFile targetPath header.Mode) with
          | some e =>
            .ret (s2.emit (.openFile targetPath header.Mode))
              (some ("create file ".toList ++ targetPath ++ ": ".toList ++ e))
          | none =>
            let s3 := { s2.emit (.openFile targetPath header.Mode) with
              currentFile := some targetPath }
            -- Notify file start
            .next (match opts.Callbacks with
              | some cb =>
                if cb.OnFileStart then s3.emit (.onFileStart header.Path header.Size) else s3
              | none => s3)

/-- The `case "end":` branch of `CpFromInstance`. -/
def onEnd (env : Env) (opts : CpFromInstanceOptions) (s0 : RecvState)
    (m : Except GoString cpEndMarker) : Step :=
  match m with
  | .error e => .ret s0 (some ("invalid end marker: ".toList ++ e))
  | .ok endMarker =>
    let s1 :=
      match s0.currentFile with
      | some f =>
        let sc := s0.emit (.closeFile f)
        let sh :=
          match s0.currentHeader with
          | some currentHeader =>
            -- Path was already validated when file was created
            let targetPath :=
              match sanitizePath env.wd opts.DstPath currentHeader.Path with
              | .ok p => p
              | .error _ => []
            let sa :=
              if currentHeader.Mtime > 0 then sc.emit (.chtimes targetPath currentHeader.Mtime)
              else sc
            -- Apply ownership if archive mode
            let sb :=
              if opts.Archive then
                sa.emit (.chown targetPath currentHeader.Uid currentHeader.Gid)
              else sa
            -- Notify file end
            match opts.Callbacks with
            | some cb => if cb.OnFileEnd then sb.emit (.onFileEnd currentHeader.Path) else sb
            | none => sb
          | none => sc
        -- Reset for next file
        { sh with currentFile := none, currentHeader := none, bytesReceived := 0 }
      | none => s0
    if endMarker.Final then .ret { s1 with receivedFinal := true } none
    else .next s1

/-- The body of the receive loop of `CpFromInstance` for one message that
`ReadMessage` returned without error. -/
def recvStep (env : Env) (opts : CpFromInstanceOptions) (s : RecvState) (f : Frame) : Step :=
  if f.msgType == TextMessage then
    -- Parse JSON message
    match f.json.asMap with
    | .error e => .ret s (some ("parse message: ".toList ++ e))
    | .ok msgType =>
      if msgType == "header".toList then onHeader env opts s f.json.asHeader
      else if msgType == "end".toList then onEnd env opts s f.json.asEndMarker
      else if msgType == "error".toList then
        .ret s (some ("copy error at ".toList ++ f.json.asError.1.Path ++ ": ".toList ++
          f.json.asError.1.Message))
      else if msgType == "result".toList then
        if !f.json.asResult.1.Success then
          .ret s (some ("copy failed: ".toList ++ f.json.asResult.1.Error))
        else .next s
      else .next s
  else if f.msgType == BinaryMessage then
    -- File data
    match s.currentFile with
    | some file =>
      match env.fsErr s.trace (.write file f.data) with
      | some e => .ret (s.emit (.write file f.data)) (some ("write: ".toList ++ e))
      | none =>
        let s1 := { s.emit (.write file f.data) with
          bytesReceived := s.bytesReceived + f.data.length }
        -- Notify progress
        .next (match opts.Callbacks with
          | some cb => if cb.OnProgress then s1.emit (.onProgress s1.bytesReceived) else s1
          | none => s1)
    | none => .next s
  else .next s

/-- The text of a read error. -/
def ReadError.text : ReadError → GoString
  | .closeNormal => "websocket: close 1000 (normal)".toList
  | .closeGoingAway => "websocket: close 1001 (going away)".toList
  | .failure e => e

/-- The receive loop `for { ... }` of `CpFromInstance` with the test that
follows it: the state at the `return` and the returned error. -/
def recvLoop (env : Env) (opts : CpFromInstanceOptions) :
    List Frame → ReadError → RecvState → RecvState × Option GoString
  | [], ending, s =>
    let s1 := s.emit .wsRead
    if ending.isNormalClose then
      -- If connection closed without receiving final marker, the transfer was incomplete
      if !s1.receivedFinal then
        (s1, some "copy stream ended without completion marker".toList)
      else (s1, none)
    else (s1, some ("read message: ".toList ++ ending.text))
  | f :: rest, ending, s =>
    match recvStep env opts (s.emit .wsRead) f with
    | .next s1 => recvLoop env opts rest ending s1
    | .ret s1 r => (s1, r)

/-- The deferred calls of `CpFromInstance`, run at every `return` after the
dial: close the file that is still open, then close the connection. -/
def recvDeferred (s : RecvState) : List Event :=
  (match s.currentFile with
    | some f => s.trace ++ [.closeFile f]
    | none => s.trace) ++ [.wsClose]

/-- The `CpFromInstance(ctx, cfg, opts)` function of `lib/cp.go`: the events
it causes and the error it returns (`none` is nil). -/
def CpFromInstance (env : Env) (cfg : CpConfig) (opts : CpFromInstanceOptions) :
    List Event × Option GoString :=
  -- Build WebSocket URL
  match buildWsURL env cfg.BaseURL opts.InstanceID with
  | .error e => ([], some ("build ws url: ".toList ++ e))
  | .ok wsURL =>
    -- Connect to WebSocket
    let t0 := [Event.dial wsURL ("Bearer ".toList ++ cfg.APIKey)]
    match env.dial 0 wsURL with
    | .error f =>
      match f.resp with
      | some (status, body) =>
        (t0, some ("websocket connect failed (HTTP ".toList ++ env.showStatus status ++
          "): ".toList ++ body))
      | none => (t0, some ("websocket connect failed: ".toList ++ f.err))
    | .ok ws =>
      -- Send initial request
      let req : cpRequest :=
        { Direction := "from".toList, GuestPath := opts.SrcPath, FollowLinks := opts.FollowLinks }
      let t1 := t0 ++ [.sendRequest req]
      match ws.writeErr 0 with
      | some e => (t1 ++ [.wsClose], some ("send request: ".toList ++ e))
      | none =>
        let fin := recvLoop env opts ws.frames ws.ending
          { currentFile := none, currentHeader := none, bytesReceived := 0,
            receivedFinal := false, trace := t1 }
        (recvDeferred fin.1, fin.2)

/-! ## `filepath.Rel` -/

/-- The loop of Go `filepath.Rel` that positions both paths at their first
differing elements.  `base` is `base[b0:]` and `targ` is `targ[t0:]` at the
top of an iteration; the result is `(base[b0:bi], base[b0:], targ[t0:])` at
the exit. -/
def relLoop : Nat → GoString → GoString → GoString × GoString × GoString
  | 0, base, targ => ([], base, targ)
  | fuel + 1, base, targ =>
    if base.length > 0 && targ.length > 0 then
      let be := base.takeWhile (fun x => x != Separator)
      let te := targ.takeWhile (fun x => x != Separator)
      if te != be then (be, base, targ)
      else
        relLoop fuel ((base.dropWhile (fun x => x != Separator)).drop 1)
          ((targ.dropWhile (fun x => x != Separator)).drop 1)
    else ([], base, targ)

/-- Go `filepath.Rel` on Unix. -/
def Rel (basepath targpath : GoString) : Except GoString GoString :=
  let base0 := Clean basepath
  let targ := Clean targpath
  if targ == base0 then .ok ['.']
  else
    let base := if base0 == ['.'] then [] else base0
    -- Can't use IsAbs - `\a` and `a` are both relative in Windows.
    let baseSlashed := base.length > 0 && base.headD ' ' == Separator
    let targSlashed := targ.length > 0 && targ.headD ' ' == Separator
    if baseSlashed != targSlashed then
      .error ("Rel: can't make ".toList ++ targpath ++ " relative to ".toList ++ basepath)
    else
      -- Position base[b0:bi] and targ[t0:ti] at the first differing elements.
      let r := relLoop (base.length + 1) base targ
      if r.1 == ['.', '.'] then
        .error ("Rel: can't make ".toList ++ targpath ++ " relative to ".toList ++ basepath)
      else if r.2.1.length != 0 then
        -- Base elements left. Must go up before going down.
        let seps := r.2.1.count Separator
        let ups := ['.', '.'] ++ (List.replicate seps [Separator, '.', '.']).flatten
        if r.2.2.length != 0 then .ok (ups ++ Separator :: r.2.2) else .ok ups
      else .ok r.2.2

/-! ## `CpToInstance` -/

/-- What `os.Stat`, `os.Lstat` and `DirEntry.Info` report of a file. -/
structure FileInfo where
  /-- `IsDir()`. -/
  IsDir : Bool
  /-- `Mode()&fs.ModeSymlink != 0`. -/
  IsSymlink : Bool
  /-- `Mode().Perm()`. -/
  Perm : Nat
  /-- `Size()`. -/
  Size : Int
  /-- `Sys().(*syscall.Stat_t)`, when the assertion holds: `Uid` and `Gid`. -/
  Owner : Option (Nat × Nat)
  deriving DecidableEq

/-- An entry returned by `os.ReadDir`. -/
structure DirEntry where
  Name : GoString
  IsDir : Bool
  deriving DecidableEq

/-- The error returned by one `file.Read(buf)`. -/
inductive ReadOutcome where
  /-- A nil error. -/
  | more
  /-- `io.EOF`. -/
  | eof
  /-- Any other error, with its text. -/
  | failure (err : GoString)
  deriving DecidableEq

/-- The local filesystem that `CpToInstance` reads. -/
structure SrcFS where
  /-- `os.Stat(path)`. -/
  Stat : GoString → Except GoString FileInfo
  /-- `os.Lstat(path)`. -/
  Lstat : GoString → Except GoString FileInfo
  /-- `os.ReadDir(path)`: the entries, sorted by name, and the error if any. -/
  ReadDir : GoString → List DirEntry × Option GoString
  /-- `filepath.EvalSymlinks(path)`. -/
  EvalSymlinks : GoString → Except GoString GoString
  /-- `os.Open(path)` and, for a buffer of the given length, the successive
  `file.Read(buf)` results: the bytes read (at most `len(buf)`) and the error;
  after them `Read` returns `0, io.EOF`. -/
  Open : GoString → Except GoString (Nat → List (Bytes × ReadOutcome))

/-- The `CpToInstanceOptions` struct.  The `Dialer` field, or the default
dialer when it is nil, is `Env.dial`. -/
structure CpToInstanceOptions where
  InstanceID : GoString
  SrcPath : GoString
  DstPath : GoString
  Mode : Nat
  Archive : Bool
  FollowLinks : Bool
  Callbacks : Option CpCallbacks

/-- What a copy to the instance carries from one connection to the next: the
events so far, the keys of the `visitedDirs` map and the number of dials. -/
structure SendState where
  trace : List Event
  visited : List GoString
  dials : Nat

/-- Record one event. -/
def SendState.emit (s : SendState) (ev : Event) : SendState :=
  { s with trace := s.trace ++ [ev] }

/-- The code that `copyFileToWs` and `copyDirToWs` both run after the end
marker is sent: read one message and interpret it as an error or a result.
The returned value is the error (`none` when the result reports success). -/
def awaitResult (ws : Conn) : Option GoString :=
  -- Wait for result
  match ws.frames with
  | [] => some ("read result: ".toList ++ ws.ending.text)
  | f :: _ =>
    -- Check message type first - server may send error or result
    match f.json.asType with
    | .error e => some ("parse message type: ".toList ++ e)
    | .ok ty =>
      if ty == "error".toList then
        match f.json.asError.2 with
        | some e => some ("parse error: ".toList ++ e)
        | none => some ("copy failed: ".toList ++ f.json.asError.1.Message)
      else
        match f.json.asResult.2 with
        | some e => some ("parse result: ".toList ++ e)
        | none =>
          if !f.json.asResult.1.Success then
            some ("copy failed: ".toList ++ f.json.asResult.1.Error)
          else none

/-- The read loop of `copyFileToWs`: `reads` are the results of the
successive `file.Read(buf)`, `w` the number of messages written on the
connection, `bytesSent` the running total.  The returned error is `none` when
the loop ends at `io.EOF`. -/
def sendChunks (ws : Conn) (callbacks : Option CpCallbacks) :
    List (Bytes × ReadOutcome) → Nat → Int → List Event → List Event × Nat × Option GoString
  | [], w, _, t => (t, w, none)
  | (data, err) :: rest, w, bytesSent, t =>
    if data.length > 0 then
      match ws.writeErr w with
      | some e => (t ++ [.sendBinary data], w + 1, some ("send data: ".toList ++ e))
      | none =>
        -- Notify progress
        let t1 :=
          match callbacks with
          | some cb =>
            if cb.OnProgress then t ++ [.sendBinary data, .onProgress (bytesSent + data.length)]
            else t ++ [.sendBinary data]
          | none => t ++ [.sendBinary data]
        match err with
        | .eof => (t1, w + 1, none)
        | .failure e => (t1, w + 1, some ("read source: ".toList ++ e))
        | .more => sendChunks ws callbacks rest (w + 1) (bytesSent + data.length) t1
    else
      match err with
      | .eof => (t, w, none)
      | .failure e => (t, w, some ("read source: ".toList ++ e))
      | .more => sendChunks ws callbacks rest w bytesSent t

/-- The `copyFileToWs(ws, srcPath, size, callbacks)` function of `lib/cp.go`;
the request was the first message written on `ws`. -/
def copyFileToWs (fs : SrcFS) (ws : Conn) (srcPath : GoString) (size : Int)
    (callbacks : Option CpCallbacks) (t : List Event) : List Event × Option GoString :=
  match fs.Open srcPath with
  | .error e => (t ++ [.openSource srcPath], some ("open source: ".toList ++ e))
  | .ok file =>
    -- Notify file start
    let t1 :=
      match callbacks with
      | some cb =>
        if cb.OnFileStart then t ++ [.openSource srcPath, .onFileStart srcPath size]
        else t ++ [.openSource srcPath]
      | none => t ++ [.openSource srcPath]
    -- buf := make([]byte, 32*1024)
    match sendChunks ws callbacks (file (32 * 1024)) 1 0 t1 with
    | (t2, _, some e) => (t2 ++ [.closeSource srcPath], some e)
    | (t2, w, none) =>
      -- Send end marker
      match ws.writeErr w with
      | some e => (t2 ++ [.sendEnd, .closeSource srcPath], some ("send end: ".toList ++ e))
      | none =>
        match awaitResult ws with
        | some e => (t2 ++ [.sendEnd, .wsRead, .closeSource srcPath], some e)
        | none =>
          -- Notify file end
          let t3 :=
            match callbacks with
            | some cb =>
              if cb.OnFileEnd then t2 ++ [.sendEnd, .wsRead, .onFileEnd srcPath]
              else t2 ++ [.sendEnd, .wsRead]
            | none => t2 ++ [.sendEnd, .wsRead]
          (t3 ++ [.closeSource srcPath], none)

/-- The arguments of `copyDirToWs` that its walk function captures. -/
structure DirCopy where
  srcPath : GoString
  dstPath : GoString
  instanceID : GoString
  archive : Bool
  followLinks : Bool
  callbacks : Option CpCallbacks

mutual

/-- The `cpToInstanceInternal(ctx, cfg, opts, visitedDirs)` function of
`lib/cp.go`.  The result is `none` when the fuel runs out. -/
def cpToInstanceInternal (env : Env) (fs : SrcFS) (cfg : CpConfig) :
    Nat → CpToInstanceOptions → SendState → Option (SendState × Option GoString)
  | 0, _, _ => none
  | fuel + 1, opts, st =>
    -- Build WebSocket URL
    match buildWsURL env cfg.BaseURL opts.InstanceID with
    | .error e => some (st, some ("build ws url: ".toList ++ e))
    | .ok wsURL =>
      -- Connect to WebSocket
      let st1 : SendState :=
        { st with trace := st.trace ++ [.dial wsURL ("Bearer ".toList ++ cfg.APIKey)],
                  dials := st.dials + 1 }
      match env.dial st.dials wsURL with
      | .error f =>
        match f.resp with
        | some (status, body) =>
          some (st1, some ("websocket connect failed (HTTP ".toList ++ env.showStatus status ++
            "): ".toList ++ body))
        | none => some (st1, some ("websocket connect failed: ".toList ++ f.err))
      | .ok ws =>
        -- Stat the source
        match fs.Stat opts.SrcPath with
        | .error e => some (st1.emit .wsClose, some ("stat source: ".toList ++ e))
        | .ok srcInfo =>
          let mode := if opts.Mode == 0 then srcInfo.Perm else opts.Mode
          -- Get UID/GID if archive mode is enabled
          let owner : Nat × Nat :=
            if opts.Archive then
              match srcInfo.Owner with
              | some o => o
              | none => (0, 0)
            else (0, 0)
          -- Send initial request
          let req : cpRequest :=
            { Direction := "to".toList, GuestPath := opts.DstPath, IsDir := srcInfo.IsDir,
              Mode := mode, FollowLinks := opts.FollowLinks, Uid := owner.1, Gid := owner.2 }
          let st2 := st1.emit (.sendRequest req)
          match ws.writeErr 0 with
          | some e => some (st2.emit .wsClose, some ("send request: ".toList ++ e))
          | none =>
            if srcInfo.IsDir then
              -- Track visited directories to detect symlink cycles
              let absPath0 :=
                match Abs env.wd opts.SrcPath with
                | .ok p => p
                | .error _ => []
              let absPath :=
                match fs.EvalSymlinks absPath0 with
                | .ok p => p
                | .error _ => []
              let st3 : SendState :=
                if !st2.visited.contains absPath then
                  { st2 with visited := absPath :: st2.visited }
                else st2
              match copyDirToWs env fs cfg fuel ws
                  { srcPath := opts.SrcPath, dstPath := opts.DstPath,
                    instanceID := opts.InstanceID, archive := opts.Archive,
                    followLinks := opts.FollowLinks, callbacks := opts.Callbacks } st3 with
              | none => none
              | some (st4, r) => some (st4.emit .wsClose, r)
            else
              let r := copyFileToWs fs ws opts.SrcPath srcInfo.Size opts.Callbacks st2.trace
              some (({ st2 with trace := r.1 } : SendState).emit .wsClose, r.2)

/-- The `copyDirToWs` function of `lib/cp.go`; the request was the first
message written on `ws`. -/
def copyDirToWs (env : Env) (fs : SrcFS) (cfg : CpConfig) :
    Nat → Conn → DirCopy → SendState → Option (SendState × Option GoString)
  | 0, _, _, _ => none
  | fuel + 1, ws, dc, st =>
    -- For directory copy, we just send the end marker
    let st1 := st.emit .sendEnd
    match ws.writeErr 1 with
    | some e => some (st1, some ("send end: ".toList ++ e))
    | none =>
      let st2 := st1.emit .wsRead
      match awaitResult ws with
      | some e => some (st2, some e)
      | none =>
        -- Now recursively copy contents: filepath.WalkDir(srcPath, ...)
        match fs.Lstat dc.srcPath with
        | .error e => some (st2, some e)
        | .ok info => walkDir env fs cfg fuel dc dc.srcPath info.IsDir st2

/-- The function literal that `copyDirToWs` passes to `filepath.WalkDir`,
called with a nil `err`. -/
def walkFn (env : Env) (fs : SrcFS) (cfg : CpConfig) :
    Nat → DirCopy → GoString → SendState → Option (SendState × Option GoString)
  | 0, _, _, _ => none
  | fuel + 1, dc, walkPath, st =>
    if walkPath == dc.srcPath then some (st, none) -- Skip root
    else
      match Rel dc.srcPath walkPath with
      | .error e => some (st, some ("relative path: ".toList ++ e))
      | .ok relPath =>
        -- Use path.Join (not filepath.Join) for guest paths to ensure forward slashes
        let targetPath := pathJoin [dc.dstPath, relPath]
        match fs.Lstat walkPath with
        | .error e => some (st, some ("info: ".toList ++ e))
        | .ok info =>
          -- Check for symlink cycles when following links
          let check : Option SendState :=
            if dc.followLinks && info.IsSymlink then
              -- Resolve the symlink to its real path
              match fs.EvalSymlinks walkPath with
              | .error _ => none
              | .ok realPath =>
                match fs.Stat realPath with
                | .error _ => none -- Skip broken symlinks
                | .ok realInfo =>
                  -- If it's a directory symlink, check for cycles
                  if realInfo.IsDir then
                    if st.visited.contains realPath then none
                    else some { st with visited := realPath :: st.visited }
                  else some st
            else some st
          match check with
          | none => some (st, none)
          | some st1 =>
            -- Determine the mode to use
            let mode := if info.IsSymlink && dc.followLinks then 0 else info.Perm
            -- For each file/dir, we need a new WebSocket connection
            cpToInstanceInternal env fs cfg fuel
              { InstanceID := dc.instanceID, SrcPath := walkPath, DstPath := targetPath,
                Mode := mode, Archive := dc.archive, FollowLinks := dc.followLinks,
                Callbacks := dc.callbacks } st1

/-- Go `filepath.walkDir(path, d, walkDirFn)` with the walk function of
`copyDirToWs`, which never returns `SkipDir` or `SkipAll`. -/
def walkDir (env : Env) (fs : SrcFS) (cfg : CpConfig) :
    Nat → DirCopy → GoString → Bool → SendState → Option (SendState × Option GoString)
  | 0, _, _, _, _ => none
  | fuel + 1, dc, path, isDir, st =>
    match walkFn env fs cfg fuel dc path st with
    | none => none
    | some (st1, some e) => some (st1, some e)
    | some (st1, none) =>
      if !isDir then some (st1, none)
      else
        match fs.ReadDir path with
        -- Second call, to report ReadDir error: the walk function returns it
        | (_, some e) => some (st1, some e)
        | (dirs, none) => walkEntries env fs cfg fuel dc path dirs st1

/-- The loop `for _, d1 := range dirs` of Go `filepath.walkDir`. -/
def walkEntries (env : Env) (fs : SrcFS) (cfg : CpConfig) :
    Nat → DirCopy → GoString → List DirEntry → SendState →
      Option (SendState × Option GoString)
  | 0, _, _, _, _ => none
  | _ + 1, _, _, [], st => some (st, none)
  | fuel + 1, dc, path, d1 :: rest, st =>
    match walkDir env fs cfg fuel dc (Join path d1.Name) d1.IsDir st with
    | none => none
    | some (st1, some e) => some (st1, some e)
    | some (st1, none) => walkEntries env fs cfg fuel dc path rest st1

end

/-- The `CpToInstance(ctx, cfg, opts)` function of `lib/cp.go`, run with the
given fuel: the events it causes and the error it returns, or `none` when the
fuel does not suffice. -/
def CpToInstance (env : Env) (fs : SrcFS) (cfg : CpConfig) (fuel : Nat)
    (opts : CpToInstanceOptions) : Option (List Event × Option GoString) :=
  match cpToInstanceInternal env fs cfg fuel opts { trace := [], visited := [], dials := 0 } with
  | none => none
  | some (st, r) => some (st.trace, r)

/-- The receive loop run over some frames only: the state before the next
read, or the `return` one of the frames caused. -/
def recvFrames (env : Env) (opts : CpFromInstanceOptions) : List Frame → RecvState → Step
  | [], s => .next s
  | f :: rest, s =>
    match recvStep env opts (s.emit .wsRead) f with
    | .next s1 => recvFrames env opts rest s1
    | .ret s1 r => .ret s1 r

/-- The state in which `CpFromInstance` enters its receive loop. -/
def recvInit (cfg : CpConfig) (opts : CpFromInstanceOptions) (wsURL : GoString) : RecvState :=
  { currentFile := none, currentHeader := none, bytesReceived := 0, receivedFinal := false,
    trace := [Event.dial wsURL ("Bearer ".toList ++ cfg.APIKey),
      Event.sendRequest (cpRequest.mk "from".toList opts.SrcPath false 0 opts.FollowLinks 0 0)] }

/-- Events that create, remove or change something in the local filesystem. -/
def Event.changesFs : Event → Bool
  | .mkdirAll _ _ => true
  | .chown _ _ _ => true
  | .lchown _ _ _ => true
  | .remove _ => true
  | .symlink _ _ => true
  | .openFile _ _ => true
  | .write _ _ => true
  | .chtimes _ _ => true
  | _ => false

/-- The events of closing the file handle that is open in state `s`. -/
def closeOpen (s : RecvState) : List Event :=
  match s.currentFile with
  | some f => [.closeFile f]
  | none => []

/-- An environment for examples: every local filesystem call succeeds, the
working directory is `/home/user`, and the one connection delivers `frames`
and then closes normally, as `MockWsConn` does. -/
def mockEnv (frames : List Frame) : Env where
  wd := .ok "/home/user".toList
  fsErr := fun _ _ => none
  urlParse := fun _ =>
    .ok { Scheme := "http".toList, Opaque := [], User := none, Host := "localhost:8080".toList,
          Path := [], RawPath := [], OmitHost := false, ForceQuery := false, RawQuery := [],
          Fragment := [], RawFragment := [] }
  urlString := fun u =>
    u.Scheme ++ "://".toList ++ u.Host ++ (if IsAbs u.Path then u.Path else '/' :: u.Path)
  dial := fun _ _ => .ok { writeErr := fun _ => none, frames := frames, ending := .closeNormal }
  showStatus := fun n => (toString n).toList

/-- The configuration used by the tests. -/
def mockCfg : CpConfig := { BaseURL := "http://localhost:8080".toList, APIKey := "test-key".toList }

/-- Options for examples: copy from `/app` of `inst_123` into `/dest`. -/
def mockOpts : CpFromInstanceOptions :=
  { InstanceID := "inst_123".toList, SrcPath := "/app".toList, DstPath := "/dest".toList,
    FollowLinks := false, Archive := false, Callbacks := none }

/-- A header with the given path and all other fields zero. -/
def fileHeader (path : GoString) (mode : Nat) (size mtime : Int) : cpFileHeader :=
  { Path := path, Mode := mode, IsDir := false, IsSymlink := false, LinkTarget := [],
    Size := size, Mtime := mtime, Uid := 0, Gid := 0 }

/-- A symlink header, as in the tests. -/
def symlinkHeader (path target : GoString) : cpFileHeader :=
  { Path := path, Mode := 0o777, IsDir := false, IsSymlink := true, LinkTarget := target,
    Size := 0, Mtime := 0, Uid := 0, Gid := 0 }

/-- The decoding of a payload that is not JSON. -/
def notJSON : Decoded :=
  { asMap := .error "invalid character".toList, asType := .error "invalid character".toList,
    asHeader := .error "invalid character".toList,
    asEndMarker := .error "invalid character".toList,
    asError := ({ Message := [], Path := [] }, some "invalid character".toList),
    asResult := ({ Success := false, Error := [], BytesWritten := 0 },
      some "invalid character".toList) }

/-- The decoding of a JSON object whose `type` is `ty` and that has none of
the other fields. -/
def jsonOfType (ty : GoString) : Decoded :=
  { asMap := .ok ty, asType := .ok ty,
    asHeader := .ok (cpFileHeader.mk [] 0 false false [] 0 0 0 0),
    asEndMarker := .ok (cpEndMarker.mk false),
    asError := ({ Message := [], Path := [] }, none),
    asResult := ({ Success := false, Error := [], BytesWritten := 0 }, none) }

/-- A text frame that carries a header. -/
def headerFrame (hd : cpFileHeader) : Frame :=
  { msgType := TextMessage, data := [],
    json := { (jsonOfType "header".toList) with asHeader := .ok hd } }

/-- A text frame that carries an end marker. -/
def endFrame (final : Bool) : Frame :=
  { msgType := TextMessage, data := [],
    json := { (jsonOfType "end".toList) with asEndMarker := .ok { Final := final } } }

/-- A binary frame. -/
def binaryFrame (data : Bytes) : Frame :=
  { msgType := BinaryMessage, data := data, json := notJSON }

/-- The frame is a text frame that decodes as the header `hd`. -/
def Frame.IsHeader (f : Frame) (hd : cpFileHeader) : Prop :=
  f.msgType = TextMessage ∧ f.json.asMap = .ok "header".toList ∧ f.json.asHeader = .ok hd

/-- The frame is a text frame that decodes as the end marker `m`. -/
def Frame.IsEnd (f : Frame) (m : cpEndMarker) : Prop :=
  f.msgType = TextMessage ∧ f.json.asMap = .ok "end".toList ∧ f.json.asEndMarker = .ok m

/-- The frame is an end marker with `final=true`. -/
def Frame.IsFinalEnd (f : Frame) : Prop := f.IsEnd { Final := true }

/-- The frames of `TestCpFromInstance_PathTraversal`. -/
def traversalFrames : List Frame :=
  [headerFrame (fileHeader "../../../etc/passwd".toList 0o644 100 0)]

/-- The frames of `TestCpFromInstance_AbsoluteSymlinkTarget`. -/
def absSymlinkFrames : List Frame :=
  [headerFrame (symlinkHeader "link".toList "/etc/passwd".toList)]

/-- The frames of `TestCpFromInstance_TraversingSymlinkTarget`. -/
def traversingSymlinkFrames : List Frame :=
  [headerFrame (symlinkHeader "link".toList "../../../etc/passwd".toList)]

/-- The URL the mock environment builds. -/
def mockURL : GoString := "ws://localhost:8080/instances/inst_123/cp".toList

/-- The frames of a transfer cut off after a header and part of the data. -/
def partialFrames : List Frame :=
  [headerFrame (fileHeader "output.txt".toList 0o644 11 1234567890),
   binaryFrame [104, 101, 108]]

/-- The frames of `TestCpFromInstance_NormalFile` (content `hello world`). -/
def normalFileFrames : List Frame :=
  [headerFrame (fileHeader "output.txt".toList 0o644 11 1234567890),
   binaryFrame [104, 101, 108, 108, 111, 32, 119, 111, 114, 108, 100],
   endFrame true]

/-- A text frame that carries a result. -/
def resultFrame (r : cpResult) : Frame :=
  { msgType := TextMessage, data := [],
    json := { (jsonOfType "result".toList) with asResult := (r, none) } }

/-- The reply of a server that accepted the entry. -/
def successFrame : Frame :=
  resultFrame { Success := true, Error := [], BytesWritten := 0 }

/-- What `os.Stat` reports of a directory with mode `0755`. -/
def dirInfo : FileInfo :=
  { IsDir := true, IsSymlink := false, Perm := 0o755, Size := 4096, Owner := some (1000, 1000) }

/-- What `os.Stat` reports of a two-byte regular file with mode `0644`. -/
def smallFileInfo : FileInfo :=
  { IsDir := false, IsSymlink := false, Perm := 0o644, Size := 2, Owner := some (1000, 1000) }

/-- A source tree without symlinks: the directory `/src` holds the directory
`a`, which holds the regular file `f` with content `hi`.  It has three
entries: `/src`, `/src/a` and `/src/a/f`. -/
def nestedFS : SrcFS where
  Stat := fun p =>
    if p = "/src".toList ∨ p = "/src/a".toList then .ok dirInfo
    else if p = "/src/a/f".toList then .ok smallFileInfo
    else .error "no such file or directory".toList
  Lstat := fun p =>
    if p = "/src".toList ∨ p = "/src/a".toList then .ok dirInfo
    else if p = "/src/a/f".toList then .ok smallFileInfo
    else .error "no such file or directory".toList
  ReadDir := fun p =>
    if p = "/src".toList then ([{ Name := "a".toList, IsDir := true }], none)
    else if p = "/src/a".toList then ([{ Name := "f".toList, IsDir := false }], none)
    else ([], some "not a directory".toList)
  EvalSymlinks := fun p => .ok p
  Open := fun p =>
    if p = "/src/a/f".toList then .ok (fun _ => [([104, 105], .more)])
    else .error "no such file or directory".toList

/-- Options for examples: copy `/src` to `/dst` of `inst_123`. -/
def nestedOpts : CpToInstanceOptions :=
  { InstanceID := "inst_123".toList, SrcPath := "/src".toList, DstPath := "/dst".toList,
    Mode := 0, Archive := false, FollowLinks := false, Callbacks := none }

/-- The event is a dial. -/
def Event.isDial : Event → Bool
  | .dial _ _ => true
  | _ => false

/-- The event is the request for the guest path `p`. -/
def Event.isRequestFor (p : GoString) : Event → Bool
  | .sendRequest req => req.GuestPath == p
  | _ => false

/-- A symlink header whose link path is the destination root itself,
followed by the final end marker. -/
def rootSymlinkFrames : List Frame :=
  [headerFrame (symlinkHeader ".".toList "etc".toList), endFrame true]

/-- The event creates a symlink. -/
def Event.isSymlink : Event → Bool
  | .symlink _ _ => true
  | _ => false

/-- An iteration that is not the end of the transfer: it continues with the
flag `receivedFinal` unchanged, or it returns an error. -/
def Step.NotFinal (b : Bool) : Step → Prop
  | .next s1 => s1.receivedFinal = b
  | .ret _ r => r ≠ none

/-- The effect of one event on the content of the file at `path`: opening it
with `O_CREATE|O_TRUNC` makes it empty, a write on its handle appends. -/
def contentStep (path : GoString) (c : Option Bytes) : Event → Option Bytes
  | .openFile p _ => if p = path then some [] else c
  | .write p d => if p = path then c.map (fun x => x ++ d) else c
  | _ => c

/-- The content of the file at `path` that a sequence of events has written;
`none` when the events never created it. -/
def fileContent (path : GoString) (trace : List Event) : Option Bytes :=
  trace.foldl (contentStep path) none

/-- A property of the state an iteration ends in, whether it continues or
returns. -/
def Step.Holds (P : RecvState → Prop) : Step → Prop
  | .next s1 => P s1
  | .ret s1 _ => P s1

/-- The state an iteration ends in. -/
def Step.state : Step → RecvState
  | .next s1 => s1
  | .ret s1 _ => s1

/-! ## Notions and examples for the claims about the wire protocol -/

/-- Go `strings.Cut(s, sep)`: the text before and after the first `sep`. -/
def cut (sep : GoString) : GoString → Option (GoString × GoString)
  | [] => if sep.isEmpty then some ([], []) else none
  | c :: t =>
    if sep.isPrefixOf (c :: t) then some ([], (c :: t).drop sep.length)
    else
      match cut sep t with
      | some (a, b) => some (c :: a, b)
      | none => none

/-- An environment for the examples of `TestBuildWsURL`: what `url.Parse` and
`URL.String` do on a URL of the form `scheme://host/path`, without user
information, query, fragment or escapes; no connection can be dialed. -/
def urlEnv : Env where
  wd := .ok "/home/user".toList
  fsErr := fun _ _ => none
  urlParse := fun s =>
    match cut "://".toList s with
    | none => .error "missing protocol scheme".toList
    | some (scheme, rest) =>
      .ok { Scheme := scheme, Opaque := [], User := none,
            Host := rest.takeWhile (fun c => c != '/'),
            Path := rest.dropWhile (fun c => c != '/'), RawPath := [], OmitHost := false,
            ForceQuery := false, RawQuery := [], Fragment := [], RawFragment := [] }
  urlString := fun u =>
    u.Scheme ++ "://".toList ++ u.Host ++
      (if u.Path = [] then [] else if IsAbs u.Path then u.Path else '/' :: u.Path)
  dial := fun _ _ => .error { err := "connection refused".toList, resp := none }
  showStatus := fun n => (toString n).toList

/-- A text frame with a JSON object of an unknown type and no other field. -/
def unknownTypeFrame : Frame :=
  { msgType := TextMessage, data := [], json := jsonOfType "progress".toList }

/-- A text frame with a JSON object of an unknown type that also has
`"success": true`. -/
def unknownTypeSuccessFrame : Frame :=
  { msgType := TextMessage, data := [],
    json := { (jsonOfType "progress".toList) with
      asResult := ({ Success := true, Error := [], BytesWritten := 0 }, none) } }

/-- The chunks that the successive reads of a file deliver, up to the read
that ends the file. -/
def readUntilEOF : List (Bytes × ReadOutcome) → List Bytes
  | [] => []
  | (d, .more) :: rest => d :: readUntilEOF rest
  | (d, _) :: _ => [d]

/-- The read failed with an error other than `io.EOF`. -/
def ReadOutcome.isFailure : ReadOutcome → Bool
  | .failure _ => true
  | _ => false

/-- The content of a source file, as its reads deliver it. -/
def fileBytes (reads : List (Bytes × ReadOutcome)) : Bytes :=
  (readUntilEOF reads).flatten

/-- The reads of a file that deliver at least one byte. -/
def dataFrames (reads : List (Bytes × ReadOutcome)) : List Bytes :=
  (readUntilEOF reads).filter (fun d => d.length > 0)

/-- Whether the `OnProgress` callback is set. -/
def wantsProgress : Option CpCallbacks → Bool
  | some cb => cb.OnProgress
  | none => false

/-- The events of sending the chunks `cs` one after the other when `b` bytes
were sent before them. -/
def chunkEvents (progress : Bool) : Int → List Bytes → List Event
  | _, [] => []
  | b, d :: rest =>
    (if progress then [Event.sendBinary d, Event.onProgress (b + d.length)]
      else [Event.sendBinary d]) ++ chunkEvents progress (b + d.length) rest

/-- The running totals of the lengths of the chunks `cs`, from `b`. -/
def progressValues : Int → List Bytes → List Int
  | _, [] => []
  | b, d :: rest => (b + d.length) :: progressValues (b + d.length) rest

/-- The event is a frame written on or read from the connection. -/
def Event.onWire : Event → Bool
  | .sendRequest _ => true
  | .sendBinary _ => true
  | .sendEnd => true
  | .wsRead => true
  | _ => false

/-- The event is the call of a callback. -/
def Event.isCallback : Event → Bool
  | .onFileStart _ _ => true
  | .onProgress _ => true
  | .onFileEnd _ => true
  | _ => false

/-- The request that `cpToInstanceInternal` sends for the entry of `opts`
whose `os.Stat` is `info`. -/
def requestFor (opts : CpToInstanceOptions) (info : FileInfo) : cpRequest :=
  { Direction := "to".toList, GuestPath := opts.DstPath, IsDir := info.IsDir,
    Mode := if opts.Mode == 0 then info.Perm else opts.Mode,
    FollowLinks := opts.FollowLinks,
    Uid := if opts.Archive then (info.Owner.getD (0, 0)).1 else 0,
    Gid := if opts.Archive then (info.Owner.getD (0, 0)).2 else 0 }

/-- The call of `OnFileStart`, when it is set. -/
def startEvents (cb : Option CpCallbacks) (path : GoString) (size : Int) : List Event :=
  match cb with
  | some cb => if cb.OnFileStart then [.onFileStart path size] else []
  | none => []

/-- The call of `OnFileEnd`, when it is set. -/
def endEvents (cb : Option CpCallbacks) (path : GoString) : List Event :=
  match cb with
  | some cb => if cb.OnFileEnd then [.onFileEnd path] else []
  | none => []

/-- The reads of a regular file with the given content through a buffer of
`n` bytes, when every read fills the buffer as far as the content goes. -/
def readsOf (content : Bytes) (n : Nat) : List (Bytes × ReadOutcome) :=
  if n = 0 then []
  else (List.range ((content.length + n - 1) / n)).map
    (fun i => ((content.drop (i * n)).take n, ReadOutcome.more))

/-- The bytes of `hello world`. -/
def helloWorld : Bytes := [104, 101, 108, 108, 111, 32, 119, 111, 114, 108, 100]

/-- The source of `TestCpToInstance_SingleFile` and `TestCpCallbacks`: the
regular file `/tmp/test.txt` with mode `0644` and content `hello world`. -/
def helloFS : SrcFS where
  Stat := fun p =>
    if p = "/tmp/test.txt".toList then
      .ok { IsDir := false, IsSymlink := false, Perm := 0o644, Size := 11,
            Owner := some (1000, 1000) }
    else .error "no such file or directory".toList
  Lstat := fun p =>
    if p = "/tmp/test.txt".toList then
      .ok { IsDir := false, IsSymlink := false, Perm := 0o644, Size := 11,
            Owner := some (1000, 1000) }
    else .error "no such file or directory".toList
  ReadDir := fun _ => ([], some "not a directory".toList)
  EvalSymlinks := fun p => .ok p
  Open := fun p =>
    if p = "/tmp/test.txt".toList then .ok (readsOf helloWorld)
    else .error "no such file or directory".toList

/-- The options of `TestCpToInstance_SingleFile`. -/
def helloOpts : CpToInstanceOptions :=
  { InstanceID := "inst_123".toList, SrcPath := "/tmp/test.txt".toList,
    DstPath := "/app/test.txt".toList, Mode := 0, Archive := false, FollowLinks := false,
    Callbacks := none }

/-- The frame decodes as the error message `e`. -/
def Frame.IsError (f : Frame) (e : cpError) : Prop :=
  f.json.asType = .ok "error".toList ∧ f.json.asError = (e, none)

/-- The frame decodes as the result message `r`. -/
def Frame.IsResult (f : Frame) (r : cpResult) : Prop :=
  f.json.asType = .ok "result".toList ∧ f.json.asResult = (r, none)

/-- A text frame that carries an error message. -/
def errorFrame (e : cpError) : Frame :=
  { msgType := TextMessage, data := [],
    json := { (jsonOfType "error".toList) with asError := (e, none) } }

/-- All three callbacks are set. -/
def allCallbacks : CpCallbacks := { OnFileStart := true, OnProgress := true, OnFileEnd := true }

/-- A connection on which every write succeeds and that delivers `frames`. -/
def mockConn (frames : List Frame) : Conn :=
  { writeErr := fun _ => none, frames := frames, ending := .closeNormal }

/-- The effect of one event on the connections of an operation: `c.1` counts
the dials so far, `c.2` the connections that are open.  A dial that succeeds
opens one, `ws.Close()` closes one; the result is `none` when a connection is
closed while none is open. -/
def connStep (env : Env) (c : Nat × Nat) : Event → Option (Nat × Nat)
  | .dial url _ =>
    match env.dial c.1 url with
    | .ok _ => some (c.1 + 1, c.2 + 1)
    | .error _ => some (c.1 + 1, c.2)
  | .wsClose => if c.2 = 0 then none else some (c.1, c.2 - 1)
  | _ => some c

/-- The dials made and the connections open after a sequence of events. -/
def connReplay (env : Env) : Nat × Nat → List Event → Option (Nat × Nat)
  | c, [] => some c
  | c, ev :: rest =>
    match connStep env c ev with
    | none => none
    | some c1 => connReplay env c1 rest

/-- The events `st'` has more than `st` open no connection that they do not
close, and close none that they did not open. -/
def Grows (env : Env) (st st' : SendState) : Prop :=
  ∃ evs, st'.trace = st.trace ++ evs ∧
    ∀ k, connReplay env (st.dials, k) evs = some (st'.dials, k)

/-- The event dials or closes a connection. -/
def Event.isConn : Event → Bool
  | .dial _ _ => true
  | .wsClose => true
  | _ => false

/-- The state after the dial of `cpToInstanceInternal`. -/
def dialed (cfg : CpConfig) (wsURL : GoString) (st : SendState) : SendState :=
  { st with trace := st.trace ++ [.dial wsURL ("Bearer ".toList ++ cfg.APIKey)],
            dials := st.dials + 1 }

/-- The key under which `cpToInstanceInternal` records a directory in
`visitedDirs`: `filepath.EvalSymlinks` of `filepath.Abs` of its path, both with
their errors dropped. -/
def visitedKey (env : Env) (fs : SrcFS) (path : GoString) : GoString :=
  match fs.EvalSymlinks (match Abs env.wd path with
    | .ok p => p
    | .error _ => []) with
  | .ok p => p
  | .error _ => []

/-- The state in which `cpToInstanceInternal` calls `copyDirToWs`: the dial
and the request are done and the directory is recorded as visited. -/
def requested (env : Env) (fs : SrcFS) (cfg : CpConfig) (opts : CpToInstanceOptions)
    (info : FileInfo) (wsURL : GoString) (st : SendState) : SendState :=
  let st2 := (dialed cfg wsURL st).emit (.sendRequest (requestFor opts info))
  if !st2.visited.contains (visitedKey env fs opts.SrcPath) then
    { st2 with visited := visitedKey env fs opts.SrcPath :: st2.visited }
  else st2

/-- The arguments that `cpToInstanceInternal` passes on to `copyDirToWs`. -/
def dirCopyOf (opts : CpToInstanceOptions) : DirCopy :=
  { srcPath := opts.SrcPath, dstPath := opts.DstPath, instanceID := opts.InstanceID,
    archive := opts.Archive, followLinks := opts.FollowLinks, callbacks := opts.Callbacks }

/-- The error text of a failed dial. -/
def dialErrorText (env : Env) (f : DialFailure) : GoString :=
  match f.resp with
  | some (status, body) =>
    "websocket connect failed (HTTP ".toList ++ env.showStatus status ++ "): ".toList ++ body
  | none => "websocket connect failed: ".toList ++ f.err

/-- Whether `os.Lstat` reports a directory at the path (and not a symlink to
one, nor an error). -/
def isRealDir (fs : SrcFS) (p : GoString) : Bool :=
  match fs.Lstat p with
  | .ok info => info.IsDir
  | .error _ => false

/-- A source tree of finite depth and width, as far as the walk descends: the
walk lists a path only when its directory entry or `os.Lstat` reports a
directory, `rank` decreases from a listed directory to every such entry of its
listing, and no listing has more than `width` entries.  Symlinks are not
descended into, so a symlink that points back to an ancestor does not stand in
the way of such a rank. -/
structure FiniteTree (fs : SrcFS) where
  rank : GoString → Nat
  width : Nat
  rank_lt : ∀ p d, d ∈ (fs.ReadDir p).1 →
    d.IsDir = true ∨ isRealDir fs (Join p d.Name) = true → rank (Join p d.Name) < rank p
  width_le : ∀ p, (fs.ReadDir p).1.length ≤ width

/-- The effect of one event on the local file handle of `CpFromInstance`:
`cur` is the path of the handle that is open and `pre` are the events before
this one.  An `os.OpenFile` that succeeds opens a handle, `Close` closes it;
the result is `none` when a handle is opened while another one is still open,
or when a handle is closed that is not the open one. -/
def handleStep (env : Env) (pre : List Event) (cur : Option GoString) :
    Event → Option (Option GoString)
  | .openFile p m =>
    match env.fsErr pre (.openFile p m) with
    | some _ => some cur
    | none => if cur = none then some (some p) else none
  | .closeFile p => if cur = some p then some none else none
  | _ => some cur

/-- The file handle that is open after the events `evs`, which follow the
events `pre`. -/
def handleReplay (env : Env) : List Event → Option GoString → List Event →
    Option (Option GoString)
  | _, cur, [] => some cur
  | pre, cur, ev :: rest =>
    match handleStep env pre cur ev with
    | none => none
    | some c => handleReplay env (pre ++ [ev]) c rest

/-- What holds between iterations of the receive loop: the events so far
opened one connection and left it open, and the file handle they left open is
`currentFile`. -/
def RecvInv (env : Env) (s : RecvState) : Prop :=
  handleReplay env [] none s.trace = some s.currentFile ∧
  connReplay env (0, 0) s.trace = some (1, 1)

/-- What `os.Lstat` reports of a symlink. -/
def linkInfo : FileInfo :=
  { IsDir := false, IsSymlink := true, Perm := 0o777, Size := 2, Owner := some (1000, 1000) }

/-- A source tree with a symlink that points back to an ancestor: below the
working directory `/home/user` the directory `dir` holds the symlink `back`
with target `.`, that is `dir` itself.  The tree is given under its relative
and under its absolute name; `filepath.EvalSymlinks` of a relative path is
relative, as in Go.  Paths that go on through the symlink are left out. -/
def cycleFS : SrcFS where
  Stat := fun p =>
    if p ∈ ["dir".toList, "dir/back".toList, "/home/user/dir".toList,
        "/home/user/dir/back".toList] then .ok dirInfo
    else .error "no such file or directory".toList
  Lstat := fun p =>
    if p ∈ ["dir".toList, "/home/user/dir".toList] then .ok dirInfo
    else if p ∈ ["dir/back".toList, "/home/user/dir/back".toList] then .ok linkInfo
    else .error "no such file or directory".toList
  ReadDir := fun p =>
    if p ∈ ["dir".toList, "/home/user/dir".toList, "dir/back".toList,
        "/home/user/dir/back".toList] then ([{ Name := "back".toList, IsDir := false }], none)
    else ([], some "no such file or directory".toList)
  EvalSymlinks := fun p =>
    if p ∈ ["dir".toList, "dir/back".toList] then .ok "dir".toList
    else if p ∈ ["/home/user/dir".toList, "/home/user/dir/back".toList] then
      .ok "/home/user/dir".toList
    else .error "no such file or directory".toList
  Open := fun _ => .error "is a directory".toList

/-- Options for examples: copy the entry at `src` to `/dst` of `inst_123`,
following symlinks. -/
def followOpts (src : GoString) : CpToInstanceOptions :=
  { InstanceID := "inst_123".toList, SrcPath := src, DstPath := "/dst".toList,
    Mode := 0, Archive := false, FollowLinks := true, Callbacks := none }

/-- The event is the request for the guest path `p` as a directory. -/
def Event.isDirRequestFor (p : GoString) : Event → Bool
  | .sendRequest req => req.GuestPath == p && req.IsDir
  | _ => false

/-- An environment in which the first three connections answer with
success and the fourth one with a failed result. -/
def fourthFailsEnv : Env :=
  { (mockEnv [successFrame]) with
    dial := fun n _ =>
      .ok (mockConn (if n = 3 then
          [resultFrame { Success := false, Error := "file exists".toList, BytesWritten := 0 }]
        else [successFrame])) }

/-- The `n`-th dial of an operation cannot carry a successful transfer: the
dial fails, or the connection it opens fails to write the request, or what it
answers is not a successful result. -/
def doomed (env : Env) (url : GoString) (n : Nat) : Bool :=
  match env.dial n url with
  | .error _ => true
  | .ok ws => (ws.writeErr 0).isSome || (awaitResult ws).isSome

/-- Nothing is dialed after a connection that cannot carry a successful
transfer: if one of the dials made between `st` and `st'` is such a
connection, it is the last dial and the call returns an error. -/
def FailsFast (env : Env) (url : GoString) (st st' : SendState) (r : Option GoString) : Prop :=
  st.dials ≤ st'.dials ∧
    ∀ n, st.dials ≤ n → n < st'.dials → doomed env url n = true →
      n + 1 = st'.dials ∧ r ≠ none

/-- The WebSocket scheme `buildWsURL` gives a URL of scheme `s`. -/
def wsScheme (s : GoString) : GoString :=
  if s = "https".toList then "wss".toList
  else if s = "http".toList then "ws".toList
  else s

/-- The three segments `buildWsURL` appends to the path of the base URL. -/
def cpSegments (instanceID : GoString) : List GoString :=
  ["instances".toList, instanceID, "cp".toList]

/-- The tree of `cycleFS` is finite as far as the walk descends: its only
entry is a symlink, which the walk does not list. -/
def cycleTree : FiniteTree cycleFS where
  rank := fun _ => 0
  width := 1
  rank_lt := by
    intro p d hd h
    exfalso
    have hr : cycleFS.ReadDir p =
        if p ∈ ["dir".toList, "/home/user/dir".toList, "dir/back".toList,
          "/home/user/dir/back".toList] then
          ([{ Name := "back".toList, IsDir := false }], none)
        else ([], some "no such file or directory".toList) := rfl
    by_cases hp : p ∈ ["dir".toList, "/home/user/dir".toList, "dir/back".toList,
        "/home/user/dir/back".toList]
    · rw [hr, if_pos hp, List.mem_singleton] at hd
      subst hd
      simp only [List.mem_cons, List.mem_singleton, List.not_mem_nil, or_false] at hp
      rcases hp with rfl | rfl | rfl | rfl <;> revert h <;> decide
    · rw [hr, if_neg hp] at hd
      cases hd
  width_le := by
    intro p
    have hr : cycleFS.ReadDir p =
        if p ∈ ["dir".toList, "/home/user/dir".toList, "dir/back".toList,
          "/home/user/dir/back".toList] then
          ([{ Name := "back".toList, IsDir := false }], none)
        else ([], some "no such file or directory".toList) := rfl
    rw [hr]
    split <;> simp

/-- The tree of `nestedFS` is finite: `/src` has rank 2, `/src/a` rank 1. -/
def nestedTree : FiniteTree nestedFS where
  rank := fun p => if p = "/src".toList then 2 else if p = "/src/a".toList then 1 else 0
  width := 1
  rank_lt := by
    intro p d hd h
    have hr : nestedFS.ReadDir p =
        if p = "/src".toList then ([{ Name := "a".toList, IsDir := true }], none)
        else if p = "/src/a".toList then ([{ Name := "f".toList, IsDir := false }], none)
        else ([], some "not a directory".toList) := rfl
    by_cases h1 : p = "/src".toList
    · rw [hr, if_pos h1, List.mem_singleton] at hd
      subst hd
      subst h1
      decide
    · by_cases h2 : p = "/src/a".toList
      · rw [hr, if_neg h1, if_pos h2, List.mem_singleton] at hd
        subst hd
        subst h2
        exfalso
        revert h
        decide
      · rw [hr, if_neg h1, if_neg h2] at hd
        cases hd
  width_le := by
    intro p
    have hr : nestedFS.ReadDir p =
        if p = "/src".toList then ([{ Name := "a".toList, IsDir := true }], none)
        else if p = "/src/a".toList then ([{ Name := "f".toList, IsDir := false }], none)
        else ([], some "not a directory".toList) := rfl
    rw [hr]
    repeat' split
    all_goals simp

/-- The events of `OnFileStart` for the header `hd`, if the callback is set. -/
def fileStartEvents (cb : Option CpCallbacks) (hd : cpFileHeader) : List Event :=
  match cb with
  | some c => if c.OnFileStart then [.onFileStart hd.Path hd.Size] else []
  | none => []

/-- The events of `OnFileEnd` for the header `hd`, if the callback is set. -/
def fileEndEvents (cb : Option CpCallbacks) (hd : cpFileHeader) : List Event :=
  match cb with
  | some c => if c.OnFileEnd then [.onFileEnd hd.Path] else []
  | none => []

/-- The events of a file header with an accepted path, read in state `s`,
when the local calls succeed: the read, the close of the handle that is still
open, the parent directory, the file, the callback. -/
def headerEvents (opts : CpFromInstanceOptions) (s : RecvState) (hd : cpFileHeader)
    (target : GoString) : List Event :=
  Event.wsRead :: (closeOpen s ++ [.mkdirAll (Dir target) 0o755, .openFile target hd.Mode] ++
    fileStartEvents opts.Callbacks hd)

/-- The events of binary frames received while the handle opened at `target`
is open, when the writes succeed; `n` is `bytesReceived` before them. -/
def dataEvents (cb : Option CpCallbacks) (target : GoString) : Int → List Frame → List Event
  | _, [] => []
  | n, b :: rest =>
    [Event.wsRead, Event.write target b.data] ++
      (if wantsProgress cb then [Event.onProgress (n + b.data.length)] else []) ++
      dataEvents cb target (n + b.data.length) rest

/-- The events of an end marker received while the handle opened at `target`
by the header `hd` is open. -/
def endMarkerEvents (opts : CpFromInstanceOptions) (hd : cpFileHeader) (target : GoString) :
    List Event :=
  [Event.wsRead, Event.closeFile target] ++
    (if hd.Mtime > 0 then [Event.chtimes target hd.Mtime] else []) ++
    (if opts.Archive then [Event.chown target hd.Uid hd.Gid] else []) ++
    fileEndEvents opts.Callbacks hd

/-- The number of bytes in the payloads of some frames. -/
def payloadLength (bfs : List Frame) : Int := ((bfs.map Frame.data).flatten.length : Nat)

/-- Frames of a file whose header has a negative modification time. -/
def negativeMtimeFrames : List Frame :=
  [headerFrame (fileHeader "a".toList 0o644 0 (-5)), endFrame true]

/-- Frames in which the header of a second file follows the data of a first
one without an end marker in between. -/
def noEndBetweenFrames : List Frame :=
  [headerFrame (fileHeader "a".toList 0o644 5 0), binaryFrame [1, 2, 3, 4, 5],
   headerFrame (fileHeader "b".toList 0o644 3 0), binaryFrame [1, 2, 3], endFrame true]

/-- Options for examples: as `mockOpts`, with all callbacks set. -/
def callbackOpts : CpFromInstanceOptions := { mockOpts with Callbacks := some allCallbacks }

/-- The local path that an event creates, opens, removes or changes the
attributes of. -/
def Event.localPath : Event → Option GoString
  | .mkdirAll p _ => some p
  | .chown p _ _ => some p
  | .lchown p _ _ => some p
  | .remove p => some p
  | .symlink _ p => some p
  | .openFile p _ => some p
  | .chtimes p _ => some p
  | _ => none

/-- The path `p` is `base` itself or a descendant of `base`, both made
absolute; below the root lies every path. -/
def InsideDst (wd : Except GoString GoString) (base p : GoString) : Prop :=
  ∃ absBase absP, Abs wd base = .ok absBase ∧ Abs wd p = .ok absP ∧
    (absP = absBase ∨ (absBase ++ [Separator]) <+: absP ∨ absBase = [Separator])

/-- The local path of the event is a result of `sanitizePath` for `DstPath`,
or the event is the `os.MkdirAll` of the parent directory of such a result. -/
def Confined (env : Env) (opts : CpFromInstanceOptions) (ev : Event) : Prop :=
  ∀ p, ev.localPath = some p →
    (∃ hp, sanitizePath env.wd opts.DstPath hp = .ok p) ∨
    (∃ hp q, sanitizePath env.wd opts.DstPath hp = .ok q ∧ ev = .mkdirAll (Dir q) 0o755)

/-- What holds between iterations of the receive loop: the events so far are
confined, and the handle that is open was opened at the sanitized path of the
current header. -/
def PathInv (env : Env) (opts : CpFromInstanceOptions) (s : RecvState) : Prop :=
  (∀ ev ∈ s.trace, Confined env opts ev) ∧
  (∀ f, s.currentFile = some f →
    ∃ h, s.currentHeader = some h ∧ sanitizePath env.wd opts.DstPath h.Path = .ok f)

/-- Frames of a file whose header names the destination itself. -/
def rootFileFrames : List Frame :=
  [headerFrame (fileHeader ".".toList 0o644 5 0), binaryFrame [1, 2, 3, 4, 5], endFrame true]

/-- A source tree with a symlink to a file: `/src` holds the symlink `l`
with target `/data/f`, a two-byte regular file with mode `0644`. -/
def fileLinkFS : SrcFS where
  Stat := fun p =>
    if p = "/src".toList then .ok dirInfo
    else if p = "/src/l".toList ∨ p = "/data/f".toList then .ok smallFileInfo
    else .error "no such file or directory".toList
  Lstat := fun p =>
    if p = "/src".toList then .ok dirInfo
    else if p = "/src/l".toList then .ok linkInfo
    else if p = "/data/f".toList then .ok smallFileInfo
    else .error "no such file or directory".toList
  ReadDir := fun p =>
    if p = "/src".toList then ([{ Name := "l".toList, IsDir := false }], none)
    else ([], some "not a directory".toList)
  EvalSymlinks := fun p =>
    if p = "/src/l".toList then .ok "/data/f".toList else .ok p
  Open := fun p =>
    if p = "/src/l".toList ∨ p = "/data/f".toList then .ok (fun _ => [([104, 105], .more)])
    else .error "no such file or directory".toList

/-- A source tree with a symlink to a directory outside it: `/src` holds the
symlink `link` with target `/data`, a directory that holds the regular file
`f`. -/
def dirLinkFS : SrcFS where
  Stat := fun p =>
    if p ∈ ["/src".toList, "/src/link".toList, "/data".toList] then .ok dirInfo
    else if p ∈ ["/src/link/f".toList, "/data/f".toList] then .ok smallFileInfo
    else .error "no such file or directory".toList
  Lstat := fun p =>
    if p ∈ ["/src".toList, "/data".toList] then .ok dirInfo
    else if p = "/src/link".toList then .ok linkInfo
    else if p ∈ ["/src/link/f".toList, "/data/f".toList] then .ok smallFileInfo
    else .error "no such file or directory".toList
  ReadDir := fun p =>
    if p = "/src".toList then ([{ Name := "link".toList, IsDir := false }], none)
    else if p ∈ ["/src/link".toList, "/data".toList] then
      ([{ Name := "f".toList, IsDir := false }], none)
    else ([], some "not a directory".toList)
  EvalSymlinks := fun p =>
    if p = "/src/link".toList then .ok "/data".toList
    else if p = "/src/link/f".toList then .ok "/data/f".toList
    else .ok p
  Open := fun p =>
    if p ∈ ["/src/link/f".toList, "/data/f".toList] then .ok (fun _ => [([104, 105], .more)])
    else .error "is a directory".toList

/-- A source tree with a symlink to a sibling directory: `/src` holds the
empty directory `a` and the symlink `b` with target `a`. -/
def siblingFS : SrcFS where
  Stat := fun p =>
    if p ∈ ["/src".toList, "/src/a".toList, "/src/b".toList] then .ok dirInfo
    else .error "no such file or directory".toList
  Lstat := fun p =>
    if p ∈ ["/src".toList, "/src/a".toList] then .ok dirInfo
    else if p = "/src/b".toList then .ok linkInfo
    else .error "no such file or directory".toList
  ReadDir := fun p =>
    if p = "/src".toList then
      ([{ Name := "a".toList, IsDir := true }, { Name := "b".toList, IsDir := false }], none)
    else if p ∈ ["/src/a".toList, "/src/b".toList] then ([], none)
    else ([], some "not a directory".toList)
  EvalSymlinks := fun p =>
    if p = "/src/b".toList then .ok "/src/a".toList else .ok p
  Open := fun _ => .error "is a directory".toList

/-- The guest path and the mode of a request. -/
def Event.requestMode : Event → Option (GoString × Nat)
  | .sendRequest req => some (req.GuestPath, req.Mode)
  | _ => none

/-- An environment in which the first connection answers with success and
every later dial is refused. -/
def secondDialFailsEnv : Env :=
  { (mockEnv [successFrame]) with
    dial := fun n _ =>
      if n = 0 then .ok (mockConn [successFrame])
      else .error { err := "connection refused".toList, resp := none } }

/-- The copy of `/src` to `/dst` with the `Mode` option set to `0600`. -/
def nestedModeOpts : CpToInstanceOptions :=
  { InstanceID := "inst_123".toList, SrcPath := "/src".toList, DstPath := "/dst".toList,
    Mode := 0o600, Archive := false, FollowLinks := false, Callbacks := none }

/-! ## Specification-level view of paths

The definitions below are not taken from the program: they describe a path as
a list of segments and are what `Clean` is proved to compute. -/

/-- The segments of a path: the pieces between separators. -/
def segments : GoString → List GoString
  | [] => [[]]
  | c :: t =>
    if IsPathSeparator c then [] :: segments t
    else
      match segments t with
      | [] => [[c]]
      | s :: ss => (c :: s) :: ss

/-- Segments joined with single separators. -/
def joinSegs : List GoString → GoString
  | [] => []
  | [s] => s
  | s :: t => s ++ Separator :: joinSegs t

/-- A proper file name: not empty, no separator inside, neither `.` nor `..`. -/
def IsName (s : GoString) : Prop :=
  s ≠ [] ∧ (∀ c ∈ s, IsPathSeparator c = false) ∧ s ≠ ['.'] ∧ s ≠ ['.', '.']

/-- The leading `..` segments of a normalised relative path. -/
def dots (k : Nat) : List GoString := List.replicate k ['.', '.']

/-- The text of a normalised path with `k` leading `..` segments followed by
`names`: what `Clean` holds in its output buffer. -/
def render (rooted : Bool) (k : Nat) (names : List GoString) : GoString :=
  if rooted then Separator :: joinSegs (dots k ++ names) else joinSegs (dots k ++ names)

/-- One segment applied to a normalised path `(k, names)`. -/
def normStep (rooted : Bool) (st : Nat × List GoString) (seg : GoString) :
    Nat × List GoString :=
  if seg = [] ∨ seg = ['.'] then st
  else if seg = ['.', '.'] then
    if st.2 ≠ [] then (st.1, st.2.dropLast)
    else if rooted then st
    else (st.1 + 1, [])
  else (st.1, st.2 ++ [seg])

/-- All segments of `rest` applied in order to `(k, names)`. -/
def foldSegs (rooted : Bool) (st : Nat × List GoString) (rest : GoString) :
    Nat × List GoString :=
  (segments rest).foldl (normStep rooted) st

/-- The normal form of a path: rootedness, number of leading `..`, names. -/
def normalForm (path : GoString) : Nat × List GoString :=
  foldSegs (IsAbs path) (0, []) path

/-- The specification of `Clean`: the normal form written out, `.` when it
is empty. -/
def cleanSpec (path : GoString) : GoString :=
  let nf := normalForm path
  let out := render (IsAbs path) nf.1 nf.2
  if out = [] then ['.'] else out

/-- The property kept by normalisation: every name is proper, and a rooted
path has no leading `..`. -/
def NormOK (rooted : Bool) (st : Nat × List GoString) : Prop :=
  (∀ s ∈ st.2, IsName s) ∧ (rooted = true → st.1 = 0)

/-- An error text mentions a phrase when the phrase occurs in it. -/
def Mentions (err phrase : GoString) : Prop := phrase <:+: err

/-- A normalised path starts with a parent-directory segment: it is `..`
itself or begins with `../`. -/
def StartsWithParentSegment (cleaned : GoString) : Prop :=
  cleaned = ['.', '.'] ∨ ['.', '.', '/'] <+: cleaned

/-- The change of depth below the starting directory made by one segment:
an empty segment or `.` stays, `..` goes up, any other segment goes down. -/
def segDepth (seg : GoString) : Int :=
  if seg = [] ∨ seg = ['.'] then 0 else if seg = ['.', '.'] then -1 else 1

/-- The depth below the starting directory after a list of segments. -/
def depthAfter (segs : List GoString) : Int := (segs.map segDepth).sum

/-- Read left to right, the candidate has at some point seen more `..`
segments than ordinary segments: one of its `..` is not cancelled. -/
def ClimbsAboveStart (cand : GoString) : Prop :=
  ∃ n, depthAfter ((segments cand).take n) < 0

/-! ## Theory of `Clean` -/

theorem isPathSeparator_iff (c : Char) : IsPathSeparator c = true ↔ c = '/' := by
  simp [IsPathSeparator, Separator]

theorem isPathSeparator_false_iff (c : Char) : IsPathSeparator c = false ↔ c ≠ '/' := by
  simp [IsPathSeparator, Separator]

theorem segments_ne_nil (l : GoString) : segments l ≠ [] := by
  cases l with
  | nil => simp [segments]
  | cons c t =>
    unfold segments
    split
    · simp
    · split <;> simp

theorem foldSegs_nil (rooted : Bool) (st : Nat × List GoString) :
    foldSegs rooted st [] = st := by
  simp [foldSegs, segments, normStep]

theorem foldSegs_sep (rooted : Bool) (st : Nat × List GoString) (t : GoString) :
    foldSegs rooted st ('/' :: t) = foldSegs rooted st t := by
  simp [foldSegs, segments, normStep, IsPathSeparator, Separator]

/-- The segments of a path, read off one element at a time. -/
theorem segments_elem (l : GoString) :
    segments l = l.takeWhile (fun x => !IsPathSeparator x) ::
      (match l.dropWhile (fun x => !IsPathSeparator x) with
        | [] => []
        | _ :: t => segments t) := by
  induction l with
  | nil => simp [segments]
  | cons c t ih =>
    by_cases hc : IsPathSeparator c = true
    · simp [segments, hc]
    · have hc2 : IsPathSeparator c = false := by simpa using hc
      rw [segments]
      simp only [hc2, Bool.false_eq_true, ↓reduceIte]
      rw [ih]
      simp [List.takeWhile_cons, List.dropWhile_cons, hc2]

theorem foldSegs_elem (rooted : Bool) (st : Nat × List GoString) (l : GoString) :
    foldSegs rooted st l =
      foldSegs rooted (normStep rooted st (l.takeWhile (fun x => !IsPathSeparator x)))
        (l.dropWhile (fun x => !IsPathSeparator x)) := by
  unfold foldSegs
  conv => lhs; rw [segments_elem]
  rw [List.foldl_cons]
  cases h : l.dropWhile (fun x => !IsPathSeparator x) with
  | nil => simp [segments, normStep]
  | cons d t =>
    have hd : IsPathSeparator d = true := by
      have := List.head_dropWhile_not (fun x => !IsPathSeparator x) l (by simp [h])
      simpa [h] using this
    simp [segments, hd, normStep]

theorem joinSegs_snoc (xs : List GoString) (s : GoString) (h : xs ≠ []) :
    joinSegs (xs ++ [s]) = joinSegs xs ++ Separator :: s := by
  induction xs with
  | nil => exact absurd rfl h
  | cons x t ih =>
    cases t with
    | nil => simp [joinSegs]
    | cons y t2 =>
      have := ih (by simp)
      simp only [List.cons_append] at this ⊢
      simp [joinSegs, this]

theorem render_snoc (rooted : Bool) (k : Nat) (xs : List GoString) (s : GoString) :
    render rooted k (xs ++ [s]) =
      if dots k ++ xs = [] then render rooted k xs ++ s
      else render rooted k xs ++ Separator :: s := by
  unfold render
  by_cases h : dots k ++ xs = []
  · have h1 : dots k = [] := (List.append_eq_nil.mp h).1
    have h2 : xs = [] := (List.append_eq_nil.mp h).2
    subst h2
    cases rooted <;> simp [h1, joinSegs]
  · rw [← List.append_assoc, joinSegs_snoc _ _ h]
    cases rooted <;> simp [h]

theorem render_length_snoc (rooted : Bool) (k : Nat) (xs : List GoString) (s : GoString)
    (hs : s ≠ []) : (render rooted k xs).length < (render rooted k (xs ++ [s])).length := by
  rw [render_snoc]
  have : 0 < s.length := List.length_pos.mpr hs
  split
  · simp; omega
  · simp

theorem render_length_mono (rooted : Bool) (k : Nat) (names : List GoString)
    (hn : ∀ s ∈ names, s ≠ []) :
    (render rooted k []).length ≤ (render rooted k names).length := by
  induction names using List.reverseRecOn with
  | nil => exact Nat.le_refl _
  | append_singleton xs s ih =>
    have h1 := ih (fun a ha => hn a (by simp [ha]))
    have h2 := render_length_snoc rooted k xs s (hn s (by simp))
    omega

theorem render_length_gt_iff (rooted : Bool) (k : Nat) (names : List GoString)
    (hn : ∀ s ∈ names, s ≠ []) :
    (render rooted k names).length > (render rooted k []).length ↔ names ≠ [] := by
  constructor
  · intro h hnil
    subst hnil
    exact Nat.lt_irrefl _ h
  · intro h
    have hx := List.dropLast_append_getLast h
    rw [← hx]
    have h1 := render_length_mono rooted k names.dropLast
      (fun a ha => hn a (List.mem_of_mem_dropLast ha))
    have h2 := render_length_snoc rooted k names.dropLast (names.getLast h)
      (hn _ (List.getLast_mem h))
    omega

/-- The backward scan of `Clean` stops exactly at the start of the last
element. -/
theorem backtrackLoop_eq (P X : GoString) (dd : Nat) (hdd : dd ≤ P.length)
    (hstop : P.length = 0 ∨ P.length = dd ∨ IsPathSeparator ((P ++ X).getD P.length ' ') = true) :
    ∀ m : Nat,
      (∀ i, 1 ≤ i → i ≤ m → IsPathSeparator ((P ++ X).getD (P.length + i) ' ') = false) →
      backtrackLoop (P ++ X) dd (P.length + m) = P.length := by
  intro m
  induction m with
  | zero =>
    intro _
    simp only [Nat.add_zero]
    cases hP : P.length with
    | zero => simp [backtrackLoop]
    | succ n =>
      rw [backtrackLoop]
      rcases hstop with h | h | h
      · omega
      · have : ¬ (n + 1 > dd) := by omega
        simp [this]
      · rw [hP] at h
        simp only [h, Bool.not_true, Bool.and_false, Bool.false_eq_true, ↓reduceIte]
  | succ m ih =>
    intro hX
    have hlast := hX (m + 1) (by omega) (Nat.le_refl _)
    have e : P.length + (m + 1) = (P.length + m) + 1 := by omega
    rw [e, backtrackLoop]
    rw [e] at hlast
    have hgt : P.length + m + 1 > dd := by omega
    simp only [hgt, hlast, decide_True, Bool.not_false, Bool.and_self, ↓reduceIte]
    exact ih (fun i h1 h2 => hX i h1 (by omega))

theorem getD_not_sep (s : GoString) (hs : ∀ c ∈ s, IsPathSeparator c = false) (i : Nat)
    (hi : i < s.length) : IsPathSeparator (s.getD i ' ') = false := by
  rw [List.getD_eq_getElem _ _ hi]
  exact hs _ (List.getElem_mem _)

theorem backtrack_append (P s : GoString) (dd : Nat) (hlen : P.length = dd) (hne : s ≠ [])
    (hs : ∀ c ∈ s, IsPathSeparator c = false) :
    backtrack (P ++ s) dd = P := by
  unfold backtrack
  have hpos : 0 < s.length := List.length_pos.mpr hne
  have e : (P ++ s).length - 1 = P.length + (s.length - 1) := by
    simp only [List.length_append]; omega
  rw [e, backtrackLoop_eq P s dd (by omega) (Or.inr (Or.inl hlen))]
  · simp
  · intro i h1 h2
    rw [List.getD_append_right _ _ _ _ (by omega)]
    exact getD_not_sep s hs _ (by omega)

theorem backtrack_append_sep (P s : GoString) (dd : Nat) (hlen : dd ≤ P.length)
    (hs : ∀ c ∈ s, IsPathSeparator c = false) :
    backtrack (P ++ Separator :: s) dd = P := by
  unfold backtrack
  have e : (P ++ Separator :: s).length - 1 = P.length + s.length := by
    simp only [List.length_append, List.length_cons]; omega
  rw [e, backtrackLoop_eq P (Separator :: s) dd hlen]
  · simp
  · right; right
    rw [List.getD_append_right _ _ _ _ (Nat.le_refl _)]
    simp [IsPathSeparator]
  · intro i h1 h2
    rw [List.getD_append_right _ _ _ _ (by omega)]
    have e2 : P.length + i - P.length = (i - 1) + 1 := by omega
    rw [e2, List.getD_cons_succ]
    exact getD_not_sep s hs _ (by omega)

/-- Backtracking over the last name of a normalised path removes exactly
that name. -/
theorem backtrack_render (rooted : Bool) (k : Nat) (xs : List GoString) (s : GoString)
    (hxs : ∀ a ∈ xs, a ≠ []) (hne : s ≠ []) (hs : ∀ c ∈ s, IsPathSeparator c = false) :
    backtrack (render rooted k (xs ++ [s])) (render rooted k []).length = render rooted k xs := by
  rw [render_snoc]
  split
  · rename_i h
    have h2 : xs = [] := (List.append_eq_nil.mp h).2
    subst h2
    exact backtrack_append _ s _ rfl hne hs
  · exact backtrack_append_sep _ s _ (render_length_mono rooted k xs hxs) hs

theorem takeWhile_eq_nil_iff (t : GoString) :
    t.takeWhile (fun x => !IsPathSeparator x) = [] ↔
      (t.isEmpty || IsPathSeparator (t.headD ' ')) = true := by
  cases t with
  | nil => simp
  | cons d t2 =>
    by_cases hd : IsPathSeparator d = true <;> simp [List.takeWhile_cons, hd]

theorem dropWhile_eq_self (t : GoString)
    (h : t.takeWhile (fun x => !IsPathSeparator x) = []) :
    t.dropWhile (fun x => !IsPathSeparator x) = t := by
  cases t with
  | nil => rfl
  | cons d t2 =>
    by_cases hd : IsPathSeparator d = true
    · simp [List.dropWhile_cons, hd]
    · simp [List.takeWhile_cons, hd] at h

theorem takeWhile_eq_dot_iff (t : GoString) :
    t.takeWhile (fun x => !IsPathSeparator x) = ['.'] ↔
      (t.head? == some '.' && (t.tail.isEmpty || IsPathSeparator (t.tail.headD ' '))) = true := by
  cases t with
  | nil => simp
  | cons d t2 =>
    by_cases hd : IsPathSeparator d = true
    · have : d ≠ '.' := by
        rw [isPathSeparator_iff] at hd
        subst hd
        decide
      simp [List.takeWhile_cons, hd, this]
    · simp only [List.takeWhile_cons, hd, Bool.not_false, ↓reduceIte, List.cons.injEq,
        List.head?_cons, List.tail_cons, Bool.and_eq_true, beq_iff_eq, Option.some.injEq,
        Bool.not_eq_true, Bool.not_true]
      rw [takeWhile_eq_nil_iff]

theorem dropWhile_of_dot (t : GoString)
    (h : t.takeWhile (fun x => !IsPathSeparator x) = ['.']) :
    t.dropWhile (fun x => !IsPathSeparator x) = t.tail := by
  cases t with
  | nil => simp at h
  | cons d t2 =>
    by_cases hd : IsPathSeparator d = true
    · simp [List.takeWhile_cons, hd] at h
    · simp only [List.takeWhile_cons, hd, Bool.not_false, ↓reduceIte, List.cons.injEq] at h
      simp only [List.dropWhile_cons, hd, Bool.not_false, ↓reduceIte, List.tail_cons]
      exact dropWhile_eq_self t2 h.2

theorem takeWhile_not_sep (t : GoString) :
    ∀ c ∈ t.takeWhile (fun x => !IsPathSeparator x), IsPathSeparator c = false := by
  intro c hc
  have := List.mem_takeWhile_imp hc
  simpa using this

theorem joinSegs_eq_nil_iff (l : List GoString) (hl : ∀ s ∈ l, s ≠ []) :
    joinSegs l = [] ↔ l = [] := by
  cases l with
  | nil => simp [joinSegs]
  | cons x t =>
    cases t with
    | nil => simpa [joinSegs] using hl x
    | cons y t2 => simp [joinSegs]

theorem dots_ne_nil (k : Nat) : ∀ s ∈ dots k, s ≠ [] := by
  intro s hs
  have := List.eq_of_mem_replicate hs
  simp [this]

theorem dots_succ (k : Nat) : dots (k + 1) = dots k ++ [['.', '.']] := by
  simp [dots, List.replicate_succ']

/-- The test of `Clean` that decides whether a separator goes before the next
element. -/
theorem render_sep_cond (rooted : Bool) (k : Nat) (names : List GoString)
    (hk : rooted = true → k = 0) (hn : ∀ s ∈ names, s ≠ []) :
    ((rooted && (render rooted k names).length != 1) ||
      (!rooted && (render rooted k names).length != 0)) = true ↔ dots k ++ names ≠ [] := by
  have hall : ∀ s ∈ dots k ++ names, s ≠ [] := by
    intro s hs
    rcases List.mem_append.mp hs with h | h
    · exact dots_ne_nil k s h
    · exact hn s h
  have key := joinSegs_eq_nil_iff (dots k ++ names) hall
  cases rooted with
  | true =>
    simp only [render, ↓reduceIte, List.length_cons, Bool.true_and, Bool.not_true,
      Bool.false_and, Bool.or_false, bne_iff_ne, ne_eq]
    rw [← key]
    simp [List.length_eq_zero]
  | false =>
    simp only [render, Bool.false_eq_true, ↓reduceIte, Bool.false_and, Bool.not_false,
      Bool.true_and, Bool.false_or, bne_iff_ne, ne_eq]
    rw [← key]
    simp [List.length_eq_zero]

theorem cleanLoop_nil (rooted : Bool) (fuel : Nat) (out : GoString) (dd : Nat) :
    cleanLoop rooted fuel [] out dd = out := by
  cases fuel <;> rfl

theorem isName_of_elem (c : Char) (t : GoString) (hc : IsPathSeparator c = false)
    (h1 : ¬ (c == '.' && (t.isEmpty || IsPathSeparator (t.headD ' '))) = true)
    (h2 : ¬ (c == '.' && t.head? == some '.' &&
        (t.tail.isEmpty || IsPathSeparator (t.tail.headD ' '))) = true) :
    IsName (c :: t.takeWhile (fun x => !IsPathSeparator x)) := by
  refine ⟨by simp, ?_, ?_, ?_⟩
  · intro x hx
    rcases List.mem_cons.mp hx with h | h
    · rw [h]; exact hc
    · exact takeWhile_not_sep t x h
  · intro h
    simp only [List.cons.injEq] at h
    apply h1
    rw [Bool.and_eq_true]
    exact ⟨by simp [h.1], (takeWhile_eq_nil_iff t).mp h.2⟩
  · intro h
    simp only [List.cons.injEq] at h
    apply h2
    have := (takeWhile_eq_dot_iff t).mp h.2
    rw [Bool.and_eq_true] at this
    simp only [Bool.and_eq_true]
    exact ⟨⟨by simp [h.1], this.1⟩, this.2⟩

/-- The loop of `Clean`, started on a normalised buffer, ends with the buffer
that the segment-by-segment normalisation describes. -/
theorem cleanLoop_spec (rooted : Bool) :
    ∀ (fuel : Nat) (rest : GoString) (k : Nat) (names : List GoString),
      rest.length ≤ fuel → (∀ s ∈ names, IsName s) → (rooted = true → k = 0) →
      cleanLoop rooted fuel rest (render rooted k names) (render rooted k []).length =
        render rooted (foldSegs rooted (k, names) rest).1 (foldSegs rooted (k, names) rest).2 := by
  intro fuel
  induction fuel with
  | zero =>
    intro rest k names hlen _ _
    have : rest = [] := List.length_eq_zero.mp (Nat.le_zero.mp hlen)
    subst this
    rw [foldSegs_nil]
    rfl
  | succ f ih =>
    intro rest k names hlen hn hk
    have hne : ∀ s ∈ names, s ≠ [] := fun s hs => (hn s hs).1
    cases rest with
    | nil => rw [foldSegs_nil]; rfl
    | cons c t =>
      have hlt : t.length ≤ f := by simpa using hlen
      by_cases hc : IsPathSeparator c = true
      · have hc2 : c = '/' := (isPathSeparator_iff c).mp hc
        rw [cleanLoop]
        simp only [hc, ↓reduceIte]
        rw [hc2, foldSegs_sep]
        exact ih t k names hlt hn hk
      · have hcf : IsPathSeparator c = false := by simpa using hc
        rw [foldSegs_elem]
        simp only [List.takeWhile_cons, List.dropWhile_cons, hcf, Bool.not_false, ↓reduceIte]
        rw [cleanLoop]
        simp only [hc, ↓reduceIte]
        by_cases h1 : (c == '.' && (t.isEmpty || IsPathSeparator (t.headD ' '))) = true
        · simp only [h1, ↓reduceIte]
          rw [Bool.and_eq_true] at h1
          have hd : c = '.' := by simpa using h1.1
          have htw := (takeWhile_eq_nil_iff t).mpr h1.2
          rw [htw, dropWhile_eq_self t htw, hd]
          have : normStep rooted (k, names) ['.'] = (k, names) := by simp [normStep]
          rw [this]
          exact ih t k names hlt hn hk
        · simp only [h1, Bool.false_eq_true, ↓reduceIte]
          by_cases h2 : (c == '.' && t.head? == some '.' &&
              (t.tail.isEmpty || IsPathSeparator (t.tail.headD ' '))) = true
          · simp only [h2, ↓reduceIte]
            have h2c := h2
            simp only [Bool.and_eq_true] at h2c
            have hd : c = '.' := by simpa using h2c.1.1
            have htw := (takeWhile_eq_dot_iff t).mpr (by
              rw [Bool.and_eq_true]; exact ⟨h2c.1.2, h2c.2⟩)
            rw [htw, dropWhile_of_dot t htw, hd]
            have htl : t.tail.length ≤ f := by
              have := List.length_tail t
              omega
            by_cases hnames : names = []
            · subst hnames
              have hlen0 : ¬ (render rooted k []).length > (render rooted k []).length :=
                Nat.lt_irrefl _
              simp only [hlen0, ↓reduceIte]
              cases rooted with
              | true =>
                simp only [Bool.not_true, Bool.false_eq_true, ↓reduceIte]
                have : normStep true (k, []) ['.', '.'] = (k, []) := by simp [normStep]
                rw [this]
                exact ih t.tail k [] htl hn hk
              | false =>
                simp only [Bool.not_false, ↓reduceIte]
                have : normStep false (k, []) ['.', '.'] = (k + 1, []) := by simp [normStep]
                rw [this]
                have hout : (if (render false k []).length > 0 then render false k [] ++ [Separator]
                    else render false k []) ++ ['.', '.'] = render false (k + 1) [] := by
                  simp only [render, Bool.false_eq_true, ↓reduceIte, List.append_nil]
                  rw [dots_succ]
                  by_cases hk0 : dots k = []
                  · simp [hk0, joinSegs]
                  · rw [joinSegs_snoc _ _ hk0]
                    have : joinSegs (dots k) ≠ [] := by
                      rw [Ne, joinSegs_eq_nil_iff _ (dots_ne_nil k)]
                      exact hk0
                    have hpos : (joinSegs (dots k)).length > 0 := List.length_pos.mpr this
                    simp [hpos]
                rw [hout]
                exact ih t.tail (k + 1) [] htl hn (by simp)
            · have hgt := (render_length_gt_iff rooted k names hne).mpr hnames
              simp only [hgt, ↓reduceIte]
              have : normStep rooted (k, names) ['.', '.'] = (k, names.dropLast) := by
                simp [normStep, hnames]
              rw [this]
              have hx := List.dropLast_append_getLast hnames
              have hlast := hn _ (List.getLast_mem hnames)
              have hbt := backtrack_render rooted k names.dropLast (names.getLast hnames)
                (fun a ha => hne a (List.mem_of_mem_dropLast ha)) hlast.1 hlast.2.1
              rw [hx] at hbt
              rw [hbt]
              exact ih t.tail k names.dropLast htl
                (fun a ha => hn a (List.mem_of_mem_dropLast ha)) hk
          · simp only [h2, Bool.false_eq_true, ↓reduceIte]
            have hname := isName_of_elem c t hcf h1 h2
            have : normStep rooted (k, names) (c :: t.takeWhile (fun x => !IsPathSeparator x)) =
                (k, names ++ [c :: t.takeWhile (fun x => !IsPathSeparator x)]) := by
              simp [normStep, hname.2.2.1, hname.2.2.2]
            rw [this]
            have hout : (if ((rooted && (render rooted k names).length != 1) ||
                  (!rooted && (render rooted k names).length != 0)) = true then
                  render rooted k names ++ [Separator] else render rooted k names) ++
                  c :: t.takeWhile (fun x => !IsPathSeparator x) =
                render rooted k (names ++ [c :: t.takeWhile (fun x => !IsPathSeparator x)]) := by
              rw [render_snoc]
              by_cases he : dots k ++ names = []
              · have := (render_sep_cond rooted k names hk hne).not.mpr (by simpa using he)
                simp only [this, ↓reduceIte]
                simp [he]
              · have := (render_sep_cond rooted k names hk hne).mpr he
                simp only [this, ↓reduceIte]
                simp [he]
            simp only [List.takeWhile_cons, List.dropWhile_cons, hcf, Bool.not_false, ↓reduceIte]
            rw [hout]
            have hdl : (t.dropWhile (fun x => !IsPathSeparator x)).length ≤ f := by
              have := (List.dropWhile_sublist (fun x => !IsPathSeparator x) (l := t)).length_le
              omega
            exact ih (t.dropWhile (fun x => !IsPathSeparator x)) k
              (names ++ [c :: t.takeWhile (fun x => !IsPathSeparator x)]) hdl
              (by
                intro s hs
                rcases List.mem_append.mp hs with h | h
                · exact hn s h
                · simp only [List.mem_singleton] at h
                  rw [h]; exact hname) hk

theorem isAbs_cons (c : Char) (t : GoString) : IsAbs (c :: t) = IsPathSeparator c := by
  simp only [IsAbs, HasPrefix, IsPathSeparator, Separator, List.isPrefixOf, Bool.and_true]
  by_cases h : c = '/'
  · subst h; rfl
  · have h2 : ¬ '/' = c := fun e => h e.symm
    simp [h, h2]

theorem isAbs_nil : IsAbs [] = false := rfl

/-- `Clean` computes the written-out normal form of its argument. -/
theorem Clean_eq_cleanSpec (path : GoString) : Clean path = cleanSpec path := by
  cases path with
  | nil => decide
  | cons c t =>
    unfold Clean cleanSpec normalForm
    rw [isAbs_cons]
    simp only [List.isEmpty_cons, Bool.false_eq_true, ↓reduceIte, List.headD_cons,
      List.tail_cons, List.length_cons]
    by_cases hc : IsPathSeparator c = true
    · have hc2 : c = '/' := (isPathSeparator_iff c).mp hc
      subst hc2
      simp only [hc, ↓reduceIte]
      rw [foldSegs_sep]
      have h := cleanLoop_spec true (t.length + 1) t 0 [] (by omega) (by simp) (fun _ => rfl)
      have e1 : render true 0 [] = [Separator] := rfl
      rw [e1] at h
      simp only [List.length_singleton] at h
      rw [h]
      simp [render]
    · have hcf : IsPathSeparator c = false := by simpa using hc
      simp only [hcf, Bool.false_eq_true, ↓reduceIte]
      have h := cleanLoop_spec false (t.length + 1) (c :: t) 0 [] (by simp) (by simp) (by simp)
      have e1 : render false 0 [] = [] := rfl
      rw [e1] at h
      simp only [List.length_nil] at h
      rw [h]
      simp [List.length_eq_zero]

/-! ### Invariants of the normal form -/

theorem segments_no_sep (l : GoString) :
    ∀ seg ∈ segments l, ∀ c ∈ seg, IsPathSeparator c = false := by
  induction l with
  | nil => simp [segments]
  | cons d t ih =>
    intro seg hseg c hc
    rw [segments] at hseg
    by_cases hd : IsPathSeparator d = true
    · simp only [hd, ↓reduceIte, List.mem_cons] at hseg
      rcases hseg with h | h
      · subst h; simp at hc
      · exact ih seg h c hc
    · have hdf : IsPathSeparator d = false := by simpa using hd
      simp only [hdf, Bool.false_eq_true, ↓reduceIte] at hseg
      cases hst : segments t with
      | nil => exact absurd hst (segments_ne_nil t)
      | cons s0 ss =>
        rw [hst] at hseg ih
        simp only [List.mem_cons] at hseg
        rcases hseg with h | h
        · subst h
          rcases List.mem_cons.mp hc with h2 | h2
          · rw [h2]; exact hdf
          · exact ih s0 (by simp) c h2
        · exact ih seg (by simp [h]) c hc

theorem normStep_ok (rooted : Bool) (st : Nat × List GoString) (seg : GoString)
    (hst : NormOK rooted st) (hseg : ∀ c ∈ seg, IsPathSeparator c = false) :
    NormOK rooted (normStep rooted st seg) := by
  unfold normStep
  split
  · exact hst
  · rename_i h1
    split
    · split
      · exact ⟨fun a ha => hst.1 a (List.mem_of_mem_dropLast ha), hst.2⟩
      · split
        · exact hst
        · rename_i h3
          exact ⟨by simp, fun h => absurd h h3⟩
    · rename_i h2
      refine ⟨?_, hst.2⟩
      intro a ha
      rcases List.mem_append.mp ha with h | h
      · exact hst.1 a h
      · simp only [List.mem_singleton] at h
        subst h
        simp only [not_or] at h1
        exact ⟨h1.1, hseg, h1.2, h2⟩

theorem foldl_normStep_ok (rooted : Bool) (segs : List GoString) :
    ∀ st, NormOK rooted st → (∀ seg ∈ segs, ∀ c ∈ seg, IsPathSeparator c = false) →
      NormOK rooted (segs.foldl (normStep rooted) st) := by
  induction segs with
  | nil => intro st h _; exact h
  | cons x xs ih =>
    intro st h hs
    rw [List.foldl_cons]
    exact ih _ (normStep_ok rooted st x h (hs x (by simp)))
      (fun seg hseg => hs seg (by simp [hseg]))

theorem foldSegs_ok (rooted : Bool) (st : Nat × List GoString) (l : GoString)
    (h : NormOK rooted st) : NormOK rooted (foldSegs rooted st l) :=
  foldl_normStep_ok rooted _ st h (segments_no_sep l)

theorem normalForm_ok (path : GoString) : NormOK (IsAbs path) (normalForm path) :=
  foldSegs_ok _ _ _ ⟨by simp, fun _ => rfl⟩

/-! ### Segments of concatenated and rendered paths -/

theorem segments_append_sep (a b : GoString) :
    segments (a ++ Separator :: b) = segments a ++ segments b := by
  induction a with
  | nil => simp [segments, IsPathSeparator]
  | cons d t ih =>
    by_cases hd : IsPathSeparator d = true
    · simp [segments, hd, ih]
    · have hdf : IsPathSeparator d = false := by simpa using hd
      simp only [List.cons_append, segments, hdf, Bool.false_eq_true, ↓reduceIte]
      have e : t.append (Separator :: b) = t ++ Separator :: b := rfl
      rw [e, ih]
      cases hst : segments t with
      | nil => exact absurd hst (segments_ne_nil t)
      | cons s0 ss => simp

theorem segments_of_no_sep (s : GoString) (hs : ∀ c ∈ s, IsPathSeparator c = false) :
    segments s = [s] := by
  induction s with
  | nil => rfl
  | cons d t ih =>
    have hd : IsPathSeparator d = false := hs d (by simp)
    have := ih (fun c hc => hs c (by simp [hc]))
    simp [segments, hd, this]

theorem segments_joinSegs (l : List GoString) (hl : l ≠ [])
    (hs : ∀ s ∈ l, ∀ c ∈ s, IsPathSeparator c = false) : segments (joinSegs l) = l := by
  induction l with
  | nil => exact absurd rfl hl
  | cons x t ih =>
    cases t with
    | nil => simpa [joinSegs] using segments_of_no_sep x (hs x (by simp))
    | cons y t2 =>
      have h1 := ih (by simp) (fun s h => hs s (by simp [h]))
      have h2 := segments_of_no_sep x (hs x (by simp))
      rw [joinSegs, segments_append_sep, h1, h2]
      · rfl
      · simp

theorem joinSegs_append (xs ys : List GoString) (hx : xs ≠ []) (hy : ys ≠ []) :
    joinSegs (xs ++ ys) = joinSegs xs ++ Separator :: joinSegs ys := by
  induction xs with
  | nil => exact absurd rfl hx
  | cons x t ih =>
    cases t with
    | nil =>
      cases ys with
      | nil => exact absurd rfl hy
      | cons y ys2 => simp [joinSegs]
    | cons z t2 =>
      have := ih (by simp)
      simp only [List.cons_append] at this ⊢
      simp [joinSegs, this]

/-! ### Folding names and `..` segments -/

theorem foldl_names (rooted : Bool) (names : List GoString) (hn : ∀ s ∈ names, IsName s) :
    ∀ (k : Nat) (ns : List GoString),
      names.foldl (normStep rooted) (k, ns) = (k, ns ++ names) := by
  induction names with
  | nil => intro k ns; simp
  | cons x xs ih =>
    intro k ns
    have hx := hn x (by simp)
    rw [List.foldl_cons]
    have : normStep rooted (k, ns) x = (k, ns ++ [x]) := by
      simp [normStep, hx.1, hx.2.2.1, hx.2.2.2]
    rw [this, ih (fun s h => hn s (by simp [h]))]
    simp

theorem foldl_dots (j : Nat) :
    ∀ k : Nat, (dots j).foldl (normStep false) (k, []) = (k + j, []) := by
  induction j with
  | zero => intro k; rfl
  | succ j ih =>
    intro k
    have : dots (j + 1) = ['.', '.'] :: dots j := rfl
    rw [this, List.foldl_cons]
    have h : normStep false (k, []) ['.', '.'] = (k + 1, []) := by simp [normStep]
    rw [h, ih]
    congr 1
    omega

theorem dots_no_sep (k : Nat) : ∀ s ∈ dots k, ∀ c ∈ s, IsPathSeparator c = false := by
  intro s hs c hc
  have := List.eq_of_mem_replicate hs
  subst this
  simp only [List.mem_cons, List.mem_singleton, List.not_mem_nil, or_false, or_self] at hc
  subst hc
  decide

theorem isAbs_joinSegs (l : List GoString) (hne : ∀ s ∈ l, s ≠ [])
    (hs : ∀ s ∈ l, ∀ c ∈ s, IsPathSeparator c = false) : IsAbs (joinSegs l) = false := by
  cases l with
  | nil => rfl
  | cons x t =>
    cases x with
    | nil => exact absurd rfl (hne [] (by simp))
    | cons c x2 =>
      have hc : IsPathSeparator c = false := hs (c :: x2) (by simp) c (by simp)
      cases t with
      | nil => simpa [joinSegs, isAbs_cons] using hc
      | cons y t2 => simpa [joinSegs, isAbs_cons] using hc

theorem all_ne_nil_of_ok (rooted : Bool) (k : Nat) (names : List GoString)
    (h : NormOK rooted (k, names)) : ∀ s ∈ dots k ++ names, s ≠ [] := by
  intro s hs
  rcases List.mem_append.mp hs with h1 | h1
  · exact dots_ne_nil k s h1
  · exact (h.1 s h1).1

theorem all_no_sep_of_ok (rooted : Bool) (k : Nat) (names : List GoString)
    (h : NormOK rooted (k, names)) :
    ∀ s ∈ dots k ++ names, ∀ c ∈ s, IsPathSeparator c = false := by
  intro s hs
  rcases List.mem_append.mp hs with h1 | h1
  · exact dots_no_sep k s h1
  · exact (h.1 s h1).2.1

theorem isAbs_render (rooted : Bool) (k : Nat) (names : List GoString)
    (h : NormOK rooted (k, names)) : IsAbs (render rooted k names) = rooted := by
  cases rooted with
  | true => simp [render, isAbs_cons, IsPathSeparator]
  | false =>
    simp only [render, Bool.false_eq_true, ↓reduceIte]
    exact isAbs_joinSegs _ (all_ne_nil_of_ok false k names h) (all_no_sep_of_ok false k names h)

/-- Reading a written-out normal form back gives the same normal form. -/
theorem foldSegs_render (rooted : Bool) (k : Nat) (names : List GoString)
    (h : NormOK rooted (k, names)) :
    foldSegs rooted (0, []) (render rooted k names) = (k, names) := by
  cases rooted with
  | true =>
    have hk : k = 0 := h.2 rfl
    subst hk
    have e : render true 0 names = '/' :: joinSegs names := by simp [render, dots, Separator]
    rw [e, foldSegs_sep]
    by_cases hn : names = []
    · subst hn; exact foldSegs_nil _ _
    · unfold foldSegs
      rw [segments_joinSegs names hn (fun s hs => (h.1 s hs).2.1), foldl_names true names h.1]
      simp
  | false =>
    simp only [render, Bool.false_eq_true, ↓reduceIte]
    by_cases hn : dots k ++ names = []
    · have h1 : dots k = [] := (List.append_eq_nil.mp hn).1
      have h2 : names = [] := (List.append_eq_nil.mp hn).2
      have hk : k = 0 := by
        cases k with
        | zero => rfl
        | succ n => simp [dots, List.replicate_succ] at h1
      subst hk; subst h2
      exact foldSegs_nil _ _
    · unfold foldSegs
      rw [segments_joinSegs _ hn (all_no_sep_of_ok false k names h), List.foldl_append,
        foldl_dots, foldl_names false names h.1]
      simp

theorem normalForm_render (rooted : Bool) (k : Nat) (names : List GoString)
    (h : NormOK rooted (k, names)) :
    normalForm (render rooted k names) = (k, names) := by
  unfold normalForm
  rw [isAbs_render rooted k names h]
  exact foldSegs_render rooted k names h

/-- A cleaned path is either `.` or the written-out normal form. -/
theorem cleanSpec_cases (path : GoString) :
    (cleanSpec path = ['.'] ∧ IsAbs path = false ∧ normalForm path = (0, [])) ∨
    (cleanSpec path = render (IsAbs path) (normalForm path).1 (normalForm path).2 ∧
      render (IsAbs path) (normalForm path).1 (normalForm path).2 ≠ []) := by
  unfold cleanSpec
  by_cases h : render (IsAbs path) (normalForm path).1 (normalForm path).2 = []
  · left
    simp only [h, ↓reduceIte, true_and]
    have hok := normalForm_ok path
    cases hr : IsAbs path with
    | true => rw [hr] at h; simp [render] at h
    | false =>
      rw [hr] at h
      simp only [render, Bool.false_eq_true, ↓reduceIte] at h
      rw [hr] at hok
      have := (joinSegs_eq_nil_iff _ (all_ne_nil_of_ok false _ _ hok)).mp h
      have h1 : dots (normalForm path).1 = [] := (List.append_eq_nil.mp this).1
      have h2 : (normalForm path).2 = [] := (List.append_eq_nil.mp this).2
      have hk : (normalForm path).1 = 0 := by
        cases hk : (normalForm path).1 with
        | zero => rfl
        | succ n => rw [hk] at h1; simp [dots, List.replicate_succ] at h1
      exact ⟨rfl, Prod.ext hk h2⟩
  · right
    simp [h]

/-- `Clean` keeps a path absolute or relative. -/
theorem isAbs_Clean (path : GoString) : IsAbs (Clean path) = IsAbs path := by
  rw [Clean_eq_cleanSpec]
  rcases cleanSpec_cases path with ⟨h1, h2, _⟩ | ⟨h1, _⟩
  · rw [h1, h2]; rfl
  · rw [h1]
    exact isAbs_render _ _ _ (normalForm_ok path)

/-- `Clean` is idempotent. -/
theorem Clean_idem (path : GoString) : Clean (Clean path) = Clean path := by
  rw [Clean_eq_cleanSpec path]
  rcases cleanSpec_cases path with ⟨h1, _, _⟩ | ⟨h1, h2⟩
  · rw [h1]; decide
  · rw [h1, Clean_eq_cleanSpec]
    have e := normalForm_render (IsAbs path) (normalForm path).1 (normalForm path).2
      (normalForm_ok path)
    have e2 := isAbs_render (IsAbs path) (normalForm path).1 (normalForm path).2
      (normalForm_ok path)
    unfold cleanSpec
    simp only []
    rw [e2, e]
    simp [h2]

/-! ### Joining a cleaned relative path onto a base -/

theorem hasPrefix_joinSegs_cons (x : GoString) (t : List GoString) :
    HasPrefix (joinSegs (x :: t)) x = true := by
  unfold HasPrefix
  rw [List.isPrefixOf_iff_prefix]
  cases t with
  | nil => simp [joinSegs]
  | cons y t2 => simp [joinSegs]

/-- A cleaned relative path that does not begin with `..` has no leading
`..` segment: it is `.` or a list of proper names joined by separators. -/
theorem clean_relative_down (cand : GoString) (hrel : IsAbs cand = false)
    (hp : HasPrefix (Clean cand) ['.', '.'] = false) :
    (normalForm cand).1 = 0 ∧
      ((Clean cand = ['.'] ∧ (normalForm cand).2 = []) ∨
       ((normalForm cand).2 ≠ [] ∧ Clean cand = joinSegs (normalForm cand).2)) := by
  rw [Clean_eq_cleanSpec] at hp ⊢
  rcases cleanSpec_cases cand with ⟨h1, _, h3⟩ | ⟨h1, h2⟩
  · rw [h3]; exact ⟨rfl, Or.inl ⟨h1, rfl⟩⟩
  · rw [h1, hrel] at hp
    rw [hrel] at h2
    rw [h1, hrel]
    have hk : (normalForm cand).1 = 0 := by
      cases hk : (normalForm cand).1 with
      | zero => rfl
      | succ n =>
        rw [hk] at hp
        have e : dots (n + 1) ++ (normalForm cand).2 = ['.', '.'] :: (dots n ++ (normalForm cand).2) := rfl
        simp only [render, Bool.false_eq_true, ↓reduceIte, e] at hp
        rw [hasPrefix_joinSegs_cons] at hp
        exact absurd hp (by simp)
    refine ⟨hk, Or.inr ?_⟩
    rw [hk] at h2 ⊢
    have e : render false 0 (normalForm cand).2 = joinSegs (normalForm cand).2 := by
      simp [render, dots]
    rw [e] at h2 ⊢
    refine ⟨?_, rfl⟩
    intro hnil
    rw [hnil] at h2
    exact h2 rfl

/-- The normal form of `a/c` when `c` is `.` or a list of proper names. -/
theorem foldSegs_join (rooted : Bool) (a c : GoString) (names : List GoString)
    (hn : ∀ s ∈ names, IsName s)
    (hc : (c = ['.'] ∧ names = []) ∨ (names ≠ [] ∧ c = joinSegs names)) :
    foldSegs rooted (0, []) (a ++ Separator :: c) =
      ((foldSegs rooted (0, []) a).1, (foldSegs rooted (0, []) a).2 ++ names) := by
  unfold foldSegs
  rw [segments_append_sep, List.foldl_append]
  rcases hc with ⟨h1, h2⟩ | ⟨h1, h2⟩
  · subst h1; subst h2
    simp [segments, IsPathSeparator, Separator, normStep]
  · rw [h2, segments_joinSegs names h1 (fun s hs => (hn s hs).2.1)]
    exact foldl_names rooted names hn _ _

theorem isAbs_append (a b : GoString) (ha : a ≠ []) : IsAbs (a ++ b) = IsAbs a := by
  cases a with
  | nil => exact absurd rfl ha
  | cons x t => simp [isAbs_cons]

theorem render_append (rooted : Bool) (k : Nat) (ns names : List GoString)
    (h1 : dots k ++ ns ≠ []) (h2 : names ≠ []) :
    render rooted k (ns ++ names) = render rooted k ns ++ Separator :: joinSegs names := by
  unfold render
  rw [← List.append_assoc, joinSegs_append _ _ h1 h2]
  cases rooted <;> simp

/-- `Join base c`, for a non-empty `base` and `c` either `.` or a list of
proper names, is the normal form of `base` extended by these names. -/
theorem Join_down (base c : GoString) (names : List GoString) (hb : base ≠ [])
    (hn : ∀ s ∈ names, IsName s)
    (hc : (c = ['.'] ∧ names = []) ∨ (names ≠ [] ∧ c = joinSegs names)) :
    Join base c = cleanSpec (base ++ Separator :: c) ∧
      normalForm (base ++ Separator :: c) =
        ((normalForm base).1, (normalForm base).2 ++ names) ∧
      IsAbs (base ++ Separator :: c) = IsAbs base := by
  refine ⟨?_, ?_, isAbs_append base _ hb⟩
  · unfold Join
    simp only [ne_eq, hb, not_false_eq_true, ↓reduceIte, List.append_assoc, List.singleton_append]
    exact Clean_eq_cleanSpec _
  · unfold normalForm
    rw [isAbs_append base _ hb]
    exact foldSegs_join _ base c names hn hc

/-! ## `sanitizePath` -/

/-- The last test of `sanitizePath` fails to reject exactly when the result is
the base, or lies under it, or the base is the root. -/
theorem finalCheck_eq_false_iff (absBase absResult : GoString) :
    (!(absBase == ['/'] || absBase == [Separator]) &&
        !HasPrefix absResult (absBase ++ [Separator]) && absResult != absBase) = false ↔
      (absBase = [Separator] ∨ (absBase ++ [Separator]) <+: absResult ∨ absResult = absBase) := by
  have hp : HasPrefix absResult (absBase ++ [Separator]) = true ↔
      (absBase ++ [Separator]) <+: absResult := by
    unfold HasPrefix
    exact List.isPrefixOf_iff_prefix
  by_cases h1 : absBase = [Separator]
  · subst h1; simp [Separator]
  · by_cases h2 : (absBase ++ [Separator]) <+: absResult
    · have := hp.mpr h2
      simp [this, h2]
    · have h3 : HasPrefix absResult (absBase ++ [Separator]) = false := by
        cases h : HasPrefix absResult (absBase ++ [Separator]) with
        | false => rfl
        | true => exact absurd (hp.mp h) h2
      have h1b : ¬ absBase = ['/'] := h1
      simp [h1, h1b, h2, h3]

theorem Clean_of_abs (path : GoString) (h : IsAbs path = true) :
    Clean path = Separator :: joinSegs (normalForm path).2 ∧ (normalForm path).1 = 0 := by
  have hok := normalForm_ok path
  rw [h] at hok
  have hk := hok.2 rfl
  rw [Clean_eq_cleanSpec]
  rcases cleanSpec_cases path with ⟨_, h2, _⟩ | ⟨h1, _⟩
  · rw [h] at h2; cases h2
  · rw [h1, h, hk]
    exact ⟨by simp [render, dots], rfl⟩

/-- C1: whenever `sanitizePath` succeeds, the absolute form of the returned
path is equal to the absolute form of `base`, or begins with the absolute form
of `base` followed by a separator, or `base` is the filesystem root. -/
theorem sanitizePath_result_inside (wd : Except GoString GoString)
    (base path result : GoString) (h : sanitizePath wd base path = .ok result) :
    ∃ absBase absResult, Abs wd base = .ok absBase ∧ Abs wd result = .ok absResult ∧
      (absResult = absBase ∨ (absBase ++ [Separator]) <+: absResult ∨
        absBase = [Separator]) := by
  unfold sanitizePath at h
  simp only [] at h
  split at h
  · cases h
  · split at h
    · cases h
    · split at h
      · cases h
      · rename_i absBase hB
        split at h
        · cases h
        · rename_i absResult hR
          split at h
          · cases h
          · rename_i hcond
            have hres : Join base (Clean path) = result := by
              injection h
            rw [hres] at hR
            refine ⟨absBase, absResult, hB, hR, ?_⟩
            have := (finalCheck_eq_false_iff absBase absResult).mp (by simpa using hcond)
            rcases this with h1 | h1 | h1
            · exact Or.inr (Or.inr h1)
            · exact Or.inr (Or.inl h1)
            · exact Or.inl h1

theorem sanitizePath_result_inside_witness :
    sanitizePath (.ok "/home/user".toList) "/dest".toList "sub/dir/file.txt".toList =
        .ok "/dest/sub/dir/file.txt".toList ∧
    ∃ absBase absResult, Abs (.ok "/home/user".toList) "/dest".toList = .ok absBase ∧
      Abs (.ok "/home/user".toList) "/dest/sub/dir/file.txt".toList = .ok absResult ∧
      (absResult = absBase ∨ (absBase ++ [Separator]) <+: absResult ∨
        absBase = [Separator]) :=
  ⟨by decide, sanitizePath_result_inside _ _ "sub/dir/file.txt".toList _ (by decide)⟩

theorem hasPrefix_of_parentSegment (cleaned : GoString) (h : StartsWithParentSegment cleaned) :
    HasPrefix cleaned ['.', '.'] = true := by
  unfold HasPrefix
  rw [List.isPrefixOf_iff_prefix]
  rcases h with h | ⟨t, ht⟩
  · rw [h]
  · exact ⟨'/' :: t, by rw [← ht]; rfl⟩

theorem sanitizePath_abs_error (wd : Except GoString GoString) (base path : GoString)
    (h : IsAbs path = true) :
    sanitizePath wd base path =
      .error ("invalid path: absolute paths not allowed: ".toList ++ path) := by
  unfold sanitizePath
  simp [isAbs_Clean, h]

theorem sanitizePath_dotdot_error (wd : Except GoString GoString) (base path : GoString)
    (h : IsAbs path = false) (hp : HasPrefix (Clean path) ['.', '.'] = true) :
    sanitizePath wd base path =
      .error ("invalid path: path escapes destination: ".toList ++ path) := by
  unfold sanitizePath
  simp [isAbs_Clean, h, hp]

theorem mentions_absolute (path : GoString) :
    Mentions ("invalid path: absolute paths not allowed: ".toList ++ path)
      "absolute paths not allowed".toList :=
  ⟨"invalid path: ".toList, ": ".toList ++ path, rfl⟩

theorem mentions_escapes (path : GoString) :
    Mentions ("invalid path: path escapes destination: ".toList ++ path)
      "path escapes destination".toList :=
  ⟨"invalid path: ".toList, ": ".toList ++ path, rfl⟩

/-- C2: for every base, `sanitizePath` fails for every absolute candidate, with
an error that mentions "absolute paths not allowed", and for every relative
candidate whose normalised form starts with a parent-directory segment, with
an error that mentions "path escapes destination". -/
theorem sanitizePath_rejects_abs_and_parent (wd : Except GoString GoString)
    (base path : GoString)
    (h : IsAbs path = true ∨ (IsAbs path = false ∧ StartsWithParentSegment (Clean path))) :
    ∃ e, sanitizePath wd base path = .error e ∧
      (IsAbs path = true → Mentions e "absolute paths not allowed".toList) ∧
      (IsAbs path = false → Mentions e "path escapes destination".toList) := by
  rcases h with h | ⟨h, hp⟩
  · refine ⟨_, sanitizePath_abs_error wd base path h, fun _ => mentions_absolute path, ?_⟩
    intro h2
    rw [h] at h2
    cases h2
  · refine ⟨_, sanitizePath_dotdot_error wd base path h (hasPrefix_of_parentSegment _ hp),
      ?_, fun _ => mentions_escapes path⟩
    intro h2
    rw [h] at h2
    cases h2

theorem sanitizePath_rejects_abs_and_parent_witness :
    (∃ e, sanitizePath (.ok "/home/user".toList) "/dest".toList "/etc/passwd".toList = .error e ∧
      (IsAbs "/etc/passwd".toList = true → Mentions e "absolute paths not allowed".toList) ∧
      (IsAbs "/etc/passwd".toList = false → Mentions e "path escapes destination".toList)) ∧
    (∃ e, sanitizePath (.ok "/home/user".toList) "/dest".toList
        "../../../etc/passwd".toList = .error e ∧
      (IsAbs "../../../etc/passwd".toList = true →
        Mentions e "absolute paths not allowed".toList) ∧
      (IsAbs "../../../etc/passwd".toList = false →
        Mentions e "path escapes destination".toList)) ∧
    (∃ e, sanitizePath (.ok "/home/user".toList) "/dest".toList
        "sub/../../../etc/passwd".toList = .error e ∧
      (IsAbs "sub/../../../etc/passwd".toList = true →
        Mentions e "absolute paths not allowed".toList) ∧
      (IsAbs "sub/../../../etc/passwd".toList = false →
        Mentions e "path escapes destination".toList)) :=
  ⟨sanitizePath_rejects_abs_and_parent _ _ _ (Or.inl (by decide)),
   sanitizePath_rejects_abs_and_parent _ _ _
     (Or.inr ⟨by decide, Or.inr ⟨"../../etc/passwd".toList, by decide⟩⟩),
   sanitizePath_rejects_abs_and_parent _ _ _
     (Or.inr ⟨by decide, Or.inr ⟨"../etc/passwd".toList, by decide⟩⟩)⟩

/-- C4: for an absolute base and a relative candidate whose normalised form
does not begin with the characters `..`, `sanitizePath` succeeds and returns
the base joined with the normalised candidate. -/
theorem sanitizePath_accepts_under_abs_base (wd : Except GoString GoString)
    (base cand : GoString) (hb : IsAbs base = true) (hc : IsAbs cand = false)
    (hp : HasPrefix (Clean cand) ['.', '.'] = false) :
    sanitizePath wd base cand = .ok (Join base (Clean cand)) := by
  have hbne : base ≠ [] := by
    intro e; rw [e] at hb; cases hb
  obtain ⟨_, hcases⟩ := clean_relative_down cand hc hp
  obtain ⟨hJ, hnf, habs⟩ :=
    Join_down base (Clean cand) (normalForm cand).2 hbne (normalForm_ok cand).1 hcases
  have hX : IsAbs (base ++ Separator :: Clean cand) = true := by rw [habs]; exact hb
  have hres : Join base (Clean cand) =
      Separator :: joinSegs ((normalForm base).2 ++ (normalForm cand).2) := by
    rw [hJ, ← Clean_eq_cleanSpec, (Clean_of_abs _ hX).1, hnf]
  have hresAbs : IsAbs (Join base (Clean cand)) = true := by
    rw [hres, isAbs_cons]; rfl
  have hresClean : Clean (Join base (Clean cand)) = Join base (Clean cand) := by
    rw [hJ, ← Clean_eq_cleanSpec]
    exact Clean_idem _
  have hbase := (Clean_of_abs base hb).1
  unfold sanitizePath
  simp only [isAbs_Clean, hc, hp, Bool.false_eq_true, ↓reduceIte, Abs, hb, hresAbs, hresClean]
  have hfin : (!(Clean base == ['/'] || Clean base == [Separator]) &&
      !HasPrefix (Join base (Clean cand)) (Clean base ++ [Separator]) &&
      Join base (Clean cand) != Clean base) = false := by
    rw [finalCheck_eq_false_iff, hres, hbase]
    by_cases h1 : (normalForm base).2 = []
    · left; rw [h1]; rfl
    · right
      by_cases h2 : (normalForm cand).2 = []
      · right; rw [h2, List.append_nil]
      · left
        rw [joinSegs_append _ _ h1 h2]
        exact ⟨joinSegs (normalForm cand).2, by simp⟩
  simp only [hfin, Bool.false_eq_true, ↓reduceIte]

theorem sanitizePath_accepts_under_abs_base_witness :
    sanitizePath (.ok "/home/user".toList) "/dest".toList "file.txt".toList =
        .ok "/dest/file.txt".toList ∧
    sanitizePath (.ok "/home/user".toList) "/dest".toList "sub/dir/file.txt".toList =
        .ok "/dest/sub/dir/file.txt".toList ∧
    sanitizePath (.ok "/home/user".toList) "/dest".toList "./file.txt".toList =
        .ok "/dest/file.txt".toList ∧
    sanitizePath (.ok "/home/user".toList) "/dest".toList [] = .ok "/dest".toList :=
  ⟨(sanitizePath_accepts_under_abs_base _ _ _ (by decide) (by decide) (by decide)).trans
      (by decide),
   (sanitizePath_accepts_under_abs_base _ _ _ (by decide) (by decide) (by decide)).trans
      (by decide),
   (sanitizePath_accepts_under_abs_base _ _ _ (by decide) (by decide) (by decide)).trans
      (by decide),
   (sanitizePath_accepts_under_abs_base _ _ _ (by decide) (by decide) (by decide)).trans
      (by decide)⟩

theorem normStep_depth (k : Nat) (ns : List GoString) (seg : GoString) :
    (((normStep false (k, ns) seg).2.length : Int) - (normStep false (k, ns) seg).1 =
      (ns.length : Int) - k + segDepth seg) ∧ k ≤ (normStep false (k, ns) seg).1 := by
  unfold normStep segDepth
  by_cases h1 : seg = [] ∨ seg = ['.']
  · simp [h1]
  · by_cases h2 : seg = ['.', '.']
    · subst h2
      have e1 : ¬ (['.', '.'] = ([] : GoString) ∨ ['.', '.'] = ['.']) := by simp
      simp only [e1, ↓reduceIte]
      by_cases h3 : ns = []
      · subst h3
        simp
        omega
      · have hl : 0 < ns.length := List.length_pos.mpr h3
        simp only [ne_eq, h3, not_false_eq_true, ↓reduceIte, List.length_dropLast]
        refine ⟨?_, Nat.le_refl _⟩
        omega
    · simp only [h1, h2, ↓reduceIte, List.length_append, List.length_singleton]
      refine ⟨?_, Nat.le_refl _⟩
      push_cast
      omega

theorem foldl_depth (segs : List GoString) :
    ∀ (k : Nat) (ns : List GoString),
      (((segs.foldl (normStep false) (k, ns)).2.length : Int) -
          (segs.foldl (normStep false) (k, ns)).1 =
        (ns.length : Int) - k + depthAfter segs) ∧
      k ≤ (segs.foldl (normStep false) (k, ns)).1 := by
  induction segs with
  | nil => intro k ns; simp [depthAfter]
  | cons x xs ih =>
    intro k ns
    rw [List.foldl_cons]
    have h := normStep_depth k ns x
    have h2 := ih (normStep false (k, ns) x).1 (normStep false (k, ns) x).2
    simp only [Prod.mk.eta] at h2
    simp only [depthAfter, List.map_cons, List.sum_cons] at h2 ⊢
    constructor
    · rw [h2.1, h.1]; ring
    · exact Nat.le_trans h.2 h2.2

/-- A relative candidate with an uncancelled `..` has a normal form with a
leading `..`. -/
theorem climbs_normalForm (cand : GoString) (hrel : IsAbs cand = false)
    (h : ClimbsAboveStart cand) : 0 < (normalForm cand).1 := by
  obtain ⟨n, hn⟩ := h
  unfold normalForm foldSegs
  rw [hrel]
  have hsplit : segments cand = (segments cand).take n ++ (segments cand).drop n :=
    (List.take_append_drop n _).symm
  rw [hsplit, List.foldl_append]
  have h1 := foldl_depth ((segments cand).take n) 0 []
  have h2 := foldl_depth ((segments cand).drop n)
    (((segments cand).take n).foldl (normStep false) (0, [])).1
    (((segments cand).take n).foldl (normStep false) (0, [])).2
  simp only [Prod.mk.eta] at h2
  have h3 := h1.1
  simp only [List.length_nil, Nat.cast_zero, sub_zero, zero_add] at h3
  have : 0 < (((segments cand).take n).foldl (normStep false) (0, [])).1 := by
    have hnn : (0 : Int) ≤ ((((segments cand).take n).foldl (normStep false) (0, [])).2.length : Int) :=
      Int.ofNat_nonneg _
    omega
  exact Nat.lt_of_lt_of_le this h2.2

theorem hasPrefix_clean_of_dots (cand : GoString) (hrel : IsAbs cand = false)
    (hk : 0 < (normalForm cand).1) : HasPrefix (Clean cand) ['.', '.'] = true := by
  rw [Clean_eq_cleanSpec]
  rcases cleanSpec_cases cand with ⟨_, _, h3⟩ | ⟨h1, _⟩
  · rw [h3] at hk; exact absurd hk (Nat.lt_irrefl 0)
  · rw [h1, hrel]
    obtain ⟨n, hn⟩ := Nat.exists_eq_succ_of_ne_zero (Nat.pos_iff_ne_zero.mp hk)
    rw [hn]
    have e : dots (n + 1) ++ (normalForm cand).2 =
        ['.', '.'] :: (dots n ++ (normalForm cand).2) := rfl
    simp only [render, Bool.false_eq_true, ↓reduceIte, Nat.succ_eq_add_one, e]
    exact hasPrefix_joinSegs_cons _ _

/-- Rejection by `sanitizePath`: it fails with an "invalid path" error for
every candidate that has an absolute prefix or in which some `..` segment is
not cancelled by an ordinary segment before it. -/
theorem sanitizePath_rejects_uncancelled_dotdot (wd : Except GoString GoString)
    (base cand : GoString) (h : IsAbs cand = true ∨ ClimbsAboveStart cand) :
    ∃ e, sanitizePath wd base cand = .error e ∧ "invalid path: ".toList <+: e := by
  by_cases habs : IsAbs cand = true
  · exact ⟨_, sanitizePath_abs_error wd base cand habs,
      "absolute paths not allowed: ".toList ++ cand, rfl⟩
  · have hrel : IsAbs cand = false := by simpa using habs
    have hc : ClimbsAboveStart cand := by
      rcases h with h | h
      · exact absurd h habs
      · exact h
    exact ⟨_, sanitizePath_dotdot_error wd base cand hrel
        (hasPrefix_clean_of_dots cand hrel (climbs_normalForm cand hrel hc)),
      "path escapes destination: ".toList ++ cand, rfl⟩

theorem sanitizePath_rejects_uncancelled_dotdot_witness :
    ClimbsAboveStart "sub/../../../etc/passwd".toList ∧
    ∃ e, sanitizePath (.ok "/home/user".toList) "/dest".toList
        "sub/../../../etc/passwd".toList = .error e ∧ "invalid path: ".toList <+: e :=
  ⟨⟨3, by decide⟩,
   sanitizePath_rejects_uncancelled_dotdot _ _ _ (Or.inr ⟨3, by decide⟩)⟩

/-- C3 (as stated) fails: the candidate `a/../b` contains a `..` segment, yet
`sanitizePath` accepts it and resolves it to `/dest/b`. -/
theorem sanitizePath_dotdot_segment_accepted :
    ['.', '.'] ∈ segments "a/../b".toList ∧
    sanitizePath (.ok "/home/user".toList) "/dest".toList "a/../b".toList =
      .ok "/dest/b".toList := by
  decide


/-! ## `CpFromInstance` -/

theorem recvLoop_append (env : Env) (opts : CpFromInstanceOptions) (ending : ReadError)
    (rest : List Frame) :
    ∀ (pre : List Frame) (s : RecvState),
      recvLoop env opts (pre ++ rest) ending s =
        match recvFrames env opts pre s with
        | .next s1 => recvLoop env opts rest ending s1
        | .ret s1 r => (s1, r) := by
  intro pre
  induction pre with
  | nil => intro s; rfl
  | cons f fs ih =>
    intro s
    simp only [List.cons_append, recvLoop, recvFrames]
    cases h : recvStep env opts (s.emit .wsRead) f with
    | next s1 => exact ih s1
    | ret s1 r => rfl

theorem recvFrames_append (env : Env) (opts : CpFromInstanceOptions) (rest : List Frame) :
    ∀ (pre : List Frame) (s : RecvState),
      recvFrames env opts (pre ++ rest) s =
        match recvFrames env opts pre s with
        | .next s1 => recvFrames env opts rest s1
        | .ret s1 r => .ret s1 r := by
  intro pre
  induction pre with
  | nil => intro s; rfl
  | cons f fs ih =>
    intro s
    simp only [List.cons_append, recvFrames]
    cases h : recvStep env opts (s.emit .wsRead) f with
    | next s1 => exact ih s1
    | ret s1 r => rfl

/-- Once the URL is built, the dial succeeds and the request is written,
`CpFromInstance` is its receive loop followed by the deferred calls. -/
theorem CpFromInstance_connected (env : Env) (cfg : CpConfig) (opts : CpFromInstanceOptions)
    (wsURL : GoString) (ws : Conn)
    (hurl : buildWsURL env cfg.BaseURL opts.InstanceID = .ok wsURL)
    (hdial : env.dial 0 wsURL = .ok ws) (hw : ws.writeErr 0 = none) :
    CpFromInstance env cfg opts =
      (recvDeferred (recvLoop env opts ws.frames ws.ending (recvInit cfg opts wsURL)).1,
        (recvLoop env opts ws.frames ws.ending (recvInit cfg opts wsURL)).2) := by
  unfold CpFromInstance
  simp only [hurl, hdial, hw]
  rfl

theorem closeOpen_no_change (s : RecvState) :
    ∀ ev ∈ Event.wsRead :: (closeOpen s ++ [Event.wsClose]), ev.changesFs = false := by
  intro ev hev
  unfold closeOpen at hev
  cases h : s.currentFile with
  | none =>
    rw [h] at hev
    simp only [List.nil_append, List.mem_cons, List.mem_singleton, List.not_mem_nil,
      or_false] at hev
    rcases hev with h1 | h1 <;> subst h1 <;> rfl
  | some f =>
    rw [h] at hev
    simp only [List.singleton_append, List.mem_cons, List.mem_singleton, List.not_mem_nil,
      or_false] at hev
    rcases hev with h1 | h1 | h1 <;> subst h1 <;> rfl

theorem recvStep_header (env : Env) (opts : CpFromInstanceOptions) (s : RecvState)
    (f : Frame) (hd : cpFileHeader) (hf : f.IsHeader hd) :
    recvStep env opts s f = onHeader env opts s (.ok hd) := by
  unfold recvStep
  simp [hf.1, hf.2.1, hf.2.2]

theorem recvStep_end (env : Env) (opts : CpFromInstanceOptions) (s : RecvState)
    (f : Frame) (m : cpEndMarker) (hf : f.IsEnd m) :
    recvStep env opts s f = onEnd env opts s (.ok m) := by
  unfold recvStep
  have hne : ("end".toList == "header".toList) = false := by decide
  simp [hf.1, hf.2.1, hf.2.2, hne]

/-- The header branch up to the path check: a rejected path returns at once,
having only closed the previous file. -/
theorem onHeader_rejected_path (env : Env) (opts : CpFromInstanceOptions) (s : RecvState)
    (hd : cpFileHeader) (e : GoString)
    (hbad : sanitizePath env.wd opts.DstPath hd.Path = .error e) :
    ∃ s1, onHeader env opts s (.ok hd) =
        .ret s1 (some ("invalid path from server: ".toList ++ e)) ∧
      s1.currentFile = none ∧ s1.trace = s.trace ++ closeOpen s := by
  unfold onHeader closeOpen
  simp only [hbad]
  cases h : s.currentFile with
  | none => exact ⟨_, rfl, h, by simp⟩
  | some f => exact ⟨_, rfl, rfl, by simp [RecvState.emit]⟩

/-- C5: when the frames before it are processed without a return and a header
carries a path that `sanitizePath` rejects against `DstPath`, `CpFromInstance`
fails with an error that mentions "invalid path from server", and after the
events of the earlier frames it only reads the frame, closes the file left
open by the previous entry and closes the connection: no directory, file or
symlink is created, nothing is removed, no attribute is changed. -/
theorem CpFromInstance_rejects_bad_header_path (env : Env) (cfg : CpConfig)
    (opts : CpFromInstanceOptions) (wsURL : GoString) (ws : Conn)
    (pre post : List Frame) (f : Frame) (hd : cpFileHeader) (s : RecvState) (e : GoString)
    (hurl : buildWsURL env cfg.BaseURL opts.InstanceID = .ok wsURL)
    (hdial : env.dial 0 wsURL = .ok ws) (hw : ws.writeErr 0 = none)
    (hframes : ws.frames = pre ++ f :: post) (hf : f.IsHeader hd)
    (hpre : recvFrames env opts pre (recvInit cfg opts wsURL) = .next s)
    (hbad : sanitizePath env.wd opts.DstPath hd.Path = .error e) :
    ∃ err, (CpFromInstance env cfg opts).2 = some err ∧
      Mentions err "invalid path from server".toList ∧
      (CpFromInstance env cfg opts).1 =
        s.trace ++ Event.wsRead :: (closeOpen s ++ [Event.wsClose]) ∧
      ∀ ev ∈ Event.wsRead :: (closeOpen s ++ [Event.wsClose]), ev.changesFs = false := by
  rw [CpFromInstance_connected env cfg opts wsURL ws hurl hdial hw, hframes, recvLoop_append,
    hpre]
  obtain ⟨s1, h1, h2, h3⟩ := onHeader_rejected_path env opts (s.emit .wsRead) hd e hbad
  simp only [recvLoop, recvStep_header env opts _ f hd hf, h1]
  refine ⟨_, rfl, ⟨[], ": ".toList ++ e, rfl⟩, ?_, closeOpen_no_change s⟩
  simp only [recvDeferred, h2, h3, RecvState.emit, closeOpen]
  simp

theorem CpFromInstance_rejects_bad_header_path_witness :
    ∃ err, (CpFromInstance (mockEnv traversalFrames) mockCfg mockOpts).2 = some err ∧
      Mentions err "invalid path from server".toList ∧
      (CpFromInstance (mockEnv traversalFrames) mockCfg mockOpts).1 =
        (recvInit mockCfg mockOpts mockURL).trace ++
          Event.wsRead :: (closeOpen (recvInit mockCfg mockOpts mockURL) ++ [Event.wsClose]) ∧
      ∀ ev ∈ Event.wsRead :: (closeOpen (recvInit mockCfg mockOpts mockURL) ++ [Event.wsClose]),
        ev.changesFs = false :=
  CpFromInstance_rejects_bad_header_path (mockEnv traversalFrames) mockCfg mockOpts mockURL
    { writeErr := fun _ => none, frames := traversalFrames, ending := .closeNormal }
    [] [] _ (fileHeader "../../../etc/passwd".toList 0o644 100 0) _
    "invalid path: path escapes destination: ../../../etc/passwd".toList
    (by decide) rfl rfl rfl ⟨rfl, rfl, rfl⟩ rfl (by decide)

/-- The symlink branch of the header case up to the target check: a target
that is absolute or whose cleaned form starts with `..` returns at once,
having only closed the previous file. -/
theorem onHeader_rejected_target (env : Env) (opts : CpFromInstanceOptions) (s : RecvState)
    (hd : cpFileHeader) (targetPath : GoString)
    (hok : sanitizePath env.wd opts.DstPath hd.Path = .ok targetPath)
    (hdir : hd.IsDir = false) (hsym : hd.IsSymlink = true)
    (hbad : IsAbs hd.LinkTarget = true ∨ HasPrefix (Clean hd.LinkTarget) ['.', '.'] = true) :
    ∃ s1, onHeader env opts s (.ok hd) =
        .ret s1 (some ("invalid symlink target: ".toList ++ hd.LinkTarget)) ∧
      s1.currentFile = none ∧ s1.trace = s.trace ++ closeOpen s := by
  have hb : (IsAbs hd.LinkTarget || HasPrefix (Clean hd.LinkTarget) ['.', '.']) = true := by
    rcases hbad with h | h <;> simp [h]
  unfold onHeader closeOpen
  simp only [hok, hdir, hsym, hb, Bool.false_eq_true, ↓reduceIte]
  cases h : s.currentFile with
  | none => exact ⟨_, rfl, h, by simp⟩
  | some f => exact ⟨_, rfl, rfl, by simp [RecvState.emit]⟩

/-- C6: when a symlink header (`is_symlink` set, `is_dir` not set) has a link
path that `sanitizePath` accepts but a link target that is absolute or whose
cleaned form starts with `..`, `CpFromInstance` fails with an error that
mentions "invalid symlink target"; after the events of the earlier frames it
only reads the frame, closes the file left open by the previous entry and
closes the connection: no parent directory is created, nothing is removed and
no symlink is created. -/
theorem CpFromInstance_rejects_bad_symlink_target (env : Env) (cfg : CpConfig)
    (opts : CpFromInstanceOptions) (wsURL : GoString) (ws : Conn)
    (pre post : List Frame) (f : Frame) (hd : cpFileHeader) (s : RecvState)
    (targetPath : GoString)
    (hurl : buildWsURL env cfg.BaseURL opts.InstanceID = .ok wsURL)
    (hdial : env.dial 0 wsURL = .ok ws) (hw : ws.writeErr 0 = none)
    (hframes : ws.frames = pre ++ f :: post) (hf : f.IsHeader hd)
    (hpre : recvFrames env opts pre (recvInit cfg opts wsURL) = .next s)
    (hok : sanitizePath env.wd opts.DstPath hd.Path = .ok targetPath)
    (hdir : hd.IsDir = false) (hsym : hd.IsSymlink = true)
    (hbad : IsAbs hd.LinkTarget = true ∨ HasPrefix (Clean hd.LinkTarget) ['.', '.'] = true) :
    ∃ err, (CpFromInstance env cfg opts).2 = some err ∧
      Mentions err "invalid symlink target".toList ∧
      (CpFromInstance env cfg opts).1 =
        s.trace ++ Event.wsRead :: (closeOpen s ++ [Event.wsClose]) ∧
      ∀ ev ∈ Event.wsRead :: (closeOpen s ++ [Event.wsClose]),
        ev.changesFs = false ∧ ev ≠ Event.mkdirAll (Dir targetPath) 0o755 ∧
        ev ≠ Event.remove targetPath ∧ ev ≠ Event.symlink hd.LinkTarget targetPath := by
  rw [CpFromInstance_connected env cfg opts wsURL ws hurl hdial hw, hframes, recvLoop_append,
    hpre]
  obtain ⟨s1, h1, h2, h3⟩ :=
    onHeader_rejected_target env opts (s.emit .wsRead) hd targetPath hok hdir hsym hbad
  simp only [recvLoop, recvStep_header env opts _ f hd hf, h1]
  refine ⟨_, rfl, ⟨[], ": ".toList ++ hd.LinkTarget, rfl⟩, ?_, ?_⟩
  · simp only [recvDeferred, h2, h3, RecvState.emit, closeOpen]
    simp
  · intro ev hev
    have hc := closeOpen_no_change s ev hev
    refine ⟨hc, ?_, ?_, ?_⟩ <;> intro heq <;> rw [heq] at hc <;> cases hc

theorem CpFromInstance_rejects_bad_symlink_target_witness :
    (∃ err, (CpFromInstance (mockEnv absSymlinkFrames) mockCfg mockOpts).2 = some err ∧
      Mentions err "invalid symlink target".toList ∧
      (CpFromInstance (mockEnv absSymlinkFrames) mockCfg mockOpts).1 =
        (recvInit mockCfg mockOpts mockURL).trace ++
          Event.wsRead :: (closeOpen (recvInit mockCfg mockOpts mockURL) ++ [Event.wsClose]) ∧
      ∀ ev ∈ Event.wsRead :: (closeOpen (recvInit mockCfg mockOpts mockURL) ++ [Event.wsClose]),
        ev.changesFs = false ∧ ev ≠ Event.mkdirAll (Dir "/dest/link".toList) 0o755 ∧
        ev ≠ Event.remove "/dest/link".toList ∧
        ev ≠ Event.symlink (symlinkHeader "link".toList "/etc/passwd".toList).LinkTarget
          "/dest/link".toList) ∧
    (∃ err, (CpFromInstance (mockEnv traversingSymlinkFrames) mockCfg mockOpts).2 = some err ∧
      Mentions err "invalid symlink target".toList ∧
      (CpFromInstance (mockEnv traversingSymlinkFrames) mockCfg mockOpts).1 =
        (recvInit mockCfg mockOpts mockURL).trace ++
          Event.wsRead :: (closeOpen (recvInit mockCfg mockOpts mockURL) ++ [Event.wsClose]) ∧
      ∀ ev ∈ Event.wsRead :: (closeOpen (recvInit mockCfg mockOpts mockURL) ++ [Event.wsClose]),
        ev.changesFs = false ∧ ev ≠ Event.mkdirAll (Dir "/dest/link".toList) 0o755 ∧
        ev ≠ Event.remove "/dest/link".toList ∧
        ev ≠ Event.symlink (symlinkHeader "link".toList "../../../etc/passwd".toList).LinkTarget
          "/dest/link".toList) :=
  ⟨CpFromInstance_rejects_bad_symlink_target (mockEnv absSymlinkFrames) mockCfg mockOpts mockURL
      { writeErr := fun _ => none, frames := absSymlinkFrames, ending := .closeNormal }
      [] [] _ (symlinkHeader "link".toList "/etc/passwd".toList) _ "/dest/link".toList
      (by decide) rfl rfl rfl ⟨rfl, rfl, rfl⟩ rfl (by decide) rfl rfl (Or.inl (by decide)),
   CpFromInstance_rejects_bad_symlink_target (mockEnv traversingSymlinkFrames) mockCfg mockOpts
      mockURL
      { writeErr := fun _ => none, frames := traversingSymlinkFrames, ending := .closeNormal }
      [] [] _ (symlinkHeader "link".toList "../../../etc/passwd".toList) _ "/dest/link".toList
      (by decide) rfl rfl rfl ⟨rfl, rfl, rfl⟩ rfl (by decide) rfl rfl (Or.inr (by decide))⟩

/-! ### Success and the final end marker -/

theorem onHeader_notFinal (env : Env) (opts : CpFromInstanceOptions) (s : RecvState)
    (hd : Except GoString cpFileHeader) :
    (onHeader env opts s hd).NotFinal s.receivedFinal := by
  unfold onHeader
  simp only []
  repeat' split
  all_goals simp [Step.NotFinal, RecvState.emit]

theorem onEnd_notFinal (env : Env) (opts : CpFromInstanceOptions) (s : RecvState)
    (m : Except GoString cpEndMarker) (hm : m ≠ .ok { Final := true }) :
    (onEnd env opts s m).NotFinal s.receivedFinal := by
  unfold onEnd
  cases m with
  | error e => simp [Step.NotFinal]
  | ok em =>
    have hf : em.Final = false := by
      cases em with
      | mk f =>
        cases f with
        | false => rfl
        | true => exact absurd rfl hm
    simp only [hf, Bool.false_eq_true, ↓reduceIte]
    repeat' split
    all_goals simp [Step.NotFinal, RecvState.emit]

theorem recvStep_notFinal (env : Env) (opts : CpFromInstanceOptions) (s : RecvState)
    (f : Frame) (hf : ¬ f.IsFinalEnd) : (recvStep env opts s f).NotFinal s.receivedFinal := by
  unfold recvStep
  by_cases h1 : f.msgType = TextMessage
  · simp only [h1, beq_self_eq_true, ↓reduceIte]
    cases hmap : f.json.asMap with
    | error e => simp [Step.NotFinal]
    | ok ty =>
      simp only []
      by_cases t1 : ty = "header".toList
      · simp only [t1, beq_self_eq_true, ↓reduceIte]
        exact onHeader_notFinal env opts s _
      · by_cases t2 : ty = "end".toList
        · have hne : ("end".toList == "header".toList) = false := by decide
          simp only [t2, hne, Bool.false_eq_true, beq_self_eq_true, ↓reduceIte]
          refine onEnd_notFinal env opts s _ ?_
          intro hm
          exact hf ⟨h1, by rw [hmap, t2], hm⟩
        · have b1 : (ty == "header".toList) = false := by simpa using t1
          have b2 : (ty == "end".toList) = false := by simpa using t2
          simp only [b1, b2, Bool.false_eq_true, ↓reduceIte]
          repeat' split
          all_goals simp [Step.NotFinal]
  · have b1 : (f.msgType == TextMessage) = false := by simpa using h1
    simp only [b1, Bool.false_eq_true, ↓reduceIte]
    repeat' split
    all_goals simp [Step.NotFinal, RecvState.emit]

theorem recvStep_finalEnd (env : Env) (opts : CpFromInstanceOptions) (s : RecvState)
    (f : Frame) (hf : f.IsFinalEnd) : ∃ s1, recvStep env opts s f = .ret s1 none := by
  rw [recvStep_end env opts s f _ hf]
  simp only [onEnd, ↓reduceIte]
  exact ⟨_, rfl⟩

theorem recvFrames_next_flag (env : Env) (opts : CpFromInstanceOptions) :
    ∀ (frames : List Frame) (s s1 : RecvState),
      recvFrames env opts frames s = .next s1 → s1.receivedFinal = s.receivedFinal := by
  intro frames
  induction frames with
  | nil =>
    intro s s1 h
    simp only [recvFrames] at h
    injection h with h
    rw [h]
  | cons f rest ih =>
    intro s s1 h
    simp only [recvFrames] at h
    by_cases hf : f.IsFinalEnd
    · obtain ⟨s2, h2⟩ := recvStep_finalEnd env opts (s.emit .wsRead) f hf
      rw [h2] at h
      cases h
    · have hn := recvStep_notFinal env opts (s.emit .wsRead) f hf
      cases hstep : recvStep env opts (s.emit .wsRead) f with
      | next s2 =>
        rw [hstep] at h hn
        have := ih s2 s1 h
        rw [this]
        exact hn
      | ret s2 r =>
        rw [hstep] at h
        cases h

/-- The receive loop returns nil exactly when an end frame with `final=true`
is reached before any frame that makes the loop return. -/
theorem recvLoop_none_iff (env : Env) (opts : CpFromInstanceOptions) (ending : ReadError) :
    ∀ (frames : List Frame) (s : RecvState), s.receivedFinal = false →
      ((recvLoop env opts frames ending s).2 = none ↔
        ∃ pre f post s1, frames = pre ++ f :: post ∧ f.IsFinalEnd ∧
          recvFrames env opts pre s = .next s1) := by
  intro frames
  induction frames with
  | nil =>
    intro s hs
    constructor
    · intro h
      simp only [recvLoop, RecvState.emit, hs, Bool.not_false, ↓reduceIte] at h
      split at h <;> cases h
    · rintro ⟨pre, f, post, s1, h, _⟩
      cases pre <;> cases h
  | cons f rest ih =>
    intro s hs
    simp only [recvLoop]
    by_cases hf : f.IsFinalEnd
    · obtain ⟨s2, h2⟩ := recvStep_finalEnd env opts (s.emit .wsRead) f hf
      rw [h2]
      exact ⟨fun _ => ⟨[], f, rest, s, rfl, hf, rfl⟩, fun _ => rfl⟩
    · have hn := recvStep_notFinal env opts (s.emit .wsRead) f hf
      cases hstep : recvStep env opts (s.emit .wsRead) f with
      | next s2 =>
        rw [hstep] at hn
        have hs2 : s2.receivedFinal = false := by
          rw [hn]; exact hs
        simp only []
        rw [ih s2 hs2]
        constructor
        · rintro ⟨pre, g, post, s1, h1, hg, h2⟩
          refine ⟨f :: pre, g, post, s1, by rw [h1]; rfl, hg, ?_⟩
          simp only [recvFrames, hstep]
          exact h2
        · rintro ⟨pre, g, post, s1, h1, hg, h2⟩
          cases pre with
          | nil =>
            simp only [List.nil_append, List.cons.injEq] at h1
            rw [← h1.1] at hg
            exact absurd hg hf
          | cons g2 pre2 =>
            simp only [List.cons_append, List.cons.injEq] at h1
            obtain ⟨hg2, hrest⟩ := h1
            subst hg2
            simp only [recvFrames, hstep] at h2
            exact ⟨pre2, g, post, s1, hrest, hg, h2⟩
      | ret s2 r =>
        rw [hstep] at hn
        simp only []
        constructor
        · intro h
          exact absurd h hn
        · rintro ⟨pre, g, post, s1, h1, hg, h2⟩
          cases pre with
          | nil =>
            simp only [List.nil_append, List.cons.injEq] at h1
            rw [← h1.1] at hg
            exact absurd hg hf
          | cons g2 pre2 =>
            simp only [List.cons_append, List.cons.injEq] at h1
            obtain ⟨hg2, _⟩ := h1
            subst hg2
            simp only [recvFrames, hstep] at h2
            cases h2

/-- C8: once connected, `CpFromInstance` returns nil exactly when an end frame
with `final=true` is processed before any frame that makes it return; and
when all frames are processed and the channel then closes (normal closure or
going away), it returns the error "copy stream ended without completion
marker". -/
theorem CpFromInstance_success_iff_final (env : Env) (cfg : CpConfig)
    (opts : CpFromInstanceOptions) (wsURL : GoString) (ws : Conn)
    (hurl : buildWsURL env cfg.BaseURL opts.InstanceID = .ok wsURL)
    (hdial : env.dial 0 wsURL = .ok ws) (hw : ws.writeErr 0 = none) :
    ((CpFromInstance env cfg opts).2 = none ↔
      ∃ pre f post s, ws.frames = pre ++ f :: post ∧ f.IsFinalEnd ∧
        recvFrames env opts pre (recvInit cfg opts wsURL) = .next s) ∧
    (∀ s, recvFrames env opts ws.frames (recvInit cfg opts wsURL) = .next s →
      ws.ending.isNormalClose = true →
      (CpFromInstance env cfg opts).2 =
        some "copy stream ended without completion marker".toList) := by
  rw [CpFromInstance_connected env cfg opts wsURL ws hurl hdial hw]
  refine ⟨recvLoop_none_iff env opts ws.ending ws.frames _ rfl, ?_⟩
  intro s hs hclose
  have hflag := recvFrames_next_flag env opts ws.frames _ s hs
  have happ := recvLoop_append env opts ws.ending [] ws.frames (recvInit cfg opts wsURL)
  rw [List.append_nil, hs] at happ
  simp only [] at happ ⊢
  rw [happ]
  have hf : s.receivedFinal = false := hflag
  simp [recvLoop, RecvState.emit, hclose, hf]

theorem CpFromInstance_success_iff_final_witness :
    (CpFromInstance (mockEnv normalFileFrames) mockCfg mockOpts).2 = none ∧
    (CpFromInstance (mockEnv partialFrames) mockCfg mockOpts).2 =
      some "copy stream ended without completion marker".toList :=
  ⟨(CpFromInstance_success_iff_final (mockEnv normalFileFrames) mockCfg mockOpts mockURL
      { writeErr := fun _ => none, frames := normalFileFrames, ending := .closeNormal }
      (by decide) rfl rfl).1.mpr
      ⟨[headerFrame (fileHeader "output.txt".toList 0o644 11 1234567890),
        binaryFrame [104, 101, 108, 108, 111, 32, 119, 111, 114, 108, 100]],
        endFrame true, [], _, rfl, ⟨rfl, rfl, rfl⟩, rfl⟩,
   (CpFromInstance_success_iff_final (mockEnv partialFrames) mockCfg mockOpts mockURL
      { writeErr := fun _ => none, frames := partialFrames, ending := .closeNormal }
      (by decide) rfl rfl).2 _ rfl rfl⟩

/-! ### Events are only ever added -/

theorem onHeader_extends (env : Env) (opts : CpFromInstanceOptions) (s : RecvState)
    (hd : Except GoString cpFileHeader) :
    (onHeader env opts s hd).Holds (fun s1 => s.trace <+: s1.trace) := by
  unfold onHeader
  simp only []
  repeat' split
  all_goals simp [Step.Holds, RecvState.emit]

theorem onEnd_extends (env : Env) (opts : CpFromInstanceOptions) (s : RecvState)
    (m : Except GoString cpEndMarker) :
    (onEnd env opts s m).Holds (fun s1 => s.trace <+: s1.trace) := by
  unfold onEnd
  simp only []
  repeat' split
  all_goals simp [Step.Holds, RecvState.emit]

theorem recvStep_extends (env : Env) (opts : CpFromInstanceOptions) (s : RecvState)
    (f : Frame) : (recvStep env opts s f).Holds (fun s1 => s.trace <+: s1.trace) := by
  unfold recvStep
  split
  · split
    · simp [Step.Holds]
    · split
      · exact onHeader_extends env opts s _
      · split
        · exact onEnd_extends env opts s _
        · repeat' split
          all_goals simp [Step.Holds]
  · repeat' split
    all_goals simp [Step.Holds, RecvState.emit]

theorem recvLoop_extends (env : Env) (opts : CpFromInstanceOptions) (ending : ReadError) :
    ∀ (frames : List Frame) (s : RecvState),
      s.trace <+: (recvLoop env opts frames ending s).1.trace := by
  intro frames
  induction frames with
  | nil =>
    intro s
    simp only [recvLoop]
    repeat' split
    all_goals simp [RecvState.emit]
  | cons f rest ih =>
    intro s
    simp only [recvLoop]
    have h := recvStep_extends env opts (s.emit .wsRead) f
    have h0 : s.trace <+: (s.emit .wsRead).trace := by simp [RecvState.emit]
    cases hstep : recvStep env opts (s.emit .wsRead) f with
    | next s1 =>
      rw [hstep] at h
      exact h0.trans (h.trans (ih s1))
    | ret s1 r =>
      rw [hstep] at h
      exact h0.trans h

theorem recvDeferred_extends (s : RecvState) : s.trace <+: recvDeferred s := by
  unfold recvDeferred
  cases s.currentFile <;> simp

/-! ### Receiving one file -/

/-- A file header whose path is accepted, when the local calls succeed:
the file is opened (created or truncated) at the sanitized path and is
empty. -/
theorem onHeader_file (env : Env) (opts : CpFromInstanceOptions) (s : RecvState)
    (hd : cpFileHeader) (target : GoString)
    (hok : sanitizePath env.wd opts.DstPath hd.Path = .ok target)
    (hdir : hd.IsDir = false) (hsym : hd.IsSymlink = false)
    (hfs : ∀ t ev, env.fsErr t ev = none) :
    ∃ s1, onHeader env opts s (.ok hd) = .next s1 ∧ s1.currentFile = some target ∧
      Event.openFile target hd.Mode ∈ s1.trace ∧ fileContent target s1.trace = some [] := by
  unfold onHeader
  simp only [hok, hdir, hsym, hfs, Bool.false_eq_true, ↓reduceIte]
  repeat' split
  all_goals
    refine ⟨_, rfl, rfl, ?_, ?_⟩
    · simp [RecvState.emit]
    · simp [RecvState.emit, fileContent, List.foldl_append, contentStep]

/-- Binary frames while a file is open, when the writes succeed: each
payload is appended to the file, in order. -/
theorem recvFrames_binary (env : Env) (opts : CpFromInstanceOptions) (target : GoString)
    (hfs : ∀ t ev, env.fsErr t ev = none) :
    ∀ (bfs : List Frame) (s : RecvState), (∀ b ∈ bfs, b.msgType = BinaryMessage) →
      s.currentFile = some target →
      ∃ s1, recvFrames env opts bfs s = .next s1 ∧
        s1.currentFile = some target ∧ s.trace <+: s1.trace ∧
        fileContent target s1.trace =
          (fileContent target s.trace).map (fun x => x ++ (bfs.map Frame.data).flatten) := by
  intro bfs
  induction bfs with
  | nil =>
    intro s _ hs
    refine ⟨s, rfl, hs, List.prefix_refl _, ?_⟩
    cases fileContent target s.trace <;> simp
  | cons b rest ih =>
    intro s hb hs
    have hbin : b.msgType = BinaryMessage := hb b (by simp)
    have hne : (BinaryMessage == TextMessage) = false := by decide
    have hstep : ∃ s2, recvStep env opts (s.emit .wsRead) b = .next s2 ∧
        s2.currentFile = some target ∧ s.trace <+: s2.trace ∧
        fileContent target s2.trace =
          (fileContent target s.trace).map (fun x => x ++ b.data) := by
      simp only [recvStep, RecvState.emit, hs, hfs, hbin, hne, Bool.false_eq_true, ↓reduceIte,
        beq_self_eq_true]
      repeat' split
      all_goals
        refine ⟨_, rfl, rfl, ?_, ?_⟩
        · simp
        · simp [fileContent, List.foldl_append, contentStep]
    obtain ⟨s2, h1, h2, h3, h4⟩ := hstep
    obtain ⟨s1, g1, g2, g3, g4⟩ := ih s2 (fun x hx => hb x (by simp [hx])) h2
    refine ⟨s1, ?_, g2, h3.trans g3, ?_⟩
    · simp only [recvFrames, h1]
      exact g1
    · rw [g4, h4]
      cases fileContent target s.trace <;> simp

/-- An end frame while a file is open: the file is closed and its content
is left as it is. -/
theorem onEnd_file (env : Env) (opts : CpFromInstanceOptions) (s : RecvState)
    (m : cpEndMarker) (target : GoString) (hs : s.currentFile = some target) :
    ∃ s1, onEnd env opts s (.ok m) = (if m.Final then Step.ret s1 none else Step.next s1) ∧
      s1.currentFile = none ∧ s.trace <+: s1.trace ∧
      fileContent target s1.trace = fileContent target s.trace := by
  have hext := onEnd_extends env opts s (.ok m)
  have hcontent : (onEnd env opts s (.ok m)).Holds (fun s1 =>
      s1.currentFile = none ∧ fileContent target s1.trace = fileContent target s.trace) := by
    unfold onEnd
    simp only [hs]
    repeat' split
    all_goals simp [Step.Holds, RecvState.emit, fileContent, List.foldl_append, contentStep]
  have hshape : onEnd env opts s (.ok m) =
      (if m.Final then Step.ret (onEnd env opts s (.ok m)).state none
        else Step.next (onEnd env opts s (.ok m)).state) := by
    unfold onEnd
    simp only []
    cases m.Final <;> simp [Step.state]
  refine ⟨(onEnd env opts s (.ok m)).state, hshape, ?_⟩
  cases hst : onEnd env opts s (.ok m) with
  | next s1 =>
    rw [hst] at hext hcontent
    exact ⟨hcontent.1, hext, hcontent.2⟩
  | ret s1 r =>
    rw [hst] at hext hcontent
    exact ⟨hcontent.1, hext, hcontent.2⟩

/-- C9: a file header with an accepted path, followed by binary frames
`b1..bk` and an end frame, when the local calls succeed: `CpFromInstance`
opens (creates or truncates) the file at `sanitizePath(DstPath, header.Path)`
with the header's mode, and when the end frame has been processed the content
written to it is exactly `b1 ++ ... ++ bk`, whatever size the header
declared; the handle is closed. -/
theorem CpFromInstance_file_content (env : Env) (cfg : CpConfig)
    (opts : CpFromInstanceOptions) (wsURL : GoString) (ws : Conn)
    (pre post bfs : List Frame) (hf ef : Frame) (hd : cpFileHeader) (m : cpEndMarker)
    (s : RecvState) (target : GoString)
    (hurl : buildWsURL env cfg.BaseURL opts.InstanceID = .ok wsURL)
    (hdial : env.dial 0 wsURL = .ok ws) (hw : ws.writeErr 0 = none)
    (hframes : ws.frames = (pre ++ hf :: (bfs ++ [ef])) ++ post)
    (hhd : hf.IsHeader hd) (hbin : ∀ b ∈ bfs, b.msgType = BinaryMessage) (hend : ef.IsEnd m)
    (hpre : recvFrames env opts pre (recvInit cfg opts wsURL) = .next s)
    (hok : sanitizePath env.wd opts.DstPath hd.Path = .ok target)
    (hdir : hd.IsDir = false) (hsym : hd.IsSymlink = false)
    (hfs : ∀ t ev, env.fsErr t ev = none) :
    ∃ s1, recvFrames env opts (pre ++ hf :: (bfs ++ [ef])) (recvInit cfg opts wsURL) =
        (if m.Final then Step.ret s1 none else Step.next s1) ∧
      s1.trace <+: (CpFromInstance env cfg opts).1 ∧
      Event.openFile target hd.Mode ∈ s1.trace ∧
      fileContent target s1.trace = some (bfs.map Frame.data).flatten ∧
      s1.currentFile = none := by
  obtain ⟨s2, h1, h2, h3, h4⟩ := onHeader_file env opts (s.emit .wsRead) hd target hok hdir hsym hfs
  obtain ⟨s3, g1, g2, g3, g4⟩ := recvFrames_binary env opts target hfs bfs s2 hbin h2
  obtain ⟨s4, e1, e2, e3, e4⟩ := onEnd_file env opts (s3.emit .wsRead) m target g2
  have hread : fileContent target (s3.emit .wsRead).trace = fileContent target s3.trace := by
    simp [RecvState.emit, fileContent, List.foldl_append, contentStep]
  have hrun : recvFrames env opts (pre ++ hf :: (bfs ++ [ef])) (recvInit cfg opts wsURL) =
      (if m.Final then Step.ret s4 none else Step.next s4) := by
    rw [recvFrames_append, hpre]
    simp only [recvFrames, recvStep_header env opts _ hf hd hhd, h1]
    rw [recvFrames_append, g1]
    simp only [recvFrames, recvStep_end env opts _ ef m hend, e1]
    cases m.Final <;> rfl
  have hmem : Event.openFile target hd.Mode ∈ s4.trace := by
    have hp : s2.trace <+: s4.trace :=
      g3.trans ((by simp [RecvState.emit] : s3.trace <+: (s3.emit .wsRead).trace).trans e3)
    exact hp.subset h3
  have hpref : s4.trace <+: (CpFromInstance env cfg opts).1 := by
    rw [CpFromInstance_connected env cfg opts wsURL ws hurl hdial hw, hframes, recvLoop_append,
      hrun]
    by_cases hfin : m.Final = true
    · simp only [hfin, ↓reduceIte]
      exact recvDeferred_extends s4
    · simp only [hfin, Bool.false_eq_true, ↓reduceIte]
      exact (recvLoop_extends env opts ws.ending post s4).trans (recvDeferred_extends _)
  refine ⟨s4, hrun, hpref, hmem, ?_, e2⟩
  rw [e4, hread, g4, h4]
  simp

theorem CpFromInstance_file_content_witness :
    ∃ s1, recvFrames (mockEnv normalFileFrames) mockOpts normalFileFrames
          (recvInit mockCfg mockOpts mockURL) = Step.ret s1 none ∧
      s1.trace <+: (CpFromInstance (mockEnv normalFileFrames) mockCfg mockOpts).1 ∧
      Event.openFile "/dest/output.txt".toList 0o644 ∈ s1.trace ∧
      fileContent "/dest/output.txt".toList s1.trace =
        some [104, 101, 108, 108, 111, 32, 119, 111, 114, 108, 100] ∧
      s1.currentFile = none :=
  CpFromInstance_file_content (mockEnv normalFileFrames) mockCfg mockOpts mockURL
    { writeErr := fun _ => none, frames := normalFileFrames, ending := .closeNormal }
    [] [] [binaryFrame [104, 101, 108, 108, 111, 32, 119, 111, 114, 108, 100]]
    (headerFrame (fileHeader "output.txt".toList 0o644 11 1234567890)) (endFrame true)
    (fileHeader "output.txt".toList 0o644 11 1234567890) { Final := true } _
    "/dest/output.txt".toList (by decide) rfl rfl rfl ⟨rfl, rfl, rfl⟩
    (by intro b hb; simp only [List.mem_singleton] at hb; rw [hb]; rfl) ⟨rfl, rfl, rfl⟩
    rfl (by decide) rfl rfl (fun _ _ => rfl)

/-! ### A symlink at the destination root -/

/-- C7 fails for a link placed at the destination root: with `DstPath` `/dest`
the symlink header with path `.` and target `etc` passes both checks, the
link is created at `/dest` itself (after `os.Remove("/dest")`), and its
target, resolved against the directory `/` that contains the link, is `/etc`,
which is neither `/dest` nor under `/dest/`. -/
theorem CpFromInstance_root_symlink_escapes :
    sanitizePath (.ok "/home/user".toList) "/dest".toList ".".toList = .ok "/dest".toList ∧
    (IsAbs "etc".toList || HasPrefix (Clean "etc".toList) ['.', '.']) = false ∧
    CpFromInstance (mockEnv rootSymlinkFrames) mockCfg mockOpts =
      ([.dial mockURL "Bearer test-key".toList,
        .sendRequest (cpRequest.mk "from".toList "/app".toList false 0 false 0 0),
        .wsRead, .mkdirAll "/".toList 0o755, .remove "/dest".toList,
        .symlink "etc".toList "/dest".toList, .wsRead, .wsClose], none) ∧
    Join (Dir "/dest".toList) "etc".toList = "/etc".toList ∧
    "/etc".toList ≠ "/dest".toList ∧ ¬ ("/dest/".toList <+: "/etc".toList) := by
  decide

/-! ### Symlinks below the destination root -/

theorem dirLoop_eq (P s : GoString) :
    ∀ m : Nat, m ≤ s.length → (∀ c ∈ s, IsPathSeparator c = false) →
      dirLoop (P ++ Separator :: s) (P.length + 1 + m) = P.length + 1 := by
  intro m
  induction m with
  | zero =>
    intro _ _
    rw [Nat.add_zero, dirLoop, List.getD_append_right _ _ _ _ (Nat.le_refl _)]
    simp [IsPathSeparator]
  | succ m ih =>
    intro hm hs
    have e : P.length + 1 + (m + 1) = (P.length + 1 + m) + 1 := by omega
    rw [e, dirLoop, List.getD_append_right _ _ _ _ (by omega)]
    have e2 : P.length + 1 + m - P.length = m + 1 := by omega
    rw [e2, List.getD_cons_succ, getD_not_sep s hs m (by omega)]
    simp only [Bool.not_false, ↓reduceIte]
    exact ih (by omega) hs

theorem Clean_trailing_sep (xs : List GoString) (hxs : ∀ a ∈ xs, IsName a) :
    Clean ((Separator :: joinSegs xs) ++ [Separator]) = Separator :: joinSegs xs := by
  have habs : IsAbs ((Separator :: joinSegs xs) ++ [Separator]) = true := by
    simp [isAbs_cons, IsPathSeparator]
  rw [(Clean_of_abs _ habs).1]
  congr 1
  congr 1
  unfold normalForm
  rw [habs]
  have hfold := foldSegs_render true 0 xs ⟨hxs, fun _ => rfl⟩
  have e : render true 0 xs = Separator :: joinSegs xs := by simp [render, dots]
  rw [e] at hfold
  unfold foldSegs at hfold ⊢
  rw [segments_append_sep, List.foldl_append, hfold]
  simp [segments, normStep]

/-- `Dir` of a written-out absolute path drops its last name. -/
theorem Dir_render (xs : List GoString) (s : GoString) (hxs : ∀ a ∈ xs, IsName a)
    (hs : IsName s) : Dir (Separator :: joinSegs (xs ++ [s])) = Separator :: joinSegs xs := by
  unfold Dir
  by_cases hne : xs = []
  · subst hne
    have h := dirLoop_eq [] s s.length (Nat.le_refl _) hs.2.1
    simp only [List.nil_append, List.length_nil, Nat.zero_add] at h
    have e : (Separator :: joinSegs ([] ++ [s])).length = 1 + s.length := by
      simp [joinSegs]; omega
    have e2 : Separator :: joinSegs ([] ++ [s]) = Separator :: s := by simp [joinSegs]
    rw [e, e2, h]
    simp only [List.take_succ_cons, List.take_zero]
    decide
  · rw [joinSegs_snoc xs s hne]
    have h := dirLoop_eq (Separator :: joinSegs xs) s s.length (Nat.le_refl _) hs.2.1
    have e : (Separator :: (joinSegs xs ++ Separator :: s)).length =
        (Separator :: joinSegs xs).length + 1 + s.length := by
      simp; omega
    have e2 : Separator :: (joinSegs xs ++ Separator :: s) =
        (Separator :: joinSegs xs) ++ Separator :: s := rfl
    rw [e, e2, h]
    have e3 : List.take ((Separator :: joinSegs xs).length + 1)
        ((Separator :: joinSegs xs) ++ Separator :: s) =
        (Separator :: joinSegs xs) ++ [Separator] := by
      rw [List.take_append_eq_append_take]
      simp
    rw [e3]
    exact Clean_trailing_sep xs hxs

theorem normStep_fst_le (rooted : Bool) (st : Nat × List GoString) (seg : GoString) :
    st.1 ≤ (normStep rooted st seg).1 := by
  unfold normStep
  repeat' split
  all_goals simp

theorem foldl_fst_le (rooted : Bool) (segs : List GoString) :
    ∀ st : Nat × List GoString, st.1 ≤ (segs.foldl (normStep rooted) st).1 := by
  induction segs with
  | nil => intro st; exact Nat.le_refl _
  | cons x xs ih =>
    intro st
    rw [List.foldl_cons]
    exact Nat.le_trans (normStep_fst_le rooted st x) (ih _)

/-- Segments that never climb above their starting directory act on top of
any stack of names as they act on the empty one. -/
theorem foldl_on_top (rooted : Bool) (X : List GoString) (segs : List GoString) :
    ∀ xs : List GoString, (segs.foldl (normStep false) (0, xs)).1 = 0 →
      segs.foldl (normStep rooted) (0, X ++ xs) =
        (0, X ++ (segs.foldl (normStep false) (0, xs)).2) := by
  induction segs with
  | nil => intro xs _; rfl
  | cons seg rest ih =>
    intro xs h
    rw [List.foldl_cons] at h ⊢
    by_cases h1 : seg = [] ∨ seg = ['.']
    · have e1 : normStep false (0, xs) seg = (0, xs) := by simp [normStep, h1]
      have e2 : normStep rooted (0, X ++ xs) seg = (0, X ++ xs) := by simp [normStep, h1]
      rw [e1] at h
      rw [e2, List.foldl_cons, e1]
      exact ih xs h
    · by_cases h2 : seg = ['.', '.']
      · subst h2
        by_cases h3 : xs = []
        · subst h3
          have e1 : normStep false (0, []) ['.', '.'] = (1, []) := by simp [normStep]
          rw [e1] at h
          have := foldl_fst_le false rest (1, [])
          simp only [] at this
          omega
        · have e1 : normStep false (0, xs) ['.', '.'] = (0, xs.dropLast) := by
            simp [normStep, h3]
          have e2 : normStep rooted (0, X ++ xs) ['.', '.'] = (0, X ++ xs.dropLast) := by
            simp [normStep, h3, List.dropLast_append_of_ne_nil]
          rw [e1] at h
          rw [e2, List.foldl_cons, e1]
          exact ih xs.dropLast h
      · have e1 : normStep false (0, xs) seg = (0, xs ++ [seg]) := by
          simp only [not_or] at h1
          simp [normStep, h1.1, h1.2, h2]
        have e2 : normStep rooted (0, X ++ xs) seg = (0, X ++ (xs ++ [seg])) := by
          simp only [not_or] at h1
          simp [normStep, h1.1, h1.2, h2]
        rw [e1] at h
        rw [e2, List.foldl_cons, e1]
        exact ih (xs ++ [seg]) h

/-- The shape of what `sanitizePath` returns for an absolute base: the names
of the base followed by the names of the candidate. -/
theorem Join_abs_shape (base cand : GoString) (hb : IsAbs base = true)
    (hc : IsAbs cand = false) (hp : HasPrefix (Clean cand) ['.', '.'] = false) :
    Join base (Clean cand) =
      Separator :: joinSegs ((normalForm base).2 ++ (normalForm cand).2) := by
  have hbne : base ≠ [] := by
    intro e; rw [e] at hb; cases hb
  obtain ⟨_, hcases⟩ := clean_relative_down cand hc hp
  obtain ⟨hJ, hnf, habs⟩ :=
    Join_down base (Clean cand) (normalForm cand).2 hbne (normalForm_ok cand).1 hcases
  have hX : IsAbs (base ++ Separator :: Clean cand) = true := by rw [habs]; exact hb
  rw [hJ, ← Clean_eq_cleanSpec, (Clean_of_abs _ hX).1, hnf]

/-- Away from the destination root the symlink rule does its job: for an
absolute `DstPath`, a link path that `sanitizePath` resolves to something other
than the root itself and a target accepted by the symlink rule, the target
resolved against the directory that contains the link is the root or lies
under it. -/
theorem symlink_target_inside_unless_root (wd : Except GoString GoString)
    (base path target targetPath : GoString) (hb : IsAbs base = true)
    (hok : sanitizePath wd base path = .ok targetPath) (hnotroot : targetPath ≠ Clean base)
    (ht : (IsAbs target || HasPrefix (Clean target) ['.', '.']) = false) :
    Join (Dir targetPath) target = Clean base ∨
      (Clean base ++ [Separator]) <+: Join (Dir targetPath) target ∨
      Clean base = [Separator] := by
  -- the link path is relative and does not start with `..`
  have hrel : IsAbs path = false := by
    cases h : IsAbs path with
    | false => rfl
    | true => rw [sanitizePath_abs_error wd base path h] at hok; cases hok
  have hp : HasPrefix (Clean path) ['.', '.'] = false := by
    cases h : HasPrefix (Clean path) ['.', '.'] with
    | false => rfl
    | true => rw [sanitizePath_dotdot_error wd base path hrel h] at hok; cases hok
  have htp : targetPath = Join base (Clean path) := by
    unfold sanitizePath at hok
    simp only [isAbs_Clean, hrel, hp, Bool.false_eq_true, ↓reduceIte] at hok
    repeat' split at hok
    all_goals first
      | (cases hok; rfl)
      | cases hok
  have hshape := Join_abs_shape base path hb hrel hp
  have hbase := (Clean_of_abs base hb).1
  have hokb := normalForm_ok base
  have hokp := normalForm_ok path
  rw [hb] at hokb
  rw [hrel] at hokp
  -- the link is not the root, so the link path has a last name
  have hnames : (normalForm path).2 ≠ [] := by
    intro hnil
    apply hnotroot
    rw [htp, hshape, hbase, hnil, List.append_nil]
  have hlast := List.dropLast_append_getLast hnames
  have hdir : Dir targetPath =
      Separator :: joinSegs ((normalForm base).2 ++ (normalForm path).2.dropLast) := by
    have e1 : (normalForm base).2 ++ (normalForm path).2 =
        ((normalForm base).2 ++ (normalForm path).2.dropLast) ++
          [(normalForm path).2.getLast hnames] := by
      rw [List.append_assoc, hlast]
    rw [htp, hshape, e1]
    exact Dir_render ((normalForm base).2 ++ (normalForm path).2.dropLast)
      ((normalForm path).2.getLast hnames)
      (by
        intro a ha
        rcases List.mem_append.mp ha with h | h
        · exact hokb.1 a h
        · exact hokp.1 a (List.mem_of_mem_dropLast h))
      (hokp.1 _ (List.getLast_mem hnames))
  -- the target never climbs above its starting directory
  have htrel : IsAbs target = false := by
    cases h : IsAbs target with
    | false => rfl
    | true => simp [h] at ht
  have htp2 : HasPrefix (Clean target) ['.', '.'] = false := by
    cases h : HasPrefix (Clean target) ['.', '.'] with
    | false => rfl
    | true => simp [h] at ht
  have htk := (clean_relative_down target htrel htp2).1
  have hfold : (normalForm target).1 = 0 := htk
  unfold normalForm foldSegs at hfold
  rw [htrel] at hfold
  have htop := foldl_on_top true ((normalForm base).2 ++ (normalForm path).2.dropLast)
    (segments target) [] hfold
  rw [List.append_nil] at htop
  -- join and clean
  have hdne : Dir targetPath ≠ [] := by rw [hdir]; simp
  have hdabs : IsAbs (Dir targetPath ++ Separator :: target) = true := by
    rw [isAbs_append _ _ hdne, hdir, isAbs_cons]; rfl
  have hd2 := foldSegs_render true 0
    ((normalForm base).2 ++ (normalForm path).2.dropLast)
    ⟨by
      intro a ha
      rcases List.mem_append.mp ha with h | h
      · exact hokb.1 a h
      · exact hokp.1 a (List.mem_of_mem_dropLast h), fun _ => rfl⟩
  have e : render true 0 ((normalForm base).2 ++ (normalForm path).2.dropLast) =
      Dir targetPath := by
    rw [hdir]; simp [render, dots]
  rw [e] at hd2
  have hnf : normalForm (Dir targetPath ++ Separator :: target) =
      (0, ((normalForm base).2 ++ (normalForm path).2.dropLast) ++
        ((segments target).foldl (normStep false) (0, [])).2) := by
    show foldSegs (IsAbs (Dir targetPath ++ Separator :: target)) (0, [])
      (Dir targetPath ++ Separator :: target) = _
    rw [hdabs]
    unfold foldSegs at hd2 ⊢
    rw [segments_append_sep, List.foldl_append, hd2, htop]
  have hjoin : Join (Dir targetPath) target =
      Separator :: joinSegs (((normalForm base).2 ++ (normalForm path).2.dropLast) ++
        ((segments target).foldl (normStep false) (0, [])).2) := by
    unfold Join
    simp only [ne_eq, hdne, not_false_eq_true, ↓reduceIte, List.append_assoc,
      List.singleton_append]
    rw [(Clean_of_abs _ hdabs).1, hnf]
    simp
  rw [hjoin, hbase]
  by_cases h1 : (normalForm base).2 = []
  · right; right; rw [h1]; rfl
  · by_cases h2 : (normalForm path).2.dropLast ++
        ((segments target).foldl (normStep false) (0, [])).2 = []
    · left
      rw [List.append_assoc, h2, List.append_nil]
    · right; left
      rw [List.append_assoc, joinSegs_append _ _ h1 h2]
      exact ⟨joinSegs ((normalForm path).2.dropLast ++
        ((segments target).foldl (normStep false) (0, [])).2), by simp⟩

theorem symlink_target_inside_unless_root_witness :
    Join (Dir "/dest/sub/link".toList) "a/../file".toList = Clean "/dest".toList ∨
      (Clean "/dest".toList ++ [Separator]) <+:
        Join (Dir "/dest/sub/link".toList) "a/../file".toList ∨
      Clean "/dest".toList = [Separator] :=
  symlink_target_inside_unless_root (.ok "/home/user".toList) "/dest".toList
    "sub/link".toList "a/../file".toList "/dest/sub/link".toList (by decide) (by decide)
    (by decide) (by decide)

/-! ## `CpToInstance` -/

/-- C10 fails for a tree with a nested directory: copying `/src`, which holds
the directory `a` holding the file `f` (three entries), with every transfer
succeeding, dials four connections, and the request for `/dst/a/f` is sent
twice: once by the copy of `/src/a` and once more by the walk over `/src`. -/
theorem CpToInstance_nested_dir_sends_twice :
    (CpToInstance (mockEnv [successFrame]) nestedFS mockCfg 20 nestedOpts).map
      (fun r => (r.2, r.1.countP Event.isDial,
        r.1.countP (Event.isRequestFor "/dst".toList),
        r.1.countP (Event.isRequestFor "/dst/a".toList),
        r.1.countP (Event.isRequestFor "/dst/a/f".toList))) =
      some (none, 4, 1, 1, 2) := by
  decide

/-! ## `buildWsURL` -/


theorem Contains_iff (s sub : GoString) : Contains s sub = true ↔ sub <:+: s := by
  induction s with
  | nil => simp [Contains, List.isEmpty_iff]
  | cons c t ih =>
    rw [Contains, Bool.or_eq_true, ih, List.infix_cons_iff, List.isPrefixOf_iff_prefix]

/-- C17: an instance ID that is empty or contains a slash, a backslash or two
dots in a row makes `buildWsURL` fail with the error about the ID and produce
no URL, whatever the base URL is and whatever `url.Parse` makes of it: the ID
is judged before the base URL is parsed. -/
theorem buildWsURL_rejects_bad_id (env : Env) (baseURL instanceID : GoString)
    (h : instanceID = [] ∨ ['/'] <:+: instanceID ∨ ['\\'] <:+: instanceID ∨
      ['.', '.'] <:+: instanceID) :
    buildWsURL env baseURL instanceID =
      .error (if instanceID = [] then "instance ID cannot be empty".toList
        else "invalid instance ID: contains path separator or traversal sequence".toList) := by
  unfold buildWsURL
  by_cases h0 : instanceID = []
  · simp [h0]
  · have h1 : (Contains instanceID ['/'] || Contains instanceID ['\\'] ||
        Contains instanceID ['.', '.']) = true := by
      simp only [Bool.or_eq_true, Contains_iff]
      rcases h with h | h | h | h
      · exact absurd h h0
      · exact Or.inl (Or.inl h)
      · exact Or.inl (Or.inr h)
      · exact Or.inr h
    simp [h0, h1]

theorem buildWsURL_rejects_bad_id_witness :
    buildWsURL urlEnv "not a url".toList "a/../b".toList =
      .error "invalid instance ID: contains path separator or traversal sequence".toList ∧
    urlEnv.urlParse "not a url".toList = .error "missing protocol scheme".toList :=
  ⟨buildWsURL_rejects_bad_id urlEnv "not a url".toList "a/../b".toList
    (Or.inr (Or.inl ⟨['a'], "../b".toList, rfl⟩)), by decide⟩

/-- C16 fails for the instance ID `.`, which passes the validation: for the
base URL `https://api.example.com` the URL built is
`wss://api.example.com/instances/cp`; its path is not `/instances/./cp`,
`path.Join` has cleaned the ID away.  The two examples of `TestBuildWsURL` and
a base URL with a path prefix give the URLs that the claim describes. -/
theorem buildWsURL_drops_dot_id :
    buildWsURL urlEnv "https://api.example.com".toList ".".toList =
      .ok "wss://api.example.com/instances/cp".toList ∧
    pathJoin [[], "instances".toList, ".".toList, "cp".toList] = "instances/cp".toList ∧
    buildWsURL urlEnv "https://api.example.com".toList "inst_123".toList =
      .ok "wss://api.example.com/instances/inst_123/cp".toList ∧
    buildWsURL urlEnv "http://localhost:8080".toList "inst_456".toList =
      .ok "ws://localhost:8080/instances/inst_456/cp".toList ∧
    buildWsURL urlEnv "https://api.example.com/v1".toList "inst_123".toList =
      .ok "wss://api.example.com/v1/instances/inst_123/cp".toList := by
  decide

/-! ## Control frames of unknown type -/

/-- C20 fails: `CpFromInstance` succeeds on a stream that carries a text frame
of the unknown type `progress` before the final end marker, and a
single-file `CpToInstance` succeeds when the reply is a frame of that unknown
type with `success=true`. -/
theorem unknown_type_accepted :
    (CpFromInstance (mockEnv [unknownTypeFrame, endFrame true]) mockCfg mockOpts).2 = none ∧
    (CpToInstance (mockEnv [unknownTypeSuccessFrame]) nestedFS mockCfg 1
      { nestedOpts with SrcPath := "/src/a/f".toList }).map (fun r => r.2) = some none := by
  decide

/-- C20 as amended: a text frame that is well-formed JSON with a type that is
not recognised fails nothing by itself.  `CpFromInstance` skips a frame whose
type is none of `header`, `end`, `error` and `result`: it goes on with the
next frame as if only a read had happened.  `CpToInstance` takes every reply
whose type is not `error` for a result: the reply counts as success when its
`success` field is true, and otherwise as the failure `copy failed: ` followed
by its error text. -/
theorem unknown_type_not_rejected (env : Env) (opts : CpFromInstanceOptions) (f : Frame)
    (ty : GoString) (hty : ty ∉ ["header".toList, "end".toList, "error".toList, "result".toList]) :
    (f.msgType = TextMessage → f.json.asMap = .ok ty →
      ∀ (rest : List Frame) (ending : ReadError) (s : RecvState),
        recvLoop env opts (f :: rest) ending s = recvLoop env opts rest ending (s.emit .wsRead)) ∧
    (f.json.asType = .ok ty →
      ∀ (ws : Conn) (rest : List Frame) (r : cpResult), ws.frames = f :: rest →
        f.json.asResult = (r, none) →
        awaitResult ws =
          if r.Success then none else some ("copy failed: ".toList ++ r.Error)) := by
  simp at hty
  obtain ⟨h1, h2, h3, h4⟩ := hty
  constructor
  · intro htext hmap rest ending s
    have hstep : recvStep env opts (s.emit .wsRead) f = .next (s.emit .wsRead) := by
      unfold recvStep
      simp [htext, hmap, h1, h2, h3, h4]
    simp only [recvLoop, hstep]
  · intro hty ws rest r hframes hres
    unfold awaitResult
    simp only [hframes, hty, hres]
    cases hs : r.Success <;> simp [h3]

theorem unknown_type_not_rejected_witness :
    recvLoop (mockEnv []) mockOpts [unknownTypeFrame, endFrame true] .closeNormal
        (recvInit mockCfg mockOpts mockURL) =
      recvLoop (mockEnv []) mockOpts [endFrame true] .closeNormal
        ((recvInit mockCfg mockOpts mockURL).emit .wsRead) ∧
    awaitResult { writeErr := fun _ => none, frames := [unknownTypeFrame], ending := .closeNormal } =
      some "copy failed: ".toList :=
  ⟨(unknown_type_not_rejected (mockEnv []) mockOpts unknownTypeFrame "progress".toList
      (by decide)).1 rfl rfl _ _ _,
   (unknown_type_not_rejected (mockEnv []) mockOpts unknownTypeFrame "progress".toList
      (by decide)).2 rfl _ [] _ rfl rfl⟩

/-! ## Sending one file -/

theorem sendChunks_pos (ws : Conn) (cb : Option CpCallbacks) (data : Bytes)
    (err : ReadOutcome) (rest : List (Bytes × ReadOutcome)) (w : Nat) (b : Int)
    (t : List Event) (hd : data.length > 0) (hwr : ws.writeErr w = none) :
    sendChunks ws cb ((data, err) :: rest) w b t =
      match err with
      | .eof => (t ++ chunkEvents (wantsProgress cb) b [data], w + 1, none)
      | .failure e =>
        (t ++ chunkEvents (wantsProgress cb) b [data], w + 1, some ("read source: ".toList ++ e))
      | .more =>
        sendChunks ws cb rest (w + 1) (b + data.length)
          (t ++ chunkEvents (wantsProgress cb) b [data]) := by
  rcases cb with _ | c
  · cases err <;> simp [sendChunks, hd, hwr, chunkEvents, wantsProgress]
  · cases hp : c.OnProgress <;> cases err <;>
      simp [sendChunks, hd, hwr, chunkEvents, wantsProgress, hp]

theorem sendChunks_shape (ws : Conn) (cb : Option CpCallbacks) :
    ∀ (reads : List (Bytes × ReadOutcome)) (w : Nat) (b : Int) (t : List Event),
      ∃ cs tail,
        (sendChunks ws cb reads w b t).1 = t ++ chunkEvents (wantsProgress cb) b cs ++ tail ∧
        (∀ ev ∈ tail, ∃ d, ev = Event.sendBinary d) ∧
        (∀ c ∈ cs, 0 < c.length) ∧
        ((sendChunks ws cb reads w b t).2.2 = none → cs = dataFrames reads ∧ tail = []) := by
  intro reads
  induction reads with
  | nil =>
    intro w b t
    exact ⟨[], [], by simp [sendChunks, chunkEvents], by simp, by simp,
      by simp [dataFrames, readUntilEOF]⟩
  | cons x rest ih =>
    intro w b t
    obtain ⟨data, err⟩ := x
    by_cases hd : data.length > 0
    · cases hwr : ws.writeErr w with
      | some e =>
        refine ⟨[], [.sendBinary data], ?_, ?_, by simp, ?_⟩
        · simp [sendChunks, hd, hwr, chunkEvents]
        · simp
        · simp [sendChunks, hd, hwr]
      | none =>
        rw [sendChunks_pos ws cb data err rest w b t hd hwr]
        cases err with
        | eof =>
          refine ⟨[data], [], by simp, by simp, by simpa using hd, ?_⟩
          intro _
          simp [dataFrames, readUntilEOF, hd]
        | failure e =>
          exact ⟨[data], [], by simp, by simp, by simpa using hd, by simp⟩
        | more =>
          obtain ⟨cs, tail, h1, h2, h3, h4⟩ :=
            ih (w + 1) (b + data.length) (t ++ chunkEvents (wantsProgress cb) b [data])
          refine ⟨data :: cs, tail, ?_, h2, ?_, ?_⟩
          · simp only [h1]
            simp [chunkEvents]
          · intro c hc
            rcases List.mem_cons.1 hc with rfl | hc
            · exact hd
            · exact h3 c hc
          · intro hnone
            obtain ⟨e1, e2⟩ := h4 hnone
            refine ⟨?_, e2⟩
            simp [dataFrames, readUntilEOF, hd, e1]
    · cases err with
      | eof =>
        refine ⟨[], [], by simp [sendChunks, hd, chunkEvents], by simp, by simp, ?_⟩
        intro _
        simp [dataFrames, readUntilEOF, hd]
      | failure e =>
        refine ⟨[], [], by simp [sendChunks, hd, chunkEvents], by simp, by simp, ?_⟩
        simp [sendChunks, hd]
      | more =>
        obtain ⟨cs, tail, h1, h2, h3, h4⟩ := ih w b t
        refine ⟨cs, tail, ?_, h2, h3, ?_⟩
        · simp only [sendChunks, hd, if_false, h1]
        · intro hnone
          simp only [sendChunks, hd, if_false] at hnone
          obtain ⟨e1, e2⟩ := h4 hnone
          refine ⟨?_, e2⟩
          simp [dataFrames, readUntilEOF, hd, e1]

theorem sendChunks_no_error (ws : Conn) (cb : Option CpCallbacks)
    (hw : ∀ n, ws.writeErr n = none) :
    ∀ (reads : List (Bytes × ReadOutcome)) (w : Nat) (b : Int) (t : List Event),
      (∀ x ∈ reads, x.2.isFailure = false) →
      (sendChunks ws cb reads w b t).2.2 = none := by
  intro reads
  induction reads with
  | nil => intro w b t _; simp [sendChunks]
  | cons x rest ih =>
    intro w b t hr
    obtain ⟨data, err⟩ := x
    have hrest : ∀ x ∈ rest, x.2.isFailure = false :=
      fun x hx => hr x (List.mem_cons_of_mem _ hx)
    have herr : err.isFailure = false := hr (data, err) (List.mem_cons_self _ _)
    by_cases hd : data.length > 0
    · cases err with
      | eof => simp [sendChunks, hd, hw]
      | failure e => simp [ReadOutcome.isFailure] at herr
      | more =>
        rw [sendChunks_pos ws cb data _ rest w b t hd (hw w)]
        exact ih _ _ _ hrest
    · cases err with
      | eof => simp [sendChunks, hd]
      | failure e => simp [ReadOutcome.isFailure] at herr
      | more =>
        simp only [sendChunks, hd, if_false]
        exact ih _ _ _ hrest


theorem copyFileToWs_opened (fs : SrcFS) (ws : Conn) (p : GoString) (size : Int)
    (cb : Option CpCallbacks) (t : List Event) (file : Nat → List (Bytes × ReadOutcome))
    (hopen : fs.Open p = .ok file) :
    copyFileToWs fs ws p size cb t =
      match sendChunks ws cb (file (32 * 1024)) 1 0
          (t ++ [.openSource p] ++ startEvents cb p size) with
      | (t2, _, some e) => (t2 ++ [.closeSource p], some e)
      | (t2, w, none) =>
        match ws.writeErr w with
        | some e => (t2 ++ [.sendEnd, .closeSource p], some ("send end: ".toList ++ e))
        | none =>
          match awaitResult ws with
          | some e => (t2 ++ [.sendEnd, .wsRead, .closeSource p], some e)
          | none => (t2 ++ [.sendEnd, .wsRead] ++ endEvents cb p ++ [.closeSource p], none) := by
  rcases cb with _ | ⟨s, pr, e⟩
  · simp only [copyFileToWs, hopen, startEvents, endEvents, List.append_nil]
  · cases s <;> cases e <;>
      simp only [copyFileToWs, hopen, startEvents, endEvents, List.append_nil, if_true,
        if_false, Bool.false_eq_true, List.append_assoc, List.singleton_append,
        List.cons_append, List.nil_append]

theorem cpToInstanceInternal_file (env : Env) (fs : SrcFS) (cfg : CpConfig) (fuel : Nat)
    (opts : CpToInstanceOptions) (st : SendState) (wsURL : GoString) (ws : Conn)
    (info : FileInfo) (hurl : buildWsURL env cfg.BaseURL opts.InstanceID = .ok wsURL)
    (hdial : env.dial st.dials wsURL = .ok ws) (hstat : fs.Stat opts.SrcPath = .ok info)
    (hfile : info.IsDir = false) (hw0 : ws.writeErr 0 = none) :
    cpToInstanceInternal env fs cfg (fuel + 1) opts st =
      some ({ trace := (copyFileToWs fs ws opts.SrcPath info.Size opts.Callbacks
                (st.trace ++ [.dial wsURL ("Bearer ".toList ++ cfg.APIKey),
                  .sendRequest (requestFor opts info)])).1 ++ [.wsClose],
              visited := st.visited, dials := st.dials + 1 },
            (copyFileToWs fs ws opts.SrcPath info.Size opts.Callbacks
                (st.trace ++ [.dial wsURL ("Bearer ".toList ++ cfg.APIKey),
                  .sendRequest (requestFor opts info)])).2) := by
  unfold requestFor
  cases hA : opts.Archive <;> cases hO : info.Owner <;>
    simp [cpToInstanceInternal, hurl, hdial, hstat, hfile, hw0, SendState.emit, hA, hO]

theorem CpToInstance_file (env : Env) (fs : SrcFS) (cfg : CpConfig) (fuel : Nat)
    (opts : CpToInstanceOptions) (wsURL : GoString) (ws : Conn)
    (info : FileInfo) (hurl : buildWsURL env cfg.BaseURL opts.InstanceID = .ok wsURL)
    (hdial : env.dial 0 wsURL = .ok ws) (hstat : fs.Stat opts.SrcPath = .ok info)
    (hfile : info.IsDir = false) (hw0 : ws.writeErr 0 = none) :
    CpToInstance env fs cfg (fuel + 1) opts =
      some ((copyFileToWs fs ws opts.SrcPath info.Size opts.Callbacks
                [.dial wsURL ("Bearer ".toList ++ cfg.APIKey),
                  .sendRequest (requestFor opts info)]).1 ++ [.wsClose],
            (copyFileToWs fs ws opts.SrcPath info.Size opts.Callbacks
                [.dial wsURL ("Bearer ".toList ++ cfg.APIKey),
                  .sendRequest (requestFor opts info)]).2) := by
  unfold CpToInstance
  rw [cpToInstanceInternal_file env fs cfg fuel opts _ wsURL ws info hurl hdial hstat hfile hw0]
  simp


/-! ### Lists of chunks -/

theorem mem_chunkEvents (pr : Bool) :
    ∀ (cs : List Bytes) (b : Int) (ev : Event), ev ∈ chunkEvents pr b cs →
      (∃ d, ev = Event.sendBinary d) ∨ (∃ n, ev = Event.onProgress n) := by
  intro cs
  induction cs with
  | nil => intro b ev h; simp [chunkEvents] at h
  | cons d rest ih =>
    intro b ev h
    simp only [chunkEvents, List.mem_append] at h
    rcases h with h | h
    · cases pr
      · simp at h; exact Or.inl ⟨d, h⟩
      · simp at h
        rcases h with h | h
        · exact Or.inl ⟨d, h⟩
        · exact Or.inr ⟨_, h⟩
    · exact ih _ ev h

theorem filter_onWire_chunkEvents (pr : Bool) :
    ∀ (cs : List Bytes) (b : Int),
      (chunkEvents pr b cs).filter Event.onWire = cs.map Event.sendBinary := by
  intro cs
  induction cs with
  | nil => intro b; rfl
  | cons d rest ih =>
    intro b
    cases pr <;> simp [chunkEvents, Event.onWire, ih]

theorem filter_isCallback_chunkEvents :
    ∀ (cs : List Bytes) (b : Int),
      (chunkEvents true b cs).filter Event.isCallback =
        (progressValues b cs).map Event.onProgress := by
  intro cs
  induction cs with
  | nil => intro b; rfl
  | cons d rest ih =>
    intro b
    simp [chunkEvents, progressValues, Event.isCallback, ih]

theorem progressValues_sorted :
    ∀ (cs : List Bytes) (b : Int),
      (∀ x ∈ progressValues b cs, b ≤ x) ∧ (progressValues b cs).Pairwise (fun x y => x ≤ y) := by
  intro cs
  induction cs with
  | nil => intro b; simp [progressValues]
  | cons d rest ih =>
    intro b
    obtain ⟨h1, h2⟩ := ih (b + d.length)
    have hd : (0 : Int) ≤ d.length := Int.natCast_nonneg _
    refine ⟨?_, ?_⟩
    · intro x hx
      simp only [progressValues, List.mem_cons] at hx
      rcases hx with rfl | hx
      · omega
      · have := h1 x hx
        omega
    · simp only [progressValues, List.pairwise_cons]
      exact ⟨h1, h2⟩

theorem progressValues_getLast :
    ∀ (cs : List Bytes) (b p : Int), (progressValues b cs).getLast? = some p →
      p = b + (cs.flatten.length : Int) := by
  intro cs
  induction cs with
  | nil => intro b p h; simp [progressValues] at h
  | cons d rest ih =>
    intro b p h
    cases rest with
    | nil =>
      simp [progressValues] at h
      simp [← h]
    | cons d2 rest2 =>
      have h2 : (progressValues (b + d.length) (d2 :: rest2)).getLast? = some p := by
        simpa [progressValues, List.getLast?_cons_cons] using h
      have := ih _ _ h2
      simp only [List.flatten_cons, List.length_append, Nat.cast_add] at this ⊢
      omega

theorem progressValues_eq_nil (cs : List Bytes) (b : Int) :
    progressValues b cs = [] ↔ cs = [] := by
  cases cs <;> simp [progressValues]

theorem flatten_filter_nonempty (l : List Bytes) :
    (l.filter (fun d => d.length > 0)).flatten = l.flatten := by
  induction l with
  | nil => rfl
  | cons d rest ih =>
    by_cases hd : d.length > 0
    · simp [List.filter_cons, hd, ih]
    · have : d = [] := by
        cases d with
        | nil => rfl
        | cons a t => simp at hd
      simp [List.filter_cons, this, ih]

theorem dataFrames_flatten (reads : List (Bytes × ReadOutcome)) :
    (dataFrames reads).flatten = fileBytes reads :=
  flatten_filter_nonempty _

theorem dataFrames_pos (reads : List (Bytes × ReadOutcome)) :
    ∀ c ∈ dataFrames reads, 0 < c.length := by
  intro c hc
  simpa using (List.mem_filter.1 hc).2

theorem readUntilEOF_mem :
    ∀ (reads : List (Bytes × ReadOutcome)) (c : Bytes), c ∈ readUntilEOF reads →
      ∃ x ∈ reads, x.1 = c := by
  intro reads
  induction reads with
  | nil => intro c h; simp [readUntilEOF] at h
  | cons x rest ih =>
    intro c h
    obtain ⟨d, err⟩ := x
    cases err with
    | more =>
      simp only [readUntilEOF, List.mem_cons] at h
      rcases h with rfl | h
      · exact ⟨_, List.mem_cons_self _ _, rfl⟩
      · obtain ⟨x, hx, e⟩ := ih c h
        exact ⟨x, List.mem_cons_of_mem _ hx, e⟩
    | eof =>
      simp only [readUntilEOF, List.mem_singleton] at h
      exact ⟨_, List.mem_cons_self _ _, h.symm⟩
    | failure e =>
      simp only [readUntilEOF, List.mem_singleton] at h
      exact ⟨_, List.mem_cons_self _ _, h.symm⟩

theorem dataFrames_mem (reads : List (Bytes × ReadOutcome)) (c : Bytes)
    (hc : c ∈ dataFrames reads) : ∃ x ∈ reads, x.1 = c :=
  readUntilEOF_mem reads c (List.mem_filter.1 hc).1

theorem filter_onWire_startEvents (cb : Option CpCallbacks) (p : GoString) (size : Int) :
    (startEvents cb p size).filter Event.onWire = [] := by
  rcases cb with _ | c
  · rfl
  · cases h : c.OnFileStart <;> simp [startEvents, h, Event.onWire]

theorem filter_onWire_endEvents (cb : Option CpCallbacks) (p : GoString) :
    (endEvents cb p).filter Event.onWire = [] := by
  rcases cb with _ | c
  · rfl
  · cases h : c.OnFileEnd <;> simp [endEvents, h, Event.onWire]


/-! ### The frames of a regular file -/

/-- C11: when a regular file is sent and no read of the file and no write on
the connection fails, the frames written on and read from the connection are,
in this order: the request, one binary frame for each read that delivered
bytes, the end marker, and one read of a frame.  Every binary frame has at
least one byte and at most 32768 (the length of the buffer), their
concatenation is the content of the file, and there is none when the content
is empty. -/
theorem CpToInstance_file_frames (env : Env) (fs : SrcFS) (cfg : CpConfig) (fuel : Nat)
    (opts : CpToInstanceOptions) (wsURL : GoString) (ws : Conn) (info : FileInfo)
    (file : Nat → List (Bytes × ReadOutcome))
    (hurl : buildWsURL env cfg.BaseURL opts.InstanceID = .ok wsURL)
    (hdial : env.dial 0 wsURL = .ok ws) (hstat : fs.Stat opts.SrcPath = .ok info)
    (hfile : info.IsDir = false) (hopen : fs.Open opts.SrcPath = .ok file)
    (hw : ∀ n, ws.writeErr n = none)
    (hbuf : ∀ x ∈ file (32 * 1024), x.1.length ≤ 32 * 1024)
    (hread : ∀ x ∈ file (32 * 1024), x.2.isFailure = false) :
    ∃ trace r chunks,
      CpToInstance env fs cfg (fuel + 1) opts = some (trace, r) ∧
      trace.filter Event.onWire =
        Event.sendRequest (requestFor opts info) ::
          (chunks.map Event.sendBinary ++ [Event.sendEnd, Event.wsRead]) ∧
      (∀ c ∈ chunks, 1 ≤ c.length ∧ c.length ≤ 32768) ∧
      chunks.flatten = fileBytes (file (32 * 1024)) ∧
      (fileBytes (file (32 * 1024)) = [] → chunks = []) := by
  refine ⟨_, _, dataFrames (file (32 * 1024)),
    CpToInstance_file env fs cfg fuel opts wsURL ws info hurl hdial hstat hfile (hw 0),
    ?_, ?_, dataFrames_flatten _, ?_⟩
  · rw [copyFileToWs_opened fs ws _ _ _ _ file hopen]
    obtain ⟨cs, tail, h1, -, -, h4⟩ := sendChunks_shape ws opts.Callbacks (file (32 * 1024)) 1 0
      ([Event.dial wsURL ("Bearer ".toList ++ cfg.APIKey),
        Event.sendRequest (requestFor opts info)] ++ [Event.openSource opts.SrcPath] ++
        startEvents opts.Callbacks opts.SrcPath info.Size)
    have hnone := sendChunks_no_error ws opts.Callbacks hw (file (32 * 1024)) 1 0
      ([Event.dial wsURL ("Bearer ".toList ++ cfg.APIKey),
        Event.sendRequest (requestFor opts info)] ++ [Event.openSource opts.SrcPath] ++
        startEvents opts.Callbacks opts.SrcPath info.Size) hread
    obtain ⟨e1, e2⟩ := h4 hnone
    subst e1 e2
    rcases hsc : sendChunks ws opts.Callbacks (file (32 * 1024)) 1 0
      ([Event.dial wsURL ("Bearer ".toList ++ cfg.APIKey),
        Event.sendRequest (requestFor opts info)] ++ [Event.openSource opts.SrcPath] ++
        startEvents opts.Callbacks opts.SrcPath info.Size) with ⟨t2, w, e⟩
    rw [hsc] at h1 hnone
    simp only at h1 hnone
    subst h1 hnone
    simp only [hw]
    cases awaitResult ws <;>
      simp [List.filter_append, filter_onWire_chunkEvents, filter_onWire_startEvents,
        filter_onWire_endEvents, Event.onWire]
  · intro c hc
    refine ⟨dataFrames_pos _ c hc, ?_⟩
    obtain ⟨x, hx, rfl⟩ := dataFrames_mem _ c hc
    exact hbuf x hx
  · intro hB
    have hfl := dataFrames_flatten (file (32 * 1024))
    rw [hB] at hfl
    by_contra hne
    obtain ⟨c, rest, hcr⟩ := List.exists_cons_of_ne_nil hne
    have hpos := dataFrames_pos (file (32 * 1024)) c (by rw [hcr]; exact List.mem_cons_self _ _)
    rw [hcr] at hfl
    simp at hfl
    rw [hfl.1] at hpos
    simp at hpos

theorem CpToInstance_file_frames_witness :
    ∃ trace r chunks,
      CpToInstance (mockEnv [successFrame]) helloFS mockCfg 1 helloOpts = some (trace, r) ∧
      trace.filter Event.onWire =
        Event.sendRequest (cpRequest.mk "to".toList "/app/test.txt".toList false 0o644 false 0 0) ::
          (chunks.map Event.sendBinary ++ [Event.sendEnd, Event.wsRead]) ∧
      (∀ c ∈ chunks, 1 ≤ c.length ∧ c.length ≤ 32768) ∧
      chunks.flatten = helloWorld ∧
      (helloWorld = [] → chunks = []) :=
  CpToInstance_file_frames (mockEnv [successFrame]) helloFS mockCfg 0 helloOpts mockURL
    (mockConn [successFrame])
    { IsDir := false, IsSymlink := false, Perm := 0o644, Size := 11, Owner := some (1000, 1000) }
    (readsOf helloWorld) (by decide) rfl (by decide) rfl rfl (fun _ => rfl)
    (by decide) (by decide)


/-! ### The callbacks of a regular file -/

/-- C13: when a regular file of `N` bytes is sent with all three callbacks
set and the file can be opened, the callbacks are called in this order:
`OnFileStart` once, with the source path and the size `N`, then `OnProgress`
with values that never decrease, then `OnFileEnd` once with the source path
if the call succeeds and not at all if it fails.  On success `OnFileEnd`
comes right after the read of the result.  Whenever the call succeeds, and
whenever the end marker is written, the last progress value is `N` and there
is a progress value unless the file is empty; the end marker is written
whenever no read of the file and no write on the connection fails, whatever
the reply is. -/
theorem CpToInstance_file_callbacks (env : Env) (fs : SrcFS) (cfg : CpConfig) (fuel : Nat)
    (opts : CpToInstanceOptions) (wsURL : GoString) (ws : Conn) (info : FileInfo)
    (file : Nat → List (Bytes × ReadOutcome)) (N : Int)
    (hurl : buildWsURL env cfg.BaseURL opts.InstanceID = .ok wsURL)
    (hdial : env.dial 0 wsURL = .ok ws) (hstat : fs.Stat opts.SrcPath = .ok info)
    (hfile : info.IsDir = false) (hw0 : ws.writeErr 0 = none)
    (hopen : fs.Open opts.SrcPath = .ok file)
    (hcb : opts.Callbacks = some allCallbacks)
    (hsize : info.Size = N) (hlen : ((fileBytes (file (32 * 1024))).length : Int) = N) :
    ∃ trace r ps,
      CpToInstance env fs cfg (fuel + 1) opts = some (trace, r) ∧
      trace.filter Event.isCallback =
        Event.onFileStart opts.SrcPath N ::
          (ps.map Event.onProgress ++ (if r = none then [Event.onFileEnd opts.SrcPath] else [])) ∧
      ps.Pairwise (fun x y => x ≤ y) ∧
      (r = none →
        [Event.wsRead, Event.onFileEnd opts.SrcPath, Event.closeSource opts.SrcPath,
          Event.wsClose] <:+ trace) ∧
      ((r = none ∨ Event.sendEnd ∈ trace) →
        (∀ p, ps.getLast? = some p → p = N) ∧ (0 < N → ps ≠ [])) ∧
      ((∀ n, ws.writeErr n = none) → (∀ x ∈ file (32 * 1024), x.2.isFailure = false) →
        Event.sendEnd ∈ trace) := by
  obtain ⟨cs, tail, h1, h2, -, h4⟩ := sendChunks_shape ws opts.Callbacks (file (32 * 1024)) 1 0
    ([Event.dial wsURL ("Bearer ".toList ++ cfg.APIKey),
      Event.sendRequest (requestFor opts info)] ++ [Event.openSource opts.SrcPath] ++
      startEvents opts.Callbacks opts.SrcPath info.Size)
  refine ⟨_, _, progressValues 0 cs,
    CpToInstance_file env fs cfg fuel opts wsURL ws info hurl hdial hstat hfile hw0, ?_⟩
  rw [copyFileToWs_opened fs ws _ _ _ _ file hopen]
  rcases hsc : sendChunks ws opts.Callbacks (file (32 * 1024)) 1 0
    ([Event.dial wsURL ("Bearer ".toList ++ cfg.APIKey),
      Event.sendRequest (requestFor opts info)] ++ [Event.openSource opts.SrcPath] ++
      startEvents opts.Callbacks opts.SrcPath info.Size) with ⟨t2, w, e⟩
  rw [hsc] at h1 h4
  simp only at h1 h4
  subst h1
  have htail : tail.filter Event.isCallback = [] := by
    rw [List.filter_eq_nil_iff]
    intro ev hev
    obtain ⟨d, rfl⟩ := h2 ev hev
    simp [Event.isCallback]
  have hnoend : ∀ (X : List Event), Event.sendEnd ∉ X →
      Event.sendEnd ∉
        [Event.dial wsURL ("Bearer ".toList ++ cfg.APIKey),
          Event.sendRequest (requestFor opts info)] ++ [Event.openSource opts.SrcPath] ++
          startEvents (some allCallbacks) opts.SrcPath N ++
          chunkEvents (wantsProgress (some allCallbacks)) 0 cs ++ tail ++ X := by
    intro X hX hmem
    simp only [List.mem_append] at hmem
    rcases hmem with ((((hm | hm) | hm) | hm) | hm) | hm
    · simp at hm
    · simp at hm
    · simp [startEvents, allCallbacks] at hm
    · rcases mem_chunkEvents _ _ _ _ hm with ⟨d, hd⟩ | ⟨n, hn⟩
      · cases hd
      · cases hn
    · obtain ⟨d, hd⟩ := h2 _ hm
      cases hd
    · exact hX hm
  have hdone : e = none → (∀ p, (progressValues 0 cs).getLast? = some p → p = N) ∧
      (0 < N → progressValues 0 cs ≠ []) := by
    intro he
    obtain ⟨e1, -⟩ := h4 he
    have hfl : ((cs.flatten.length : Nat) : Int) = N := by
      rw [e1, dataFrames_flatten]; exact hlen
    refine ⟨?_, ?_⟩
    · intro p hp
      have := progressValues_getLast cs 0 p hp
      omega
    · intro hN hnil
      rw [progressValues_eq_nil] at hnil
      rw [hnil] at hfl
      simp at hfl
      omega
  rw [hcb, hsize] at *
  obtain ⟨x, hx⟩ : ∃ x, ws.writeErr w = x := ⟨_, rfl⟩
  obtain ⟨y, hy⟩ : ∃ y, awaitResult ws = y := ⟨_, rfl⟩
  refine ⟨?_, (progressValues_sorted cs 0).2, ?_, ?_, ?_⟩
  · cases e with
    | some e =>
      simp [List.filter_append, htail, startEvents, allCallbacks, wantsProgress,
        filter_isCallback_chunkEvents, Event.isCallback]
    | none =>
      have e2 := (h4 rfl).2
      subst e2
      cases x with
      | some e =>
        simp [hx, List.filter_append, startEvents, allCallbacks, wantsProgress,
          filter_isCallback_chunkEvents, Event.isCallback]
      | none =>
        cases y <;>
          simp [hx, hy, List.filter_append, startEvents, endEvents, allCallbacks, wantsProgress,
            filter_isCallback_chunkEvents, Event.isCallback]
  · cases e with
    | some e => simp
    | none =>
      cases x with
      | some e => simp [hx]
      | none =>
        cases y with
        | some e => simp [hx, hy]
        | none =>
          intro _
          exact ⟨[Event.dial wsURL ("Bearer ".toList ++ cfg.APIKey),
              Event.sendRequest (requestFor opts info)] ++ [Event.openSource opts.SrcPath] ++
              startEvents (some allCallbacks) opts.SrcPath N ++
              chunkEvents (wantsProgress (some allCallbacks)) 0 cs ++ tail ++ [Event.sendEnd],
            by simp [hx, hy, endEvents, allCallbacks]⟩
  · cases e with
    | some e =>
      rintro (hr | hmem)
      · cases hr
      · exact absurd hmem (by
          simp only []
          have := hnoend ([Event.closeSource opts.SrcPath] ++ [Event.wsClose]) (by simp)
          simpa [List.append_assoc] using this)
    | none => exact fun _ => hdone rfl
  · intro hw hread
    have hnone := sendChunks_no_error ws (some allCallbacks) hw (file (32 * 1024)) 1 0
      ([Event.dial wsURL ("Bearer ".toList ++ cfg.APIKey),
        Event.sendRequest (requestFor opts info)] ++ [Event.openSource opts.SrcPath] ++
        startEvents (some allCallbacks) opts.SrcPath N) hread
    rw [hsc] at hnone
    simp only at hnone
    subst hnone
    cases y <;> simp [hw, hy]

theorem CpToInstance_file_callbacks_witness :
    (∃ trace r ps,
      CpToInstance (mockEnv [successFrame]) helloFS mockCfg 1
        { helloOpts with Callbacks := some allCallbacks } = some (trace, r) ∧
      trace.filter Event.isCallback =
        Event.onFileStart "/tmp/test.txt".toList 11 ::
          (ps.map Event.onProgress ++
            (if r = none then [Event.onFileEnd "/tmp/test.txt".toList] else [])) ∧
      ps.Pairwise (fun x y => x ≤ y) ∧
      (r = none →
        [Event.wsRead, Event.onFileEnd "/tmp/test.txt".toList,
          Event.closeSource "/tmp/test.txt".toList, Event.wsClose] <:+ trace) ∧
      ((r = none ∨ Event.sendEnd ∈ trace) →
        (∀ p, ps.getLast? = some p → p = 11) ∧ ((0 : Int) < 11 → ps ≠ [])) ∧
      ((∀ n, (mockConn [successFrame]).writeErr n = none) →
        (∀ x ∈ readsOf helloWorld (32 * 1024), x.2.isFailure = false) →
        Event.sendEnd ∈ trace)) ∧
    (CpToInstance (mockEnv [successFrame]) helloFS mockCfg 1
        { helloOpts with Callbacks := some allCallbacks }).map
      (fun r => (r.2, r.1.filter Event.isCallback)) =
      some (none, [Event.onFileStart "/tmp/test.txt".toList 11, Event.onProgress 11,
        Event.onFileEnd "/tmp/test.txt".toList]) :=
  ⟨CpToInstance_file_callbacks (mockEnv [successFrame]) helloFS mockCfg 0
    { helloOpts with Callbacks := some allCallbacks } mockURL (mockConn [successFrame])
    { IsDir := false, IsSymlink := false, Perm := 0o644, Size := 11, Owner := some (1000, 1000) }
    (readsOf helloWorld) 11 (by decide) rfl (by decide) rfl rfl rfl rfl rfl (by decide),
   by decide⟩


/-! ### The reply to a send -/

theorem awaitResult_error (ws : Conn) (f : Frame) (rest : List Frame) (e : cpError)
    (hframes : ws.frames = f :: rest) (hf : f.IsError e) :
    awaitResult ws = some ("copy failed: ".toList ++ e.Message) := by
  unfold awaitResult
  simp [hframes, hf.1, hf.2]

theorem awaitResult_result (ws : Conn) (f : Frame) (rest : List Frame) (r : cpResult)
    (hframes : ws.frames = f :: rest) (hf : f.IsResult r) :
    awaitResult ws = if r.Success then none else some ("copy failed: ".toList ++ r.Error) := by
  unfold awaitResult
  cases hs : r.Success <;> simp [hframes, hf.1, hf.2, hs]

theorem copyFileToWs_reply (fs : SrcFS) (ws : Conn) (p : GoString) (size : Int)
    (cb : Option CpCallbacks) (t : List Event) (file : Nat → List (Bytes × ReadOutcome))
    (hopen : fs.Open p = .ok file) (hw : ∀ n, ws.writeErr n = none)
    (hread : ∀ x ∈ file (32 * 1024), x.2.isFailure = false) :
    (copyFileToWs fs ws p size cb t).2 = awaitResult ws := by
  rw [copyFileToWs_opened fs ws p size cb t file hopen]
  have hnone := sendChunks_no_error ws cb hw (file (32 * 1024)) 1 0
    (t ++ [Event.openSource p] ++ startEvents cb p size) hread
  rcases hsc : sendChunks ws cb (file (32 * 1024)) 1 0
    (t ++ [Event.openSource p] ++ startEvents cb p size) with ⟨t2, w, e⟩
  rw [hsc] at hnone
  simp only at hnone
  subst hnone
  simp only [hw]
  cases awaitResult ws <;> rfl

/-- The frame read at the end of a send, for `copyFileToWs` and `copyDirToWs`
taken alone.  For a file
whose data went through: an error message makes the call fail with
`copy failed: ` followed by its message; a result message makes it succeed
when `success` is true and otherwise fail with `copy failed: ` followed by the
error text of the result.  For a directory the reply is read right after the
end marker and decides in the same way: an error message or a failed result
ends the call with that error before anything inside the directory is sent,
and with `success` true the call goes on to the walk over the directory. -/
theorem send_reply_decides (env : Env) (fs : SrcFS) (cfg : CpConfig) (ws : Conn) (f : Frame)
    (rest : List Frame) (hframes : ws.frames = f :: rest) (hw : ∀ n, ws.writeErr n = none) :
    (∀ (p : GoString) (size : Int) (cb : Option CpCallbacks) (t : List Event)
        (file : Nat → List (Bytes × ReadOutcome)),
        fs.Open p = .ok file → (∀ x ∈ file (32 * 1024), x.2.isFailure = false) →
        (∀ e, f.IsError e →
          (copyFileToWs fs ws p size cb t).2 = some ("copy failed: ".toList ++ e.Message)) ∧
        (∀ r, f.IsResult r →
          (copyFileToWs fs ws p size cb t).2 =
            if r.Success then none else some ("copy failed: ".toList ++ r.Error))) ∧
    (∀ (fuel : Nat) (dc : DirCopy) (st : SendState),
        (∀ e, f.IsError e →
          copyDirToWs env fs cfg (fuel + 1) ws dc st =
            some ((st.emit .sendEnd).emit .wsRead,
              some ("copy failed: ".toList ++ e.Message))) ∧
        (∀ r, f.IsResult r →
          copyDirToWs env fs cfg (fuel + 1) ws dc st =
            if r.Success then
              match fs.Lstat dc.srcPath with
              | .error e => some ((st.emit .sendEnd).emit .wsRead, some e)
              | .ok info =>
                walkDir env fs cfg fuel dc dc.srcPath info.IsDir ((st.emit .sendEnd).emit .wsRead)
            else
              some ((st.emit .sendEnd).emit .wsRead,
                some ("copy failed: ".toList ++ r.Error)))) := by
  constructor
  · intro p size cb t file hopen hread
    rw [copyFileToWs_reply fs ws p size cb t file hopen hw hread]
    exact ⟨fun e he => awaitResult_error ws f rest e hframes he,
      fun r hr => awaitResult_result ws f rest r hframes hr⟩
  · intro fuel dc st
    constructor
    · intro e he
      simp only [copyDirToWs, hw, awaitResult_error ws f rest e hframes he]
    · intro r hr
      simp only [copyDirToWs, hw, awaitResult_result ws f rest r hframes hr]
      cases hs : r.Success
      · simp
      · simp only [if_true]

theorem send_reply_decides_witness :
    (copyFileToWs helloFS (mockConn [errorFrame { Message := "disk full".toList, Path := [] }])
        "/tmp/test.txt".toList 11 none []).2 = some "copy failed: disk full".toList ∧
    copyDirToWs (mockEnv []) nestedFS mockCfg 1
        (mockConn [resultFrame { Success := false, Error := "denied".toList, BytesWritten := 0 }])
        { srcPath := "/src".toList, dstPath := "/dst".toList, instanceID := "inst_123".toList,
          archive := false, followLinks := false, callbacks := none }
        { trace := [], visited := [], dials := 1 } =
      some (({ trace := [], visited := [], dials := 1 } : SendState).emit .sendEnd |>.emit .wsRead,
        some "copy failed: denied".toList) :=
  ⟨((send_reply_decides (mockEnv []) helloFS mockCfg
      (mockConn [errorFrame { Message := "disk full".toList, Path := [] }]) _ [] rfl
      (fun _ => rfl)).1 "/tmp/test.txt".toList 11 none [] (readsOf helloWorld) rfl
        (by decide)).1 _ ⟨rfl, rfl⟩,
   ((send_reply_decides (mockEnv []) nestedFS mockCfg
      (mockConn [resultFrame { Success := false, Error := "denied".toList, BytesWritten := 0 }])
      _ [] rfl (fun _ => rfl)).2 0 _ _).2 _ ⟨rfl, rfl⟩⟩

/-! ## The connections of a copy to the instance -/

theorem connReplay_append (env : Env) :
    ∀ (a b : List Event) (c : Nat × Nat),
      connReplay env c (a ++ b) = (connReplay env c a).bind (fun c1 => connReplay env c1 b) := by
  intro a
  induction a with
  | nil => intro b c; rfl
  | cons ev rest ih =>
    intro b c
    simp only [List.cons_append, connReplay]
    cases connStep env c ev with
    | none => rfl
    | some c1 => exact ih b c1

theorem connReplay_quiet (env : Env) :
    ∀ (evs : List Event) (c : Nat × Nat), (∀ ev ∈ evs, ev.isConn = false) →
      connReplay env c evs = some c := by
  intro evs
  induction evs with
  | nil => intro c _; rfl
  | cons ev rest ih =>
    intro c h
    have h1 : connStep env c ev = some c := by
      have := h ev (List.mem_cons_self _ _)
      cases ev <;> simp [Event.isConn] at this <;> rfl
    simp only [connReplay, h1]
    exact ih c (fun e he => h e (List.mem_cons_of_mem _ he))

theorem Grows.refl (env : Env) (st : SendState) : Grows env st st :=
  ⟨[], by simp, fun _ => rfl⟩

theorem Grows.trans {env : Env} {a b c : SendState} (h1 : Grows env a b) (h2 : Grows env b c) :
    Grows env a c := by
  obtain ⟨e1, t1, r1⟩ := h1
  obtain ⟨e2, t2, r2⟩ := h2
  refine ⟨e1 ++ e2, by rw [t2, t1, List.append_assoc], ?_⟩
  intro k
  rw [connReplay_append, r1 k]
  exact r2 k

theorem Grows.quiet (env : Env) (st st' : SendState) (evs : List Event)
    (ht : st'.trace = st.trace ++ evs) (hd : st'.dials = st.dials)
    (hq : ∀ ev ∈ evs, ev.isConn = false) : Grows env st st' :=
  ⟨evs, ht, fun k => by rw [connReplay_quiet env evs _ hq, hd]⟩


theorem copyFileToWs_quiet (fs : SrcFS) (ws : Conn) (p : GoString) (size : Int)
    (cb : Option CpCallbacks) (t : List Event) :
    ∃ evs, (copyFileToWs fs ws p size cb t).1 = t ++ evs ∧ ∀ ev ∈ evs, ev.isConn = false := by
  cases hopen : fs.Open p with
  | error e =>
    refine ⟨[.openSource p], by simp [copyFileToWs, hopen], by simp [Event.isConn]⟩
  | ok file =>
    rw [copyFileToWs_opened fs ws p size cb t file hopen]
    obtain ⟨cs, tail, h1, h2, -, -⟩ := sendChunks_shape ws cb (file (32 * 1024)) 1 0
      (t ++ [Event.openSource p] ++ startEvents cb p size)
    rcases hsc : sendChunks ws cb (file (32 * 1024)) 1 0
      (t ++ [Event.openSource p] ++ startEvents cb p size) with ⟨t2, w, e⟩
    rw [hsc] at h1
    simp only at h1
    subst h1
    have hq1 : ∀ ev ∈ [Event.openSource p] ++ startEvents cb p size ++
        chunkEvents (wantsProgress cb) 0 cs ++ tail, ev.isConn = false := by
      intro ev hev
      simp only [List.mem_append] at hev
      rcases hev with ((hm | hm) | hm) | hm
      · simp at hm; subst hm; rfl
      · rcases cb with _ | c
        · simp [startEvents] at hm
        · cases hs : c.OnFileStart <;> simp [startEvents, hs] at hm
          subst hm; rfl
      · rcases mem_chunkEvents _ _ _ _ hm with ⟨d, rfl⟩ | ⟨n, rfl⟩ <;> rfl
      · obtain ⟨d, rfl⟩ := h2 _ hm
        rfl
    have hq2 : ∀ ev ∈ endEvents cb p, ev.isConn = false := by
      intro ev hm
      rcases cb with _ | c
      · simp [endEvents] at hm
      · cases hs : c.OnFileEnd <;> simp [endEvents, hs] at hm
        subst hm; rfl
    cases e with
    | some e =>
      refine ⟨[Event.openSource p] ++ startEvents cb p size ++
        chunkEvents (wantsProgress cb) 0 cs ++ tail ++ [.closeSource p], by simp, ?_⟩
      intro ev hev
      rcases List.mem_append.1 hev with hm | hm
      · exact hq1 ev hm
      · simp at hm; subst hm; rfl
    | none =>
      simp only []
      cases ws.writeErr w with
      | some e =>
        refine ⟨[Event.openSource p] ++ startEvents cb p size ++
          chunkEvents (wantsProgress cb) 0 cs ++ tail ++ [.sendEnd, .closeSource p],
          by simp, ?_⟩
        intro ev hev
        rcases List.mem_append.1 hev with hm | hm
        · exact hq1 ev hm
        · simp at hm; rcases hm with rfl | rfl <;> rfl
      | none =>
        simp only []
        cases awaitResult ws with
        | some e =>
          refine ⟨[Event.openSource p] ++ startEvents cb p size ++
            chunkEvents (wantsProgress cb) 0 cs ++ tail ++ [.sendEnd, .wsRead, .closeSource p],
            by simp, ?_⟩
          intro ev hev
          rcases List.mem_append.1 hev with hm | hm
          · exact hq1 ev hm
          · simp at hm; rcases hm with rfl | rfl | rfl <;> rfl
        | none =>
          refine ⟨[Event.openSource p] ++ startEvents cb p size ++
            chunkEvents (wantsProgress cb) 0 cs ++ tail ++ [.sendEnd, .wsRead] ++
            endEvents cb p ++ [.closeSource p], by simp, ?_⟩
          intro ev hev
          simp only [List.mem_append] at hev
          rcases hev with ((hm | hm) | hm) | hm
          · exact hq1 ev (by simp only [List.mem_append]; exact hm)
          · simp at hm; rcases hm with rfl | rfl <;> rfl
          · exact hq2 ev hm
          · simp at hm; subst hm; rfl

theorem cpToInstanceInternal_url_error (env : Env) (fs : SrcFS) (cfg : CpConfig) (fuel : Nat)
    (opts : CpToInstanceOptions) (st : SendState) (e : GoString)
    (hurl : buildWsURL env cfg.BaseURL opts.InstanceID = .error e) :
    cpToInstanceInternal env fs cfg (fuel + 1) opts st =
      some (st, some ("build ws url: ".toList ++ e)) := by
  simp [cpToInstanceInternal, hurl]

theorem cpToInstanceInternal_dial_error (env : Env) (fs : SrcFS) (cfg : CpConfig) (fuel : Nat)
    (opts : CpToInstanceOptions) (st : SendState) (wsURL : GoString) (f : DialFailure)
    (hurl : buildWsURL env cfg.BaseURL opts.InstanceID = .ok wsURL)
    (hdial : env.dial st.dials wsURL = .error f) :
    cpToInstanceInternal env fs cfg (fuel + 1) opts st =
      some (dialed cfg wsURL st, some (dialErrorText env f)) := by
  simp only [cpToInstanceInternal, hurl, hdial, dialed, dialErrorText]
  rcases f.resp with _ | ⟨status, body⟩ <;> rfl

theorem cpToInstanceInternal_stat_error (env : Env) (fs : SrcFS) (cfg : CpConfig) (fuel : Nat)
    (opts : CpToInstanceOptions) (st : SendState) (wsURL : GoString) (ws : Conn)
    (e : GoString) (hurl : buildWsURL env cfg.BaseURL opts.InstanceID = .ok wsURL)
    (hdial : env.dial st.dials wsURL = .ok ws) (hstat : fs.Stat opts.SrcPath = .error e) :
    cpToInstanceInternal env fs cfg (fuel + 1) opts st =
      some ((dialed cfg wsURL st).emit .wsClose, some ("stat source: ".toList ++ e)) := by
  simp [cpToInstanceInternal, hurl, hdial, hstat, dialed]

theorem cpToInstanceInternal_write_error (env : Env) (fs : SrcFS) (cfg : CpConfig) (fuel : Nat)
    (opts : CpToInstanceOptions) (st : SendState) (wsURL : GoString) (ws : Conn)
    (info : FileInfo) (e : GoString)
    (hurl : buildWsURL env cfg.BaseURL opts.InstanceID = .ok wsURL)
    (hdial : env.dial st.dials wsURL = .ok ws) (hstat : fs.Stat opts.SrcPath = .ok info)
    (hw0 : ws.writeErr 0 = some e) :
    cpToInstanceInternal env fs cfg (fuel + 1) opts st =
      some (((dialed cfg wsURL st).emit (.sendRequest (requestFor opts info))).emit .wsClose,
        some ("send request: ".toList ++ e)) := by
  unfold requestFor
  cases hA : opts.Archive <;> cases hO : info.Owner <;>
    simp [cpToInstanceInternal, hurl, hdial, hstat, hw0, SendState.emit, hA, hO, dialed]

theorem closeAfter_eq (o : Option (SendState × Option GoString)) :
    (match o with
      | none => none
      | some (st4, r) => some (st4.emit .wsClose, r)) =
      o.map (fun x => (x.1.emit .wsClose, x.2)) := by
  cases o <;> rfl

theorem cpToInstanceInternal_dir (env : Env) (fs : SrcFS) (cfg : CpConfig) (fuel : Nat)
    (opts : CpToInstanceOptions) (st : SendState) (wsURL : GoString) (ws : Conn)
    (info : FileInfo) (hurl : buildWsURL env cfg.BaseURL opts.InstanceID = .ok wsURL)
    (hdial : env.dial st.dials wsURL = .ok ws) (hstat : fs.Stat opts.SrcPath = .ok info)
    (hdir : info.IsDir = true) (hw0 : ws.writeErr 0 = none) :
    cpToInstanceInternal env fs cfg (fuel + 1) opts st =
      (copyDirToWs env fs cfg fuel ws (dirCopyOf opts)
        (requested env fs cfg opts info wsURL st)).map
        (fun x => (x.1.emit .wsClose, x.2)) := by
  unfold requested requestFor visitedKey dialed dirCopyOf
  cases hA : opts.Archive <;> cases hO : info.Owner <;>
    simp only [cpToInstanceInternal, hurl, hdial, hstat, hw0, hdir, SendState.emit, hA, hO,
      if_true, if_false, Bool.false_eq_true, Option.getD] <;>
    exact closeAfter_eq _

theorem requested_trace (env : Env) (fs : SrcFS) (cfg : CpConfig) (opts : CpToInstanceOptions)
    (info : FileInfo) (wsURL : GoString) (st : SendState) :
    (requested env fs cfg opts info wsURL st).trace =
      st.trace ++ [.dial wsURL ("Bearer ".toList ++ cfg.APIKey),
        .sendRequest (requestFor opts info)] := by
  unfold requested
  simp only []
  split <;> simp [SendState.emit, dialed]

theorem requested_dials (env : Env) (fs : SrcFS) (cfg : CpConfig) (opts : CpToInstanceOptions)
    (info : FileInfo) (wsURL : GoString) (st : SendState) :
    (requested env fs cfg opts info wsURL st).dials = st.dials + 1 := by
  unfold requested
  simp only []
  split <;> simp [SendState.emit, dialed]


theorem Grows.connected (env : Env) (cfg : CpConfig) (st st' : SendState) (url : GoString)
    (ws : Conn) (hdial : env.dial st.dials url = .ok ws)
    (hg : Grows env (dialed cfg url st) st') : Grows env st (st'.emit .wsClose) := by
  obtain ⟨evs, ht, hr⟩ := hg
  refine ⟨[.dial url ("Bearer ".toList ++ cfg.APIKey)] ++ evs ++ [.wsClose], ?_, ?_⟩
  · simp only [SendState.emit, ht, dialed, List.append_assoc]
  · intro k
    rw [connReplay_append, connReplay_append]
    have h1 : connReplay env (st.dials, k) [.dial url ("Bearer ".toList ++ cfg.APIKey)] =
        some (st.dials + 1, k + 1) := by
      simp [connReplay, connStep, hdial]
    rw [h1]
    simp only [Option.bind]
    have h2 := hr (k + 1)
    simp only [dialed] at h2
    rw [h2]
    simp [connReplay, connStep, SendState.emit]

theorem send_grows (env : Env) (fs : SrcFS) (cfg : CpConfig) : ∀ fuel : Nat,
    (∀ opts st st' r, cpToInstanceInternal env fs cfg fuel opts st = some (st', r) →
      Grows env st st') ∧
    (∀ ws dc st st' r, copyDirToWs env fs cfg fuel ws dc st = some (st', r) →
      Grows env st st') ∧
    (∀ dc p st st' r, walkFn env fs cfg fuel dc p st = some (st', r) → Grows env st st') ∧
    (∀ dc p d st st' r, walkDir env fs cfg fuel dc p d st = some (st', r) →
      Grows env st st') ∧
    (∀ dc p ds st st' r, walkEntries env fs cfg fuel dc p ds st = some (st', r) →
      Grows env st st') := by
  intro fuel
  induction fuel with
  | zero => simp [cpToInstanceInternal, copyDirToWs, walkFn, walkDir, walkEntries]
  | succ n ih =>
    obtain ⟨ih1, ih2, ih3, ih4, ih5⟩ := ih
    refine ⟨?_, ?_, ?_, ?_, ?_⟩
    · intro opts st st' r h
      cases hurl : buildWsURL env cfg.BaseURL opts.InstanceID with
      | error e =>
        rw [cpToInstanceInternal_url_error env fs cfg n opts st e hurl] at h
        cases h
        exact Grows.refl env st
      | ok wsURL =>
        cases hdial : env.dial st.dials wsURL with
        | error f =>
          rw [cpToInstanceInternal_dial_error env fs cfg n opts st wsURL f hurl hdial] at h
          cases h
          exact ⟨[.dial wsURL ("Bearer ".toList ++ cfg.APIKey)], rfl,
            fun k => by simp [connReplay, connStep, hdial, dialed]⟩
        | ok ws =>
          have hin : ∀ (inner : SendState) (evs : List Event),
              inner.trace = (dialed cfg wsURL st).trace ++ evs →
              inner.dials = (dialed cfg wsURL st).dials → (∀ ev ∈ evs, ev.isConn = false) →
              Grows env st (inner.emit .wsClose) := fun inner evs ht hd hq =>
            Grows.connected env cfg st inner wsURL ws hdial (Grows.quiet env _ inner evs ht hd hq)
          cases hstat : fs.Stat opts.SrcPath with
          | error e =>
            rw [cpToInstanceInternal_stat_error env fs cfg n opts st wsURL ws e hurl hdial
              hstat] at h
            cases h
            exact hin _ [] (by simp) rfl (by simp)
          | ok info =>
            cases hw0 : ws.writeErr 0 with
            | some e =>
              rw [cpToInstanceInternal_write_error env fs cfg n opts st wsURL ws info e hurl
                hdial hstat hw0] at h
              cases h
              exact hin _ [_] rfl rfl (by simp [Event.isConn])
            | none =>
              cases hdir : info.IsDir with
              | false =>
                rw [cpToInstanceInternal_file env fs cfg n opts st wsURL ws info hurl hdial
                  hstat hdir hw0] at h
                cases h
                obtain ⟨evs, he, hq⟩ := copyFileToWs_quiet fs ws opts.SrcPath info.Size
                  opts.Callbacks (st.trace ++ [.dial wsURL ("Bearer ".toList ++ cfg.APIKey),
                    .sendRequest (requestFor opts info)])
                rw [he]
                refine hin { trace := _, visited := st.visited, dials := st.dials + 1 }
                  ([.sendRequest (requestFor opts info)] ++ evs) ?_ rfl ?_
                · simp [dialed]
                · intro ev hev
                  rcases List.mem_append.1 hev with hm | hm
                  · simp at hm; subst hm; rfl
                  · exact hq ev hm
              | true =>
                rw [cpToInstanceInternal_dir env fs cfg n opts st wsURL ws info hurl hdial
                  hstat hdir hw0] at h
                cases hcd : copyDirToWs env fs cfg n ws (dirCopyOf opts)
                  (requested env fs cfg opts info wsURL st) with
                | none => simp [hcd] at h
                | some x =>
                  obtain ⟨st4, r4⟩ := x
                  simp only [hcd, Option.map_some', Option.some.injEq, Prod.mk.injEq] at h
                  obtain ⟨rfl, rfl⟩ := h
                  refine Grows.connected env cfg st st4 wsURL ws hdial
                    (Grows.trans ?_ (ih2 _ _ _ _ _ hcd))
                  exact Grows.quiet env _ _ [.sendRequest (requestFor opts info)]
                    (by simp [requested_trace, dialed]) (by simp [requested_dials, dialed])
                    (by simp [Event.isConn])
    · intro ws dc st st' r h
      simp only [copyDirToWs] at h
      split at h
      · cases h
        exact Grows.quiet env _ _ [.sendEnd] rfl rfl (by simp [Event.isConn])
      · split at h
        · cases h
          exact Grows.quiet env _ _ [.sendEnd, .wsRead] (by simp [SendState.emit]) rfl
            (by simp [Event.isConn])
        · have hq : Grows env st ((st.emit .sendEnd).emit .wsRead) :=
            Grows.quiet env _ _ [.sendEnd, .wsRead] (by simp [SendState.emit]) rfl
              (by simp [Event.isConn])
          split at h
          · cases h
            exact hq
          · exact Grows.trans hq (ih4 _ _ _ _ _ _ h)
    · intro dc p st st' r h
      simp only [walkFn] at h
      split at h
      · cases h
        exact Grows.refl env st
      · split at h
        · cases h
          exact Grows.refl env st
        · split at h
          · cases h
            exact Grows.refl env st
          · split at h
            · cases h
              exact Grows.refl env st
            · rename_i st1 hcheck
              have hst1 : st1.trace = st.trace ∧ st1.dials = st.dials := by
                revert hcheck
                repeat' split
                all_goals
                  intro hcheck
                  first
                    | (cases hcheck; exact ⟨rfl, rfl⟩)
                    | cases hcheck
              exact Grows.trans (Grows.quiet env st st1 [] (by simp [hst1.1]) hst1.2 (by simp))
                (ih1 _ _ _ _ h)
    · intro dc p d st st' r h
      simp only [walkDir] at h
      split at h
      · cases h
      · rename_i st1 e hfn
        cases h
        exact ih3 _ _ _ _ _ hfn
      · rename_i st1 hfn
        split at h
        · cases h
          exact ih3 _ _ _ _ _ hfn
        · split at h
          · cases h
            exact ih3 _ _ _ _ _ hfn
          · exact Grows.trans (ih3 _ _ _ _ _ hfn) (ih5 _ _ _ _ _ _ h)
    · intro dc p ds st st' r h
      cases ds with
      | nil =>
        simp only [walkEntries] at h
        cases h
        exact Grows.refl env st
      | cons d1 rest =>
        simp only [walkEntries] at h
        split at h
        · cases h
        · rename_i st1 e hwd
          cases h
          exact ih4 _ _ _ _ _ _ hwd
        · rename_i st1 hwd
          exact Grows.trans (ih4 _ _ _ _ _ _ hwd) (ih5 _ _ _ _ _ _ h)

theorem send_mono (env : Env) (fs : SrcFS) (cfg : CpConfig) : ∀ fuel : Nat,
    (∀ opts st res, cpToInstanceInternal env fs cfg fuel opts st = some res →
      cpToInstanceInternal env fs cfg (fuel + 1) opts st = some res) ∧
    (∀ ws dc st res, copyDirToWs env fs cfg fuel ws dc st = some res →
      copyDirToWs env fs cfg (fuel + 1) ws dc st = some res) ∧
    (∀ dc p st res, walkFn env fs cfg fuel dc p st = some res →
      walkFn env fs cfg (fuel + 1) dc p st = some res) ∧
    (∀ dc p d st res, walkDir env fs cfg fuel dc p d st = some res →
      walkDir env fs cfg (fuel + 1) dc p d st = some res) ∧
    (∀ dc p ds st res, walkEntries env fs cfg fuel dc p ds st = some res →
      walkEntries env fs cfg (fuel + 1) dc p ds st = some res) := by
  intro fuel
  induction fuel with
  | zero => simp [cpToInstanceInternal, copyDirToWs, walkFn, walkDir, walkEntries]
  | succ n ih =>
    obtain ⟨ih1, ih2, ih3, ih4, ih5⟩ := ih
    refine ⟨?_, ?_, ?_, ?_, ?_⟩
    · intro opts st res h
      cases hurl : buildWsURL env cfg.BaseURL opts.InstanceID with
      | error e =>
        rw [cpToInstanceInternal_url_error env fs cfg _ opts st e hurl] at h ⊢
        exact h
      | ok wsURL =>
        cases hdial : env.dial st.dials wsURL with
        | error f =>
          rw [cpToInstanceInternal_dial_error env fs cfg _ opts st wsURL f hurl hdial] at h ⊢
          exact h
        | ok ws =>
          cases hstat : fs.Stat opts.SrcPath with
          | error e =>
            rw [cpToInstanceInternal_stat_error env fs cfg _ opts st wsURL ws e hurl hdial
              hstat] at h ⊢
            exact h
          | ok info =>
            cases hw0 : ws.writeErr 0 with
            | some e =>
              rw [cpToInstanceInternal_write_error env fs cfg _ opts st wsURL ws info e hurl
                hdial hstat hw0] at h ⊢
              exact h
            | none =>
              cases hdir : info.IsDir with
              | false =>
                rw [cpToInstanceInternal_file env fs cfg _ opts st wsURL ws info hurl hdial
                  hstat hdir hw0] at h ⊢
                exact h
              | true =>
                rw [cpToInstanceInternal_dir env fs cfg _ opts st wsURL ws info hurl hdial
                  hstat hdir hw0] at h ⊢
                cases hcd : copyDirToWs env fs cfg n ws (dirCopyOf opts)
                  (requested env fs cfg opts info wsURL st) with
                | none => simp [hcd] at h
                | some x =>
                  rw [ih2 _ _ _ _ hcd]
                  rw [hcd] at h
                  exact h
    · intro ws dc st res h
      simp only [copyDirToWs] at h ⊢
      split at h
      · exact h
      · split at h
        · exact h
        · split at h
          · exact h
          · exact ih4 _ _ _ _ _ h
    · intro dc p st res h
      simp only [walkFn] at h ⊢
      split at h
      · rename_i hc
        rw [if_pos hc]
        exact h
      · rename_i hc
        rw [if_neg hc]
        split at h
        · exact h
        · split at h
          · exact h
          · split at h
            · exact h
            · exact ih1 _ _ _ h
    · intro dc p d st res h
      simp only [walkDir] at h ⊢
      split at h
      · cases h
      · rename_i st1 e hfn
        rw [ih3 _ _ _ _ hfn]
        exact h
      · rename_i st1 hfn
        rw [ih3 _ _ _ _ hfn]
        simp only []
        split at h
        · rename_i hc
          rw [if_pos hc]
          exact h
        · rename_i hc
          rw [if_neg hc]
          split at h
          · exact h
          · exact ih5 _ _ _ _ _ h
    · intro dc p ds st res h
      cases ds with
      | nil =>
        simp only [walkEntries] at h ⊢
        exact h
      | cons d1 rest =>
        simp only [walkEntries] at h ⊢
        split at h
        · cases h
        · rename_i st1 e hwd
          rw [ih4 _ _ _ _ _ hwd]
          exact h
        · rename_i st1 hwd
          rw [ih4 _ _ _ _ _ hwd]
          exact ih5 _ _ _ _ _ h


theorem cpToInstanceInternal_mono (env : Env) (fs : SrcFS) (cfg : CpConfig) (a b : Nat)
    (hab : a ≤ b) (opts : CpToInstanceOptions) (st : SendState)
    (res : SendState × Option GoString)
    (h : cpToInstanceInternal env fs cfg a opts st = some res) :
    cpToInstanceInternal env fs cfg b opts st = some res := by
  induction hab with
  | refl => exact h
  | step _ ih => exact (send_mono env fs cfg _).1 _ _ _ ih

theorem walkDir_mono (env : Env) (fs : SrcFS) (cfg : CpConfig) (a b : Nat)
    (hab : a ≤ b) (dc : DirCopy) (p : GoString) (d : Bool) (st : SendState)
    (res : SendState × Option GoString)
    (h : walkDir env fs cfg a dc p d st = some res) :
    walkDir env fs cfg b dc p d st = some res := by
  induction hab with
  | refl => exact h
  | step _ ih => exact (send_mono env fs cfg _).2.2.2.1 _ _ _ _ _ ih

theorem walkEntries_mono (env : Env) (fs : SrcFS) (cfg : CpConfig) (a b : Nat)
    (hab : a ≤ b) (dc : DirCopy) (p : GoString) (ds : List DirEntry) (st : SendState)
    (res : SendState × Option GoString)
    (h : walkEntries env fs cfg a dc p ds st = some res) :
    walkEntries env fs cfg b dc p ds st = some res := by
  induction hab with
  | refl => exact h
  | step _ ih => exact (send_mono env fs cfg _).2.2.2.2 _ _ _ _ _ ih

/-! ### Termination on trees of finite depth -/

theorem cpToInstanceInternal_returns (env : Env) (fs : SrcFS) (cfg : CpConfig) (k : Nat)
    (opts : CpToInstanceOptions) (st : SendState)
    (hsub : ∀ ws st3, ∃ res, copyDirToWs env fs cfg k ws (dirCopyOf opts) st3 = some res) :
    ∃ res, cpToInstanceInternal env fs cfg (k + 1) opts st = some res := by
  cases hurl : buildWsURL env cfg.BaseURL opts.InstanceID with
  | error e => exact ⟨_, cpToInstanceInternal_url_error env fs cfg _ opts st e hurl⟩
  | ok wsURL =>
    cases hdial : env.dial st.dials wsURL with
    | error f => exact ⟨_, cpToInstanceInternal_dial_error env fs cfg _ opts st wsURL f hurl hdial⟩
    | ok ws =>
      cases hstat : fs.Stat opts.SrcPath with
      | error e =>
        exact ⟨_, cpToInstanceInternal_stat_error env fs cfg _ opts st wsURL ws e hurl hdial hstat⟩
      | ok info =>
        cases hw0 : ws.writeErr 0 with
        | some e =>
          exact ⟨_, cpToInstanceInternal_write_error env fs cfg _ opts st wsURL ws info e hurl
            hdial hstat hw0⟩
        | none =>
          cases hdir : info.IsDir with
          | false =>
            exact ⟨_, cpToInstanceInternal_file env fs cfg _ opts st wsURL ws info hurl hdial
              hstat hdir hw0⟩
          | true =>
            obtain ⟨res, hres⟩ := hsub ws (requested env fs cfg opts info wsURL st)
            refine ⟨(res.1.emit .wsClose, res.2), ?_⟩
            rw [cpToInstanceInternal_dir env fs cfg _ opts st wsURL ws info hurl hdial
              hstat hdir hw0, hres]
            rfl

theorem copyDirToWs_returns (env : Env) (fs : SrcFS) (cfg : CpConfig) (k : Nat)
    (ws : Conn) (dc : DirCopy) (st : SendState)
    (hsub : ∀ info st2, fs.Lstat dc.srcPath = .ok info →
      ∃ res, walkDir env fs cfg k dc dc.srcPath info.IsDir st2 = some res) :
    ∃ res, copyDirToWs env fs cfg (k + 1) ws dc st = some res := by
  simp only [copyDirToWs]
  split
  · exact ⟨_, rfl⟩
  · split
    · exact ⟨_, rfl⟩
    · split
      · exact ⟨_, rfl⟩
      · rename_i info hl
        exact hsub info _ hl

theorem walkFn_returns (env : Env) (fs : SrcFS) (cfg : CpConfig) (k : Nat)
    (dc : DirCopy) (p : GoString) (st : SendState)
    (hsub : ∀ opts st1, opts.SrcPath = p →
      ∃ res, cpToInstanceInternal env fs cfg k opts st1 = some res) :
    ∃ res, walkFn env fs cfg (k + 1) dc p st = some res := by
  simp only [walkFn]
  split
  · exact ⟨_, rfl⟩
  · split
    · exact ⟨_, rfl⟩
    · split
      · exact ⟨_, rfl⟩
      · split
        · exact ⟨_, rfl⟩
        · exact hsub _ _ rfl

theorem walkFn_root_returns (env : Env) (fs : SrcFS) (cfg : CpConfig) (k : Nat)
    (dc : DirCopy) (st : SendState) :
    walkFn env fs cfg (k + 1) dc dc.srcPath st = some (st, none) := by
  simp [walkFn]

theorem walkDir_returns (env : Env) (fs : SrcFS) (cfg : CpConfig) (k : Nat)
    (dc : DirCopy) (p : GoString) (b : Bool) (st : SendState)
    (hfn : ∀ st, ∃ res, walkFn env fs cfg k dc p st = some res)
    (hsub : b = true →
      ∀ st1, ∃ res, walkEntries env fs cfg k dc p (fs.ReadDir p).1 st1 = some res) :
    ∃ res, walkDir env fs cfg (k + 1) dc p b st = some res := by
  simp only [walkDir]
  obtain ⟨⟨st1, r⟩, hres⟩ := hfn st
  rw [hres]
  cases r with
  | some e => exact ⟨_, rfl⟩
  | none =>
    simp only []
    cases b with
    | false => exact ⟨_, rfl⟩
    | true =>
      simp only [Bool.not_true, Bool.false_eq_true, if_false]
      split
      · exact ⟨_, rfl⟩
      · rename_i dirs heq
        have := hsub rfl st1
        rw [heq] at this
        exact this

theorem walkEntries_returns (env : Env) (fs : SrcFS) (cfg : CpConfig) (k : Nat)
    (dc : DirCopy) (p : GoString) :
    ∀ (dirs : List DirEntry) (st : SendState),
      (∀ d ∈ dirs, ∀ st1, ∃ res,
        walkDir env fs cfg k dc (Join p d.Name) d.IsDir st1 = some res) →
      ∃ res, walkEntries env fs cfg (k + dirs.length + 1) dc p dirs st = some res := by
  intro dirs
  induction dirs with
  | nil => intro st _; exact ⟨(st, none), by simp [walkEntries]⟩
  | cons d rest ih =>
    intro st hsub
    obtain ⟨⟨st1, r⟩, hres⟩ := hsub d (List.mem_cons_self _ _) st
    have hres2 := walkDir_mono env fs cfg k (k + rest.length + 1) (by omega) _ _ _ _ _ hres
    have e : k + (d :: rest).length + 1 = (k + rest.length + 1) + 1 := by simp; omega
    rw [e]
    simp only [walkEntries, hres2]
    cases r with
    | some e => exact ⟨_, rfl⟩
    | none => exact ih st1 (fun d hd => hsub d (List.mem_cons_of_mem _ hd))


theorem send_level (env : Env) (fs : SrcFS) (cfg : CpConfig) (W F : Nat)
    (hW : ∀ p, (fs.ReadDir p).1.length ≤ W) (Good : GoString → Prop)
    (hchild : ∀ p, Good p → ∀ d ∈ (fs.ReadDir p).1, ∀ dc st,
      ∃ res, walkDir env fs cfg F dc (Join p d.Name) d.IsDir st = some res) :
    (∀ opts st, (isRealDir fs opts.SrcPath = true → Good opts.SrcPath) →
      ∃ res, cpToInstanceInternal env fs cfg (F + W + 4) opts st = some res) ∧
    (∀ dc p b st, (b = true ∨ isRealDir fs p = true → Good p) →
      ∃ res, walkDir env fs cfg (F + W + 6) dc p b st = some res) := by
  have hE : ∀ p, Good p → ∀ dc st,
      ∃ res, walkEntries env fs cfg (F + W + 1) dc p (fs.ReadDir p).1 st = some res := by
    intro p hp dc st
    obtain ⟨res, hres⟩ := walkEntries_returns env fs cfg F dc p (fs.ReadDir p).1 st
      (fun d hd st1 => hchild p hp d hd dc st1)
    exact ⟨res, walkEntries_mono env fs cfg _ _ (by have := hW p; omega) _ _ _ _ _ hres⟩
  have hroot : ∀ dc b st, (b = true → Good dc.srcPath) →
      ∃ res, walkDir env fs cfg (F + W + 2) dc dc.srcPath b st = some res := by
    intro dc b st hb
    exact walkDir_returns env fs cfg (F + W + 1) dc dc.srcPath b st
      (fun st => ⟨_, walkFn_root_returns env fs cfg (F + W) dc st⟩)
      (fun hbt st1 => hE _ (hb hbt) dc st1)
  have hcd : ∀ ws dc st, (isRealDir fs dc.srcPath = true → Good dc.srcPath) →
      ∃ res, copyDirToWs env fs cfg (F + W + 3) ws dc st = some res := by
    intro ws dc st hg
    refine copyDirToWs_returns env fs cfg (F + W + 2) ws dc st ?_
    intro info st2 hl
    exact hroot dc info.IsDir st2 (fun hi => hg (by simp [isRealDir, hl, hi]))
  have hcp : ∀ opts st, (isRealDir fs opts.SrcPath = true → Good opts.SrcPath) →
      ∃ res, cpToInstanceInternal env fs cfg (F + W + 4) opts st = some res := by
    intro opts st hg
    exact cpToInstanceInternal_returns env fs cfg (F + W + 3) opts st
      (fun ws st3 => hcd ws (dirCopyOf opts) st3 hg)
  refine ⟨hcp, ?_⟩
  intro dc p b st hg
  refine walkDir_returns env fs cfg (F + W + 5) dc p b st ?_ ?_
  · intro st1
    refine walkFn_returns env fs cfg (F + W + 4) dc p st1 ?_
    intro opts st2 ho
    exact hcp opts st2 (fun hr => by rw [ho] at hr ⊢; exact hg (Or.inr hr))
  · intro hb st1
    obtain ⟨res, hres⟩ := hE p (hg (Or.inl hb)) dc st1
    exact ⟨res, walkEntries_mono env fs cfg _ _ (by omega) _ _ _ _ _ hres⟩

theorem send_terminates (env : Env) (fs : SrcFS) (cfg : CpConfig) (T : FiniteTree fs) :
    ∀ m : Nat,
      (∀ opts st, (isRealDir fs opts.SrcPath = true → T.rank opts.SrcPath < m) →
        ∃ res, cpToInstanceInternal env fs cfg ((m + 1) * (T.width + 6)) opts st = some res) ∧
      (∀ dc p b st, (b = true ∨ isRealDir fs p = true → T.rank p < m) →
        ∃ res, walkDir env fs cfg ((m + 1) * (T.width + 6)) dc p b st = some res) := by
  intro m
  induction m with
  | zero =>
    obtain ⟨h1, h2⟩ := send_level env fs cfg T.width 0 T.width_le (fun _ => False)
      (fun p hp => absurd hp id)
    refine ⟨?_, ?_⟩
    · intro opts st hg
      obtain ⟨res, hres⟩ := h1 opts st (fun hr => absurd (hg hr) (by omega))
      exact ⟨res, cpToInstanceInternal_mono env fs cfg _ _ (by omega) _ _ _ hres⟩
    · intro dc p b st hg
      obtain ⟨res, hres⟩ := h2 dc p b st (fun hr => absurd (hg hr) (by omega))
      exact ⟨res, walkDir_mono env fs cfg _ _ (by omega) _ _ _ _ _ hres⟩
  | succ m ih =>
    obtain ⟨-, ihwd⟩ := ih
    obtain ⟨h1, h2⟩ := send_level env fs cfg T.width ((m + 1) * (T.width + 6)) T.width_le
      (fun p => T.rank p < m + 1)
      (fun p hp d hd dc st => ihwd dc _ _ st (fun hdesc => by
        have := T.rank_lt p d hd hdesc
        omega))
    have e : (m + 1 + 1) * (T.width + 6) = (m + 1) * (T.width + 6) + T.width + 6 := by ring
    refine ⟨?_, ?_⟩
    · intro opts st hg
      obtain ⟨res, hres⟩ := h1 opts st hg
      exact ⟨res, cpToInstanceInternal_mono env fs cfg _ _ (by omega) _ _ _ hres⟩
    · intro dc p b st hg
      obtain ⟨res, hres⟩ := h2 dc p b st hg
      rw [e]
      exact ⟨res, hres⟩

/-- A copy of any entry of a source tree of finite depth and width returns:
with fuel `(rank + 2) * (width + 6)` the model yields a result, and no amount
of fuel yields another one. -/
theorem CpToInstance_terminates (env : Env) (fs : SrcFS) (cfg : CpConfig)
    (opts : CpToInstanceOptions) (T : FiniteTree fs) :
    ∃ res, CpToInstance env fs cfg ((T.rank opts.SrcPath + 2) * (T.width + 6)) opts = some res ∧
      ∀ fuel res2, CpToInstance env fs cfg fuel opts = some res2 → res2 = res := by
  obtain ⟨⟨st1, r1⟩, h1⟩ := (send_terminates env fs cfg T (T.rank opts.SrcPath + 1)).1 opts
    { trace := [], visited := [], dials := 0 } (fun _ => by omega)
  refine ⟨(st1.trace, r1), by simp [CpToInstance, h1], ?_⟩
  intro fuel res2 h2
  unfold CpToInstance at h2
  cases h3 : cpToInstanceInternal env fs cfg fuel opts { trace := [], visited := [], dials := 0 } with
  | none => simp [h3] at h2
  | some x =>
    obtain ⟨st2, r2⟩ := x
    simp only [h3, Option.some.injEq] at h2
    subst h2
    have ha := cpToInstanceInternal_mono env fs cfg _
      (max fuel ((T.rank opts.SrcPath + 1 + 1) * (T.width + 6))) (le_max_left _ _) _ _ _ h3
    have hb := cpToInstanceInternal_mono env fs cfg _
      (max fuel ((T.rank opts.SrcPath + 1 + 1) * (T.width + 6))) (le_max_right _ _) _ _ _ h1
    rw [ha] at hb
    cases hb
    rfl

/-! ## The receive loop keeps connection and file handle in order -/

theorem handleReplay_append (env : Env) :
    ∀ (a b pre : List Event) (cur : Option GoString),
      handleReplay env pre cur (a ++ b) =
        (handleReplay env pre cur a).bind (fun c => handleReplay env (pre ++ a) c b) := by
  intro a
  induction a with
  | nil => intro b pre cur; simp [handleReplay]
  | cons ev rest ih =>
    intro b pre cur
    simp only [List.cons_append, handleReplay]
    cases handleStep env pre cur ev with
    | none => rfl
    | some c =>
      have e : rest.append b = rest ++ b := rfl
      simp only [e, ih, List.append_assoc, List.singleton_append]

theorem RecvInv.emit (env : Env) (s : RecvState) (ev : Event) (h : RecvInv env s)
    (h1 : handleStep env s.trace s.currentFile ev = some s.currentFile)
    (h2 : ev.isConn = false) : RecvInv env (s.emit ev) := by
  obtain ⟨ha, hb⟩ := h
  constructor
  · simp [RecvState.emit, handleReplay_append, ha, handleReplay, h1]
  · simp only [RecvState.emit, connReplay_append, hb, Option.bind]
    exact connReplay_quiet env [ev] _ (by simpa using h2)


theorem onHeader_inv (env : Env) (opts : CpFromInstanceOptions) (s : RecvState)
    (hd : Except GoString cpFileHeader) (h : RecvInv env s) :
    (onHeader env opts s hd).Holds (RecvInv env) := by
  obtain ⟨ha, hb⟩ := h
  unfold onHeader
  cases hcf : s.currentFile <;>
    (simp only []
     repeat' split
     all_goals
      simp_all [-Prod.mk_zero_zero, -Prod.mk_one_one, Step.Holds, RecvInv, RecvState.emit,
        handleReplay_append, connReplay_append, handleReplay, handleStep, connReplay,
        connStep])


theorem onEnd_inv (env : Env) (opts : CpFromInstanceOptions) (s : RecvState)
    (m : Except GoString cpEndMarker) (h : RecvInv env s) :
    (onEnd env opts s m).Holds (RecvInv env) := by
  obtain ⟨ha, hb⟩ := h
  unfold onEnd
  cases hcf : s.currentFile <;>
    (simp only []
     repeat' split
     all_goals
      simp_all [-Prod.mk_zero_zero, -Prod.mk_one_one, Step.Holds, RecvInv, RecvState.emit,
        handleReplay_append, connReplay_append, handleReplay, handleStep, connReplay,
        connStep])

theorem recvStep_inv (env : Env) (opts : CpFromInstanceOptions) (s : RecvState)
    (f : Frame) (h : RecvInv env s) : (recvStep env opts s f).Holds (RecvInv env) := by
  unfold recvStep
  split
  · split
    · exact h
    · split
      · exact onHeader_inv env opts s _ h
      · split
        · exact onEnd_inv env opts s _ h
        · repeat' split
          all_goals exact h
  · obtain ⟨ha, hb⟩ := h
    cases hcf : s.currentFile <;>
      (simp only []
       repeat' split
       all_goals
        simp_all [-Prod.mk_zero_zero, -Prod.mk_one_one, Step.Holds, RecvInv, RecvState.emit,
          handleReplay_append, connReplay_append, handleReplay, handleStep, connReplay,
          connStep])

theorem RecvInv.read (env : Env) (s : RecvState) (h : RecvInv env s) :
    RecvInv env (s.emit .wsRead) := by
  obtain ⟨ha, hb⟩ := h
  simp [-Prod.mk_zero_zero, -Prod.mk_one_one, RecvInv, RecvState.emit, handleReplay_append,
    connReplay_append, handleReplay, handleStep, connReplay, connStep, ha, hb]

theorem recvLoop_inv (env : Env) (opts : CpFromInstanceOptions) (ending : ReadError) :
    ∀ (frames : List Frame) (s : RecvState), RecvInv env s →
      RecvInv env (recvLoop env opts frames ending s).1 := by
  intro frames
  induction frames with
  | nil =>
    intro s h
    have := RecvInv.read env s h
    simp only [recvLoop]
    repeat' split
    all_goals exact this
  | cons f rest ih =>
    intro s h
    simp only [recvLoop]
    have h1 := recvStep_inv env opts (s.emit .wsRead) f (RecvInv.read env s h)
    cases hstep : recvStep env opts (s.emit .wsRead) f with
    | next s1 =>
      rw [hstep] at h1
      exact ih s1 h1
    | ret s1 r =>
      rw [hstep] at h1
      exact h1

theorem recvDeferred_closed (env : Env) (s : RecvState) (h : RecvInv env s) :
    handleReplay env [] none (recvDeferred s) = some none ∧
    connReplay env (0, 0) (recvDeferred s) = some (1, 0) := by
  obtain ⟨ha, hb⟩ := h
  unfold recvDeferred
  cases hcf : s.currentFile <;>
    simp_all [-Prod.mk_zero_zero, -Prod.mk_one_one, handleReplay_append, connReplay_append,
      handleReplay, handleStep, connReplay, connStep]

theorem CpFromInstance_closed (env : Env) (cfg : CpConfig) (opts : CpFromInstanceOptions) :
    handleReplay env [] none (CpFromInstance env cfg opts).1 = some none ∧
    ∃ n, connReplay env (0, 0) (CpFromInstance env cfg opts).1 = some (n, 0) := by
  cases hurl : buildWsURL env cfg.BaseURL opts.InstanceID with
  | error e =>
    simp only [CpFromInstance, hurl]
    exact ⟨rfl, 0, rfl⟩
  | ok wsURL =>
    cases hdial : env.dial 0 wsURL with
    | error f =>
      have : (CpFromInstance env cfg opts).1 =
          [Event.dial wsURL ("Bearer ".toList ++ cfg.APIKey)] := by
        simp only [CpFromInstance, hurl, hdial]
        rcases f.resp with _ | ⟨status, body⟩ <;> rfl
      rw [this]
      exact ⟨by simp [handleReplay, handleStep], 1, by simp [connReplay, connStep, hdial]⟩
    | ok ws =>
      cases hw : ws.writeErr 0 with
      | some e =>
        simp only [CpFromInstance, hurl, hdial, hw]
        exact ⟨by simp [handleReplay, handleStep], 1, by simp [connReplay, connStep, hdial]⟩
      | none =>
        rw [CpFromInstance_connected env cfg opts wsURL ws hurl hdial hw]
        have hinit : RecvInv env (recvInit cfg opts wsURL) :=
          ⟨by simp [recvInit, handleReplay, handleStep],
           by simp [recvInit, connReplay, connStep, hdial]⟩
        have := recvDeferred_closed env _ (recvLoop_inv env opts ws.ending ws.frames _ hinit)
        exact ⟨this.1, 1, this.2⟩

theorem onHeader_closes_first (env : Env) (opts : CpFromInstanceOptions) (s : RecvState)
    (hd : Except GoString cpFileHeader) :
    (onHeader env opts s hd).Holds (fun s1 => s.trace ++ closeOpen s <+: s1.trace) := by
  unfold onHeader closeOpen
  cases hcf : s.currentFile <;>
    (simp only []
     repeat' split
     all_goals simp [Step.Holds, RecvState.emit])


/-! ### Connections and file handles are closed -/

/-- C18: a connection that a dial opened is closed before the call returns.
Replaying the events of `CpFromInstance`, or of a run of `CpToInstance` that
returns (whatever the number of connections it dials, with success or with
any error), every `ws.Close()` closes a connection that is open and no
connection is open at the end.  In `CpFromInstance` at most one file handle is
open at a time, every `Close` closes the handle that is open, none is open at
the end, and the first thing a header frame does is to close the handle that
is open. -/
theorem connections_and_handles_closed (env : Env) (fs : SrcFS) (cfg : CpConfig) :
    (∀ opts : CpFromInstanceOptions,
      (∃ n, connReplay env (0, 0) (CpFromInstance env cfg opts).1 = some (n, 0)) ∧
      handleReplay env [] none (CpFromInstance env cfg opts).1 = some none) ∧
    (∀ (opts : CpFromInstanceOptions) (s : RecvState) (f : Frame) (hd : cpFileHeader),
      f.IsHeader hd →
      (recvStep env opts s f).Holds (fun s1 => s.trace ++ closeOpen s <+: s1.trace)) ∧
    (∀ (fuel : Nat) (opts : CpToInstanceOptions) (trace : List Event) (r : Option GoString),
      CpToInstance env fs cfg fuel opts = some (trace, r) →
      ∃ n, connReplay env (0, 0) trace = some (n, 0)) := by
  refine ⟨fun opts => ⟨(CpFromInstance_closed env cfg opts).2,
    (CpFromInstance_closed env cfg opts).1⟩, ?_, ?_⟩
  · intro opts s f hd hf
    rw [recvStep_header env opts s f hd hf]
    exact onHeader_closes_first env opts s _
  · intro fuel opts trace r h
    unfold CpToInstance at h
    cases h1 : cpToInstanceInternal env fs cfg fuel opts
      { trace := [], visited := [], dials := 0 } with
    | none => simp [h1] at h
    | some x =>
      obtain ⟨st', r'⟩ := x
      simp only [h1, Option.some.injEq, Prod.mk.injEq] at h
      obtain ⟨evs, ht, hr⟩ := (send_grows env fs cfg fuel).1 _ _ _ _ h1
      refine ⟨st'.dials, ?_⟩
      rw [← h.1, ht]
      exact hr 0

theorem connections_and_handles_closed_witness :
    ((∃ n, connReplay (mockEnv normalFileFrames) (0, 0)
        (CpFromInstance (mockEnv normalFileFrames) mockCfg mockOpts).1 = some (n, 0)) ∧
      handleReplay (mockEnv normalFileFrames) [] none
        (CpFromInstance (mockEnv normalFileFrames) mockCfg mockOpts).1 = some none) ∧
    (recvStep (mockEnv normalFileFrames) mockOpts
        { currentFile := some "/dest/a".toList, currentHeader := none, bytesReceived := 0,
          receivedFinal := false, trace := [] }
        (headerFrame (fileHeader "b".toList 0o644 1 0))).Holds
      (fun s1 => [Event.closeFile "/dest/a".toList] <+: s1.trace) ∧
    ∃ n, connReplay (mockEnv [successFrame]) (0, 0)
      [Event.dial mockURL "Bearer test-key".toList,
       Event.sendRequest (cpRequest.mk "to".toList "/app/test.txt".toList false 0o644 false 0 0),
       Event.openSource "/tmp/test.txt".toList, Event.sendBinary helloWorld, Event.sendEnd,
       Event.wsRead, Event.closeSource "/tmp/test.txt".toList, Event.wsClose] = some (n, 0) :=
  ⟨(connections_and_handles_closed (mockEnv normalFileFrames) helloFS mockCfg).1 mockOpts,
   (connections_and_handles_closed (mockEnv normalFileFrames) helloFS mockCfg).2.1 mockOpts
      { currentFile := some "/dest/a".toList, currentHeader := none, bytesReceived := 0,
        receivedFinal := false, trace := [] }
      (headerFrame (fileHeader "b".toList 0o644 1 0)) (fileHeader "b".toList 0o644 1 0)
      ⟨rfl, rfl, rfl⟩,
   (connections_and_handles_closed (mockEnv [successFrame]) helloFS mockCfg).2.2 1 helloOpts
      _ none (by decide)⟩

/-! ### The request -/

/-- The request of one call of `cpToInstanceInternal`, in terms of the options
of that call: whenever it sends an entry (the URL is built, the
dial succeeds and `os.Stat` of the source succeeds), the first thing it does
on the connection it dialed is to write the request: direction `to`, guest
path `DstPath`, `is_dir` as `os.Stat` reports, mode the `Mode` option when
that is nonzero and else the permission bits of the source, `follow_links`
the `FollowLinks` option, and as uid and gid the owner of the source when
`Archive` is set (zero when the platform reports no owner) and zero
otherwise. -/
theorem request_is_first_frame (env : Env) (fs : SrcFS) (cfg : CpConfig) (fuel : Nat)
    (opts : CpToInstanceOptions) (st st' : SendState) (r : Option GoString)
    (wsURL : GoString) (ws : Conn) (info : FileInfo)
    (hurl : buildWsURL env cfg.BaseURL opts.InstanceID = .ok wsURL)
    (hdial : env.dial st.dials wsURL = .ok ws) (hstat : fs.Stat opts.SrcPath = .ok info)
    (hrun : cpToInstanceInternal env fs cfg fuel opts st = some (st', r)) :
    ∃ evs, st'.trace = st.trace ++
      [Event.dial wsURL ("Bearer ".toList ++ cfg.APIKey),
       Event.sendRequest (cpRequest.mk "to".toList opts.DstPath info.IsDir
         (if opts.Mode = 0 then info.Perm else opts.Mode) opts.FollowLinks
         (if opts.Archive then (info.Owner.getD (0, 0)).1 else 0)
         (if opts.Archive then (info.Owner.getD (0, 0)).2 else 0))] ++ evs := by
  have hreq : cpRequest.mk "to".toList opts.DstPath info.IsDir
      (if opts.Mode = 0 then info.Perm else opts.Mode) opts.FollowLinks
      (if opts.Archive then (info.Owner.getD (0, 0)).1 else 0)
      (if opts.Archive then (info.Owner.getD (0, 0)).2 else 0) = requestFor opts info := by
    unfold requestFor
    by_cases hm : opts.Mode = 0 <;> simp [hm]
  rw [hreq]
  cases fuel with
  | zero => simp [cpToInstanceInternal] at hrun
  | succ n =>
    cases hw0 : ws.writeErr 0 with
    | some e =>
      rw [cpToInstanceInternal_write_error env fs cfg n opts st wsURL ws info e hurl hdial
        hstat hw0] at hrun
      cases hrun
      exact ⟨[.wsClose], by simp [SendState.emit, dialed]⟩
    | none =>
      cases hdir : info.IsDir with
      | false =>
        rw [cpToInstanceInternal_file env fs cfg n opts st wsURL ws info hurl hdial hstat hdir
          hw0] at hrun
        cases hrun
        obtain ⟨evs, he, -⟩ := copyFileToWs_quiet fs ws opts.SrcPath info.Size opts.Callbacks
          (st.trace ++ [.dial wsURL ("Bearer ".toList ++ cfg.APIKey),
            .sendRequest (requestFor opts info)])
        exact ⟨evs ++ [.wsClose], by rw [he]; simp⟩
      | true =>
        rw [cpToInstanceInternal_dir env fs cfg n opts st wsURL ws info hurl hdial hstat hdir
          hw0] at hrun
        cases hcd : copyDirToWs env fs cfg n ws (dirCopyOf opts)
          (requested env fs cfg opts info wsURL st) with
        | none => simp [hcd] at hrun
        | some x =>
          obtain ⟨st4, r4⟩ := x
          simp only [hcd, Option.map_some', Option.some.injEq, Prod.mk.injEq] at hrun
          obtain ⟨evs, ht, -⟩ := (send_grows env fs cfg n).2.1 _ _ _ _ _ hcd
          refine ⟨evs ++ [.wsClose], ?_⟩
          rw [← hrun.1]
          simp [SendState.emit, ht, requested_trace]

theorem request_is_first_frame_witness :
    ∃ evs, [Event.dial mockURL "Bearer test-key".toList,
       Event.sendRequest (cpRequest.mk "to".toList "/app/test.txt".toList false 0o644 false 0 0),
       Event.openSource "/tmp/test.txt".toList, Event.sendBinary helloWorld, Event.sendEnd,
       Event.wsRead, Event.closeSource "/tmp/test.txt".toList, Event.wsClose] =
      [] ++ [Event.dial mockURL ("Bearer ".toList ++ "test-key".toList),
       Event.sendRequest (cpRequest.mk "to".toList "/app/test.txt".toList false
         (if (0 : Nat) = 0 then 0o644 else 0) false
         (if false = true then ((some ((1000 : Nat), (1000 : Nat))).getD (0, 0)).1 else 0)
         (if false = true then ((some ((1000 : Nat), (1000 : Nat))).getD (0, 0)).2 else 0))] ++
        evs :=
  request_is_first_frame (mockEnv [successFrame]) helloFS mockCfg 1 helloOpts
    { trace := [], visited := [], dials := 0 }
    { trace := [Event.dial mockURL "Bearer test-key".toList,
       Event.sendRequest (cpRequest.mk "to".toList "/app/test.txt".toList false 0o644 false 0 0),
       Event.openSource "/tmp/test.txt".toList, Event.sendBinary helloWorld, Event.sendEnd,
       Event.wsRead, Event.closeSource "/tmp/test.txt".toList, Event.wsClose],
      visited := [], dials := 1 } none mockURL (mockConn [successFrame])
    { IsDir := false, IsSymlink := false, Perm := 0o644, Size := 11, Owner := some (1000, 1000) }
    (by decide) rfl (by decide) rfl

/-! ## Failing inputs of the copy to the instance -/

/-- C15 fails for a relative source path: in the tree `dir` that holds `back`,
a symlink to `dir` itself, the copy of `dir` with `FollowLinks` returns, but it
dials a second connection, on which it sends the symlink `back` as a
directory: the symlink resolves to the relative path `dir`, and the directory
was recorded under its absolute path `/home/user/dir`.  The copy of the same
tree under its absolute name dials one connection and skips the symlink. -/
theorem CpToInstance_relative_cycle_not_skipped :
    (CpToInstance (mockEnv [successFrame]) cycleFS mockCfg 12 (followOpts "dir".toList)).map
      (fun r => (r.2, r.1.countP Event.isDial,
        r.1.countP (Event.isDirRequestFor "/dst/back".toList))) = some (none, 2, 1) ∧
    (CpToInstance (mockEnv [successFrame]) cycleFS mockCfg 12
        (followOpts "/home/user/dir".toList)).map
      (fun r => (r.2, r.1.countP Event.isDial,
        r.1.countP (Event.isRequestFor "/dst/back".toList))) = some (none, 1, 0) := by
  decide

/-- C19 fails in a tree with a nested directory: in the copy of `/src`, which
holds `a/f`, the file `f` is sent on the third connection, which succeeds, and
once more on the fourth one.  When the fourth transfer fails, the call returns
its error and dials nothing more, but two connections were dialed for the
failed entry. -/
theorem CpToInstance_failed_entry_dialed_twice :
    (CpToInstance fourthFailsEnv nestedFS mockCfg 20 nestedOpts).map
      (fun r => (r.2, r.1.countP Event.isDial,
        r.1.countP (Event.isRequestFor "/dst/a/f".toList))) =
      some (some "copy failed: file exists".toList, 4, 2) := by
  decide

/-! ## A failed transfer ends the copy to the instance -/

theorem FailsFast.same (env : Env) (url : GoString) (st st' : SendState)
    (r : Option GoString) (h : st'.dials = st.dials) : FailsFast env url st st' r :=
  ⟨by omega, fun n h1 h2 _ => by omega⟩

theorem FailsFast.seq {env : Env} {url : GoString} {a b c : SendState} {r : Option GoString}
    (h1 : FailsFast env url a b none) (h2 : FailsFast env url b c r) :
    FailsFast env url a c r := by
  refine ⟨le_trans h1.1 h2.1, ?_⟩
  intro n hn1 hn2 hd
  by_cases hb : n < b.dials
  · exact absurd rfl (h1.2 n hn1 hb hd).2
  · exact h2.2 n (by omega) hn2 hd

theorem FailsFast.start {env : Env} {url : GoString} {a b c : SendState} {r : Option GoString}
    (hab : b.dials = a.dials) (h2 : FailsFast env url b c r) : FailsFast env url a c r := by
  refine ⟨by have := h2.1; omega, ?_⟩
  intro n hn1 hn2 hd
  exact h2.2 n (by omega) hn2 hd

theorem copyFileToWs_bad_reply (fs : SrcFS) (ws : Conn) (p : GoString) (size : Int)
    (cb : Option CpCallbacks) (t : List Event) (h : (awaitResult ws).isSome = true) :
    (copyFileToWs fs ws p size cb t).2 ≠ none := by
  cases hopen : fs.Open p with
  | error e => simp [copyFileToWs, hopen]
  | ok file =>
    rw [copyFileToWs_opened fs ws p size cb t file hopen]
    rcases sendChunks ws cb (file (32 * 1024)) 1 0
      (t ++ [Event.openSource p] ++ startEvents cb p size) with ⟨t2, w, e⟩
    cases e with
    | some e => simp
    | none =>
      simp only []
      cases ws.writeErr w with
      | some e => simp
      | none =>
        simp only []
        cases hr : awaitResult ws with
        | some e => simp
        | none => simp [hr] at h

theorem send_failsFast (env : Env) (fs : SrcFS) (cfg : CpConfig) : ∀ fuel : Nat,
    (∀ opts st st' r url, buildWsURL env cfg.BaseURL opts.InstanceID = .ok url →
      cpToInstanceInternal env fs cfg fuel opts st = some (st', r) →
      FailsFast env url st st' r) ∧
    (∀ ws dc st st' r url, buildWsURL env cfg.BaseURL dc.instanceID = .ok url →
      copyDirToWs env fs cfg fuel ws dc st = some (st', r) → FailsFast env url st st' r) ∧
    (∀ dc p st st' r url, buildWsURL env cfg.BaseURL dc.instanceID = .ok url →
      walkFn env fs cfg fuel dc p st = some (st', r) → FailsFast env url st st' r) ∧
    (∀ dc p d st st' r url, buildWsURL env cfg.BaseURL dc.instanceID = .ok url →
      walkDir env fs cfg fuel dc p d st = some (st', r) → FailsFast env url st st' r) ∧
    (∀ dc p ds st st' r url, buildWsURL env cfg.BaseURL dc.instanceID = .ok url →
      walkEntries env fs cfg fuel dc p ds st = some (st', r) → FailsFast env url st st' r) := by
  intro fuel
  induction fuel with
  | zero => simp [cpToInstanceInternal, copyDirToWs, walkFn, walkDir, walkEntries]
  | succ n ih =>
    obtain ⟨ih1, ih2, ih3, ih4, ih5⟩ := ih
    refine ⟨?_, ?_, ?_, ?_, ?_⟩
    · intro opts st st' r url hurl h
      have hone : ∀ (s1 : SendState) (r1 : Option GoString), s1.dials = st.dials + 1 →
          r1 ≠ none → FailsFast env url st s1 r1 := by
        intro s1 r1 hs hr
        exact ⟨by omega, fun m h1 h2 _ => ⟨by omega, hr⟩⟩
      cases hdial : env.dial st.dials url with
      | error f =>
        rw [cpToInstanceInternal_dial_error env fs cfg n opts st url f hurl hdial] at h
        cases h
        exact hone _ _ rfl (by simp)
      | ok ws =>
        cases hstat : fs.Stat opts.SrcPath with
        | error e =>
          rw [cpToInstanceInternal_stat_error env fs cfg n opts st url ws e hurl hdial
            hstat] at h
          cases h
          exact hone _ _ rfl (by simp)
        | ok info =>
          cases hw0 : ws.writeErr 0 with
          | some e =>
            rw [cpToInstanceInternal_write_error env fs cfg n opts st url ws info e hurl
              hdial hstat hw0] at h
            cases h
            exact hone _ _ rfl (by simp)
          | none =>
            have hdoom : doomed env url st.dials = (awaitResult ws).isSome := by
              simp [doomed, hdial, hw0]
            cases hdir : info.IsDir with
            | false =>
              rw [cpToInstanceInternal_file env fs cfg n opts st url ws info hurl hdial
                hstat hdir hw0] at h
              cases h
              refine ⟨by simp [SendState.emit], ?_⟩
              intro m h1 h2 hd
              have hm : m = st.dials := by simp [SendState.emit] at h2; omega
              subst hm
              rw [hdoom] at hd
              exact ⟨rfl, copyFileToWs_bad_reply fs ws _ _ _ _ hd⟩
            | true =>
              rw [cpToInstanceInternal_dir env fs cfg n opts st url ws info hurl hdial
                hstat hdir hw0] at h
              cases hcd : copyDirToWs env fs cfg n ws (dirCopyOf opts)
                (requested env fs cfg opts info url st) with
              | none => simp [hcd] at h
              | some x =>
                obtain ⟨st4, r4⟩ := x
                simp only [hcd, Option.map_some', Option.some.injEq, Prod.mk.injEq] at h
                obtain ⟨rfl, rfl⟩ := h
                obtain ⟨hle, hall⟩ := ih2 ws (dirCopyOf opts) _ _ _ url hurl hcd
                rw [requested_dials] at hle hall
                refine ⟨by simp [SendState.emit]; omega, ?_⟩
                intro m h1 h2 hd
                simp only [SendState.emit] at h2 ⊢
                by_cases hm : m = st.dials
                · subst hm
                  rw [hdoom] at hd
                  -- the reply is bad: copyDirToWs returns before its walk
                  cases n with
                  | zero => simp [copyDirToWs] at hcd
                  | succ k =>
                    simp only [copyDirToWs] at hcd
                    split at hcd
                    · cases hcd
                      simp [SendState.emit, requested_dials]
                    · split at hcd
                      · cases hcd
                        simp [SendState.emit, requested_dials]
                      · rename_i hr
                        simp [hr] at hd
                · exact hall m (by omega) h2 hd
    · intro ws dc st st' r url hurl h
      simp only [copyDirToWs] at h
      split at h
      · cases h
        exact FailsFast.same env url _ _ _ rfl
      · split at h
        · cases h
          exact FailsFast.same env url _ _ _ rfl
        · split at h
          · cases h
            exact FailsFast.same env url _ _ _ rfl
          · have h2 := ih4 _ _ _ _ _ _ url hurl h
            exact FailsFast.start rfl h2
    · intro dc p st st' r url hurl h
      simp only [walkFn] at h
      split at h
      · cases h
        exact FailsFast.same env url _ _ _ rfl
      · split at h
        · cases h
          exact FailsFast.same env url _ _ _ rfl
        · split at h
          · cases h
            exact FailsFast.same env url _ _ _ rfl
          · split at h
            · cases h
              exact FailsFast.same env url _ _ _ rfl
            · rename_i st1 hcheck
              have hst1 : st1.dials = st.dials := by
                revert hcheck
                repeat' split
                all_goals
                  intro hcheck
                  first
                    | (cases hcheck; rfl)
                    | cases hcheck
              have h2 := ih1 _ _ _ _ url hurl h
              exact FailsFast.start hst1 h2
    · intro dc p d st st' r url hurl h
      simp only [walkDir] at h
      split at h
      · cases h
      · rename_i st1 e hfn
        cases h
        exact ih3 _ _ _ _ _ url hurl hfn
      · rename_i st1 hfn
        have h1 := ih3 _ _ _ _ _ url hurl hfn
        split at h
        · cases h
          exact h1
        · split at h
          · cases h
            exact FailsFast.seq h1 (FailsFast.same env url _ _ _ rfl)
          · exact FailsFast.seq h1 (ih5 _ _ _ _ _ _ url hurl h)
    · intro dc p ds st st' r url hurl h
      cases ds with
      | nil =>
        simp only [walkEntries] at h
        cases h
        exact FailsFast.same env url _ _ _ rfl
      | cons d1 rest =>
        simp only [walkEntries] at h
        split at h
        · cases h
        · rename_i st1 e hwd
          cases h
          exact ih4 _ _ _ _ _ _ url hurl hwd
        · rename_i st1 hwd
          exact FailsFast.seq (ih4 _ _ _ _ _ _ url hurl hwd) (ih5 _ _ _ _ _ _ url hurl h)

/-- A copy to the instance that returns has dialed nothing after a connection
that could not carry a successful transfer: such a connection is the last one
of the operation, the call returns an error, and every connection is closed. -/
theorem CpToInstance_fails_fast (env : Env) (fs : SrcFS) (cfg : CpConfig) (fuel : Nat)
    (opts : CpToInstanceOptions) (trace : List Event) (r : Option GoString) (url : GoString)
    (hurl : buildWsURL env cfg.BaseURL opts.InstanceID = .ok url)
    (hrun : CpToInstance env fs cfg fuel opts = some (trace, r)) :
    ∃ N, connReplay env (0, 0) trace = some (N, 0) ∧
      ∀ n, n < N → doomed env url n = true → n + 1 = N ∧ r ≠ none := by
  unfold CpToInstance at hrun
  cases h : cpToInstanceInternal env fs cfg fuel opts { trace := [], visited := [], dials := 0 } with
  | none => simp [h] at hrun
  | some x =>
    obtain ⟨st', r'⟩ := x
    simp only [h, Option.some.injEq, Prod.mk.injEq] at hrun
    obtain ⟨rfl, rfl⟩ := hrun
    obtain ⟨evs, htr, hrep⟩ := (send_grows env fs cfg fuel).1 _ _ _ _ h
    obtain ⟨_, hall⟩ := (send_failsFast env fs cfg fuel).1 _ _ _ _ url hurl h
    refine ⟨st'.dials, ?_, fun n hn hd => hall n (Nat.zero_le _) hn hd⟩
    rw [htr]
    exact hrep 0

theorem CpToInstance_fails_fast_example :
    doomed fourthFailsEnv mockURL 3 = true ∧
    ∃ N, connReplay fourthFailsEnv (0, 0)
        ((CpToInstance fourthFailsEnv nestedFS mockCfg 20 nestedOpts).getD ([], none)).1 =
          some (N, 0) ∧
      ∀ n, n < N → doomed fourthFailsEnv mockURL n = true → n + 1 = N ∧
        ((CpToInstance fourthFailsEnv nestedFS mockCfg 20 nestedOpts).getD ([], none)).2 ≠ none :=
  ⟨by decide,
   CpToInstance_fails_fast fourthFailsEnv nestedFS mockCfg 20 nestedOpts _ _ mockURL
    (by decide) (by decide)⟩

/-! ## The URL for an instance ID that is a name -/

theorem isName_of_valid_id (id : GoString) (hne : id ≠ []) (hs : ¬ ['/'] <:+: id)
    (hd : ¬ ['.', '.'] <:+: id) (hdot : id ≠ ['.']) : IsName id := by
  refine ⟨hne, ?_, hdot, ?_⟩
  · intro c hc
    by_contra hsep
    have hc2 : c = '/' := (isPathSeparator_iff c).mp (by simpa using hsep)
    subst hc2
    obtain ⟨a, b, hab⟩ := List.mem_iff_append.mp hc
    exact hs ⟨a, b, by simp [hab]⟩
  · intro h
    exact hd (h ▸ List.infix_refl _)

theorem cpSegments_names (id : GoString) (h : IsName id) : ∀ s ∈ cpSegments id, IsName s := by
  intro s hs
  simp only [cpSegments, List.mem_cons, List.mem_singleton, List.not_mem_nil, or_false] at hs
  rcases hs with rfl | rfl | rfl
  · unfold IsName; decide
  · exact h
  · unfold IsName; decide

theorem pathJoinBuf_cp (p id : GoString) :
    pathJoinBuf [p, "instances".toList, id, "cp".toList] [] =
      if p = [] then joinSegs (cpSegments id) else p ++ Separator :: joinSegs (cpSegments id) := by
  cases p with
  | nil => simp [pathJoinBuf, joinSegs, cpSegments, Separator]
  | cons c t => simp [pathJoinBuf, joinSegs, cpSegments, Separator]

theorem pathJoin_cp (p id : GoString) (h : IsName id) :
    pathJoin [p, "instances".toList, id, "cp".toList] =
      render (IsAbs p) (normalForm p).1 ((normalForm p).2 ++ cpSegments id) := by
  have hnames := cpSegments_names id h
  have hsum : ((([p, "instances".toList, id, "cp".toList] : List GoString).map
      List.length).sum == 0) = false := by
    simp
  unfold pathJoin
  rw [hsum, pathJoinBuf_cp]
  simp only [Bool.false_eq_true, if_false]
  by_cases hp : p = []
  · subst hp
    simp only [if_true]
    have hnf : normalForm ([] : GoString) = (0, []) := by decide
    have hab : IsAbs ([] : GoString) = false := by decide
    rw [hnf, hab]
    have hok : NormOK false (0, cpSegments id) := ⟨hnames, by simp⟩
    have hr : render false 0 (cpSegments id) = joinSegs (cpSegments id) := by
      simp [render, dots]
    have e1 := normalForm_render false 0 (cpSegments id) hok
    have e2 := isAbs_render false 0 (cpSegments id) hok
    rw [hr] at e1 e2
    rw [Clean_eq_cleanSpec]
    rcases cleanSpec_cases (joinSegs (cpSegments id)) with ⟨_, _, h3⟩ | ⟨h1, _⟩
    · rw [e1] at h3
      simp [cpSegments] at h3
    · rw [h1, e1, e2]
      simp [render, dots]
  · simp only [hp, if_false]
    have hj := Join_down p (joinSegs (cpSegments id)) (cpSegments id) hp hnames
      (Or.inr ⟨by simp [cpSegments], rfl⟩)
    obtain ⟨_, hnf, hab⟩ := hj
    rw [Clean_eq_cleanSpec]
    rcases cleanSpec_cases (p ++ Separator :: joinSegs (cpSegments id)) with ⟨_, _, h3⟩ | ⟨h1, _⟩
    · rw [hnf] at h3
      simp [cpSegments] at h3
    · rw [h1, hnf, hab]

/-- For an instance ID that passes the validation and is not `.`,
`buildWsURL` returns the base URL with the scheme switched to the WebSocket
one, every other part as parsed, and the path made of the segments of the
base path followed by `instances`, the ID and `cp`. -/
theorem buildWsURL_of_valid_id (env : Env) (baseURL id : GoString) (u : URL)
    (hparse : env.urlParse baseURL = .ok u)
    (hne : id ≠ []) (hs : ¬ ['/'] <:+: id) (hb : ¬ ['\\'] <:+: id)
    (hd : ¬ ['.', '.'] <:+: id) (hdot : id ≠ ['.']) :
    buildWsURL env baseURL id =
      .ok (env.urlString { u with
        Scheme := wsScheme u.Scheme
        Path := render (IsAbs u.Path) (normalForm u.Path).1
          ((normalForm u.Path).2 ++ cpSegments id) }) := by
  have hname := isName_of_valid_id id hne hs hd hdot
  have hc : (Contains id ['/'] || Contains id ['\\'] || Contains id ['.', '.']) = false := by
    rw [Bool.eq_false_iff]
    intro h
    simp only [Bool.or_eq_true, Contains_iff] at h
    rcases h with (h | h) | h
    · exact hs h
    · exact hb h
    · exact hd h
  unfold buildWsURL
  simp only [beq_iff_eq, hne, if_false, hc, Bool.false_eq_true, hparse, pathJoin_cp _ _ hname]
  unfold wsScheme
  by_cases h1 : u.Scheme = "https".toList
  · simp [h1]
  · by_cases h2 : u.Scheme = "http".toList
    · simp [h2]
    · simp only [h1, h2, if_false]

theorem buildWsURL_of_valid_id_example :
    buildWsURL urlEnv "https://api.example.com/v1".toList "inst_123".toList =
      .ok "wss://api.example.com/v1/instances/inst_123/cp".toList := by
  rw [buildWsURL_of_valid_id urlEnv "https://api.example.com/v1".toList "inst_123".toList _
    rfl (by decide) (by decide) (by decide) (by decide) (by decide)]
  decide

/-! ## Symlinks that resolve to a visited directory, and example trees -/

/-- With `FollowLinks`, the walk function returns at once, without a
connection, on a symlink that resolves to a directory whose resolved path is
a key of `visitedDirs`. -/
theorem walkFn_skips_visited (env : Env) (fs : SrcFS) (cfg : CpConfig) (fuel : Nat)
    (dc : DirCopy) (p rel real : GoString) (info realInfo : FileInfo) (st : SendState)
    (hp : p ≠ dc.srcPath) (hrel : Rel dc.srcPath p = .ok rel)
    (hl : fs.Lstat p = .ok info) (hf : dc.followLinks = true)
    (hs : info.IsSymlink = true) (he : fs.EvalSymlinks p = .ok real)
    (hst : fs.Stat real = .ok realInfo) (hd : realInfo.IsDir = true)
    (hv : real ∈ st.visited) :
    walkFn env fs cfg (fuel + 1) dc p st = some (st, none) := by
  simp [walkFn, hp, hrel, hl, hf, hs, he, hst, hd, hv]

/-- With `FollowLinks`, a symlink that resolves to a directory whose resolved
path is not yet a key of `visitedDirs` is sent: the walk function records the
resolved path and calls `cpToInstanceInternal` for the symlink. -/
theorem walkFn_sends_unvisited (env : Env) (fs : SrcFS) (cfg : CpConfig) (fuel : Nat)
    (dc : DirCopy) (p rel real : GoString) (info realInfo : FileInfo) (st : SendState)
    (hp : p ≠ dc.srcPath) (hrel : Rel dc.srcPath p = .ok rel)
    (hl : fs.Lstat p = .ok info) (hf : dc.followLinks = true)
    (hs : info.IsSymlink = true) (he : fs.EvalSymlinks p = .ok real)
    (hst : fs.Stat real = .ok realInfo) (hd : realInfo.IsDir = true)
    (hv : real ∉ st.visited) :
    walkFn env fs cfg (fuel + 1) dc p st =
      cpToInstanceInternal env fs cfg fuel
        { InstanceID := dc.instanceID, SrcPath := p, DstPath := pathJoin [dc.dstPath, rel],
          Mode := 0, Archive := dc.archive, FollowLinks := true,
          Callbacks := dc.callbacks } { st with visited := real :: st.visited } := by
  simp [walkFn, hp, hrel, hl, hf, hs, he, hst, hd, hv]

theorem walkFn_skips_visited_example :
    walkFn (mockEnv [successFrame]) cycleFS mockCfg 1
        (dirCopyOf (followOpts "/home/user/dir".toList)) "/home/user/dir/back".toList
        { trace := [], visited := ["/home/user/dir".toList], dials := 1 } =
      some ({ trace := [], visited := ["/home/user/dir".toList], dials := 1 }, none) :=
  walkFn_skips_visited _ cycleFS _ 0 _ _ "back".toList "/home/user/dir".toList linkInfo dirInfo _
    (by decide) (by decide) (by decide) rfl rfl (by decide) (by decide) rfl (by decide)

theorem CpToInstance_terminates_cycle_example :
    ∃ res, CpToInstance (mockEnv [successFrame]) cycleFS mockCfg 14
        (followOpts "dir".toList) = some res ∧
      ∀ fuel res2, CpToInstance (mockEnv [successFrame]) cycleFS mockCfg fuel
        (followOpts "dir".toList) = some res2 → res2 = res :=
  CpToInstance_terminates (mockEnv [successFrame]) cycleFS mockCfg (followOpts "dir".toList)
    cycleTree

theorem CpToInstance_terminates_nested_example :
    ∃ res, CpToInstance (mockEnv [successFrame]) nestedFS mockCfg 28 nestedOpts = some res ∧
      ∀ fuel res2, CpToInstance (mockEnv [successFrame]) nestedFS mockCfg fuel nestedOpts =
        some res2 → res2 = res :=
  CpToInstance_terminates (mockEnv [successFrame]) nestedFS mockCfg nestedOpts nestedTree

/-! ## The events of one received file -/

theorem onHeader_file_trace (env : Env) (opts : CpFromInstanceOptions) (s : RecvState)
    (hd : cpFileHeader) (target : GoString)
    (hok : sanitizePath env.wd opts.DstPath hd.Path = .ok target)
    (hdir : hd.IsDir = false) (hsym : hd.IsSymlink = false)
    (hfs : ∀ t ev, env.fsErr t ev = none) :
    ∃ s1, onHeader env opts (s.emit .wsRead) (.ok hd) = .next s1 ∧
      s1.currentFile = some target ∧ s1.currentHeader = some hd ∧
      s1.bytesReceived = s.bytesReceived ∧
      s1.trace = s.trace ++ headerEvents opts s hd target := by
  unfold onHeader headerEvents closeOpen fileStartEvents
  simp only [hok, hdir, hsym, hfs, Bool.false_eq_true, ↓reduceIte, RecvState.emit]
  cases hcf : s.currentFile <;> cases hcb : opts.Callbacks <;>
    (simp only []
     repeat' split
     all_goals
      refine ⟨_, rfl, rfl, rfl, rfl, ?_⟩
      simp)

theorem recvFrames_data (env : Env) (opts : CpFromInstanceOptions) (target : GoString)
    (hfs : ∀ t ev, env.fsErr t ev = none) :
    ∀ (bfs : List Frame) (s : RecvState), (∀ b ∈ bfs, b.msgType = BinaryMessage) →
      s.currentFile = some target →
      ∃ s1, recvFrames env opts bfs s = .next s1 ∧
        s1.currentFile = some target ∧ s1.currentHeader = s.currentHeader ∧
        s1.bytesReceived = s.bytesReceived + payloadLength bfs ∧
        s1.trace = s.trace ++ dataEvents opts.Callbacks target s.bytesReceived bfs := by
  intro bfs
  induction bfs with
  | nil =>
    intro s _ hs
    exact ⟨s, rfl, hs, rfl, by simp [payloadLength], by simp [dataEvents]⟩
  | cons b rest ih =>
    intro s hb hs
    have hbin : b.msgType = BinaryMessage := hb b (by simp)
    have hne : (BinaryMessage == TextMessage) = false := by decide
    have hstep : ∃ s2, recvStep env opts (s.emit .wsRead) b = .next s2 ∧
        s2.currentFile = some target ∧ s2.currentHeader = s.currentHeader ∧
        s2.bytesReceived = s.bytesReceived + b.data.length ∧
        s2.trace = s.trace ++ ([Event.wsRead, Event.write target b.data] ++
          (if wantsProgress opts.Callbacks then
            [Event.onProgress (s.bytesReceived + b.data.length)] else [])) := by
      simp only [recvStep, RecvState.emit, hs, hfs, hbin, hne, Bool.false_eq_true, ↓reduceIte,
        beq_self_eq_true, wantsProgress]
      repeat' split
      all_goals
        refine ⟨_, rfl, rfl, rfl, rfl, ?_⟩
        simp_all
    obtain ⟨s2, h1, h2, h3, h4, h5⟩ := hstep
    obtain ⟨s1, g1, g2, g3, g4, g5⟩ := ih s2 (fun x hx => hb x (by simp [hx])) h2
    refine ⟨s1, ?_, g2, g3.trans h3, ?_, ?_⟩
    · simp only [recvFrames, h1]
      exact g1
    · rw [g4, h4]
      simp only [payloadLength, List.map_cons, List.flatten_cons, List.length_append,
        Nat.cast_add]
      ring
    · rw [g5, h5, h4]
      simp [dataEvents]

theorem onEnd_file_trace (env : Env) (opts : CpFromInstanceOptions) (s : RecvState)
    (m : cpEndMarker) (hd : cpFileHeader) (target : GoString)
    (hs : s.currentFile = some target) (hh : s.currentHeader = some hd)
    (hok : sanitizePath env.wd opts.DstPath hd.Path = .ok target) :
    ∃ s1, onEnd env opts (s.emit .wsRead) (.ok m) =
        (if m.Final then Step.ret s1 none else Step.next s1) ∧
      s1.currentFile = none ∧ s1.currentHeader = none ∧ s1.bytesReceived = 0 ∧
      s1.trace = s.trace ++ endMarkerEvents opts hd target := by
  unfold onEnd endMarkerEvents fileEndEvents
  simp only [RecvState.emit, hs, hh, hok]
  cases hcb : opts.Callbacks <;> cases hfin : m.Final <;>
    (simp only []
     repeat' split
     all_goals
      refine ⟨_, rfl, rfl, rfl, rfl, ?_⟩
      simp_all)

/-- One file entry, when the local calls succeed: a file header with an
accepted path, binary frames and an end marker give the events of the header,
of the data and of the end marker; the values of `OnProgress` go on from the
`bytesReceived` of the state the header is read in, and the counter is zero
after the end marker. -/
theorem recvFrames_file_entry (env : Env) (opts : CpFromInstanceOptions) (s : RecvState)
    (bfs : List Frame) (hf ef : Frame) (hd : cpFileHeader) (m : cpEndMarker)
    (target : GoString)
    (hhd : hf.IsHeader hd) (hbin : ∀ b ∈ bfs, b.msgType = BinaryMessage) (hend : ef.IsEnd m)
    (hok : sanitizePath env.wd opts.DstPath hd.Path = .ok target)
    (hdir : hd.IsDir = false) (hsym : hd.IsSymlink = false)
    (hfs : ∀ t ev, env.fsErr t ev = none) :
    ∃ s0 s1, recvFrames env opts (hf :: bfs) s = .next s0 ∧
      s0.trace = s.trace ++ headerEvents opts s hd target ++
        dataEvents opts.Callbacks target s.bytesReceived bfs ∧
      s0.bytesReceived = s.bytesReceived + payloadLength bfs ∧
      recvFrames env opts (hf :: (bfs ++ [ef])) s =
        (if m.Final then Step.ret s1 none else Step.next s1) ∧
      s1.trace = s0.trace ++ endMarkerEvents opts hd target ∧
      s1.bytesReceived = 0 ∧ s1.currentFile = none := by
  obtain ⟨s2, h1, h2, h3, h4, h5⟩ :=
    onHeader_file_trace env opts s hd target hok hdir hsym hfs
  obtain ⟨s3, g1, g2, g3, g4, g5⟩ := recvFrames_data env opts target hfs bfs s2 hbin h2
  obtain ⟨s4, e1, e2, _, e4, e5⟩ :=
    onEnd_file_trace env opts s3 m hd target g2 (g3.trans h3) hok
  refine ⟨s3, s4, ?_, ?_, ?_, ?_, e5, e4, e2⟩
  · simp only [recvFrames, recvStep_header env opts _ hf hd hhd, h1]
    exact g1
  · rw [g5, h5, h4]
  · rw [g4, h4]
  · have e : hf :: (bfs ++ [ef]) = [hf] ++ (bfs ++ [ef]) := rfl
    rw [e, recvFrames_append]
    simp only [recvFrames, recvStep_header env opts _ hf hd hhd, h1]
    rw [recvFrames_append, g1]
    simp only [recvFrames, recvStep_end env opts _ ef m hend, e1]
    cases m.Final <;> rfl

/-! ## The modification time of a received file -/

theorem dataEvents_no_chtimes (cb : Option CpCallbacks) (target : GoString) :
    ∀ (bfs : List Frame) (n : Int), ∀ ev ∈ dataEvents cb target n bfs,
      ∀ p t, ev ≠ Event.chtimes p t := by
  intro bfs
  induction bfs with
  | nil => simp [dataEvents]
  | cons b rest ih =>
    intro n ev h p t e
    subst e
    simp only [dataEvents, List.mem_append, List.mem_cons, List.mem_singleton,
      List.not_mem_nil, or_false] at h
    rcases h with (h | h) | h
    · simp at h
    · split at h <;> simp at h
    · exact ih _ _ h p t rfl

theorem headerEvents_no_chtimes (opts : CpFromInstanceOptions) (s : RecvState)
    (hd : cpFileHeader) (target : GoString) :
    ∀ ev ∈ headerEvents opts s hd target, ∀ p t, ev ≠ Event.chtimes p t := by
  intro ev h p t e
  subst e
  unfold headerEvents closeOpen fileStartEvents at h
  cases hcf : s.currentFile <;> cases hcb : opts.Callbacks <;> simp [hcf, hcb] at h

/-- C21 fails for a negative modification time: the file `a` arrives with
`mtime = -5`, a nonzero value, and the end marker closes it without any
`os.Chtimes`. -/
theorem negative_mtime_not_applied :
    CpFromInstance (mockEnv negativeMtimeFrames) mockCfg mockOpts =
      ([.dial mockURL "Bearer test-key".toList,
        .sendRequest (cpRequest.mk "from".toList "/app".toList false 0 false 0 0),
        .wsRead, .mkdirAll "/dest".toList 0o755, .openFile "/dest/a".toList 0o644,
        .wsRead, .closeFile "/dest/a".toList, .wsClose], none) := by
  decide

/-- C21 as amended: for a file entry (a file header with an accepted path,
binary frames, an end marker; the local calls succeed), processing the end
marker closes the handle and then, exactly when the modification time of the
header is positive, calls `os.Chtimes` on the file with that value; with a
zero or negative value there is no `os.Chtimes`.  Ownership (with `Archive`)
and `OnFileEnd` follow. -/
theorem end_marker_applies_positive_mtime (env : Env) (cfg : CpConfig)
    (opts : CpFromInstanceOptions) (wsURL : GoString) (ws : Conn)
    (pre post bfs : List Frame) (hf ef : Frame) (hd : cpFileHeader) (m : cpEndMarker)
    (s : RecvState) (target : GoString)
    (hurl : buildWsURL env cfg.BaseURL opts.InstanceID = .ok wsURL)
    (hdial : env.dial 0 wsURL = .ok ws) (hw : ws.writeErr 0 = none)
    (hframes : ws.frames = (pre ++ hf :: (bfs ++ [ef])) ++ post)
    (hhd : hf.IsHeader hd) (hbin : ∀ b ∈ bfs, b.msgType = BinaryMessage) (hend : ef.IsEnd m)
    (hpre : recvFrames env opts pre (recvInit cfg opts wsURL) = .next s)
    (hok : sanitizePath env.wd opts.DstPath hd.Path = .ok target)
    (hdir : hd.IsDir = false) (hsym : hd.IsSymlink = false)
    (hfs : ∀ t ev, env.fsErr t ev = none) :
    ∃ s0 s1, recvFrames env opts (pre ++ hf :: bfs) (recvInit cfg opts wsURL) = .next s0 ∧
      recvFrames env opts (pre ++ hf :: (bfs ++ [ef])) (recvInit cfg opts wsURL) =
        (if m.Final then Step.ret s1 none else Step.next s1) ∧
      s1.trace = s0.trace ++ ([Event.wsRead, Event.closeFile target] ++
        (if hd.Mtime > 0 then [Event.chtimes target hd.Mtime] else []) ++
        (if opts.Archive then [Event.chown target hd.Uid hd.Gid] else []) ++
        fileEndEvents opts.Callbacks hd) ∧
      (∀ ev ∈ s0.trace.drop s.trace.length, ∀ p t, ev ≠ Event.chtimes p t) ∧
      s1.trace <+: (CpFromInstance env cfg opts).1 := by
  obtain ⟨s0, s1, h1, h2, _, h4, h5, _, _⟩ :=
    recvFrames_file_entry env opts s bfs hf ef hd m target hhd hbin hend hok hdir hsym hfs
  have hrun : recvFrames env opts (pre ++ hf :: (bfs ++ [ef])) (recvInit cfg opts wsURL) =
      (if m.Final then Step.ret s1 none else Step.next s1) := by
    rw [recvFrames_append, hpre]
    exact h4
  refine ⟨s0, s1, ?_, hrun, h5, ?_, ?_⟩
  · rw [recvFrames_append, hpre]
    exact h1
  · rw [h2, List.append_assoc, List.drop_left]
    intro ev hev p t
    rcases List.mem_append.mp hev with h | h
    · exact headerEvents_no_chtimes opts s hd target ev h p t
    · exact dataEvents_no_chtimes opts.Callbacks target bfs _ ev h p t
  · rw [CpFromInstance_connected env cfg opts wsURL ws hurl hdial hw, hframes, recvLoop_append,
      hrun]
    by_cases hfin : m.Final = true
    · simp only [hfin, ↓reduceIte]
      exact recvDeferred_extends s1
    · simp only [hfin, Bool.false_eq_true, ↓reduceIte]
      exact (recvLoop_extends env opts ws.ending post s1).trans (recvDeferred_extends _)

theorem end_marker_applies_positive_mtime_witness :
    ∃ s0 s1, recvFrames (mockEnv normalFileFrames) mockOpts
          ([] ++ headerFrame (fileHeader "output.txt".toList 0o644 11 1234567890) ::
            [binaryFrame helloWorld]) (recvInit mockCfg mockOpts mockURL) = .next s0 ∧
      recvFrames (mockEnv normalFileFrames) mockOpts
          ([] ++ headerFrame (fileHeader "output.txt".toList 0o644 11 1234567890) ::
            ([binaryFrame helloWorld] ++ [endFrame true]))
          (recvInit mockCfg mockOpts mockURL) = Step.ret s1 none ∧
      s1.trace = s0.trace ++ [Event.wsRead, Event.closeFile "/dest/output.txt".toList,
        Event.chtimes "/dest/output.txt".toList 1234567890] ∧
      (∀ ev ∈ s0.trace.drop (recvInit mockCfg mockOpts mockURL).trace.length,
        ∀ p t, ev ≠ Event.chtimes p t) ∧
      s1.trace <+: (CpFromInstance (mockEnv normalFileFrames) mockCfg mockOpts).1 :=
  end_marker_applies_positive_mtime (mockEnv normalFileFrames) mockCfg mockOpts mockURL
    { writeErr := fun _ => none, frames := normalFileFrames, ending := .closeNormal }
    [] [] [binaryFrame helloWorld]
    (headerFrame (fileHeader "output.txt".toList 0o644 11 1234567890)) (endFrame true)
    (fileHeader "output.txt".toList 0o644 11 1234567890) { Final := true } _
    "/dest/output.txt".toList (by decide) rfl rfl rfl ⟨rfl, rfl, rfl⟩
    (by intro b hb; simp only [List.mem_singleton] at hb; rw [hb]; rfl) ⟨rfl, rfl, rfl⟩
    rfl (by decide) rfl rfl (fun _ _ => rfl)

/-! ## The byte counter of the progress callback -/

/-- C24 fails when a header follows the data of another file without an end
marker in between: the file `a` receives five bytes, then the header of `b`
arrives and `b` receives three bytes; `OnProgress` is called with 8 while
three bytes have been written to `b`.  The header branch closes the handle of
`a` and does not reset the counter. -/
theorem CpFromInstance_progress_not_reset :
    (CpFromInstance (mockEnv noEndBetweenFrames) mockCfg callbackOpts).2 = none ∧
    (CpFromInstance (mockEnv noEndBetweenFrames) mockCfg callbackOpts).1.filter
        Event.isCallback =
      [.onFileStart "a".toList 5, .onProgress 5, .onFileStart "b".toList 3, .onProgress 8,
       .onFileEnd "b".toList] ∧
    fileContent "/dest/b".toList
      (CpFromInstance (mockEnv noEndBetweenFrames) mockCfg callbackOpts).1 = some [1, 2, 3] := by
  decide

/-! ## Binary frames without an open file -/

/-- C29: a binary frame that arrives while no file handle is open is dropped.
Its iteration of the receive loop leaves the state as it is (nothing is
written, `OnProgress` is not called, `bytesReceived` is unchanged) and returns
no error, so the loop goes on with the next frame after the one read.  No
handle is open before the first header, after an end marker, and after a
directory or symlink header. -/
theorem binary_without_handle_dropped (env : Env) (cfg : CpConfig)
    (opts : CpFromInstanceOptions) (wsURL : GoString) (f : Frame)
    (hf : f.msgType = BinaryMessage) :
    (∀ s : RecvState, s.currentFile = none →
      recvStep env opts s f = .next s ∧
      ∀ rest ending, recvLoop env opts (f :: rest) ending s =
        recvLoop env opts rest ending (s.emit .wsRead)) ∧
    (recvInit cfg opts wsURL).currentFile = none ∧
    (∀ s m s1, onEnd env opts s (.ok m) = .next s1 → s1.currentFile = none) ∧
    (∀ s hd s1, hd.IsDir = true ∨ hd.IsSymlink = true →
      onHeader env opts s (.ok hd) = .next s1 → s1.currentFile = none) := by
  have hne : (BinaryMessage == TextMessage) = false := by decide
  have hstep : ∀ s : RecvState, s.currentFile = none → recvStep env opts s f = .next s := by
    intro s hs
    simp [recvStep, hf, hne, hs]
  refine ⟨?_, rfl, ?_, ?_⟩
  · intro s hs
    refine ⟨hstep s hs, ?_⟩
    intro rest ending
    simp only [recvLoop, hstep (s.emit .wsRead) hs]
  · intro s m s1 h
    unfold onEnd at h
    cases hcf : s.currentFile <;> cases hfin : m.Final <;> simp [hcf, hfin] at h
    · rw [← h]; exact hcf
    · rw [← h]
  · intro s hd s1 hkind h
    unfold onHeader at h
    simp only [] at h
    cases hcf : s.currentFile <;>
      (simp only [hcf] at h
       repeat' split at h
       all_goals
        cases h <;> first
          | rfl
          | simp_all [RecvState.emit])

theorem binary_without_handle_dropped_witness :
    recvStep (mockEnv []) mockOpts (recvInit mockCfg mockOpts mockURL) (binaryFrame [1, 2, 3]) =
      .next (recvInit mockCfg mockOpts mockURL) ∧
    CpFromInstance (mockEnv [binaryFrame [1, 2, 3], endFrame true]) mockCfg callbackOpts =
      ([.dial mockURL "Bearer test-key".toList,
        .sendRequest (cpRequest.mk "from".toList "/app".toList false 0 false 0 0),
        .wsRead, .wsRead, .wsClose], none) :=
  ⟨((binary_without_handle_dropped (mockEnv []) mockCfg mockOpts mockURL (binaryFrame [1, 2, 3])
      rfl).1 _ rfl).1, by decide⟩

/-! ## The local paths of `CpFromInstance` -/

theorem sanitizePath_ok_shape (wd : Except GoString GoString) (base path q : GoString)
    (hok : sanitizePath wd base path = .ok q) :
    IsAbs path = false ∧ HasPrefix (Clean path) ['.', '.'] = false ∧
      q = Join base (Clean path) := by
  have hrel : IsAbs path = false := by
    cases h : IsAbs path with
    | false => rfl
    | true => rw [sanitizePath_abs_error wd base path h] at hok; cases hok
  have hp : HasPrefix (Clean path) ['.', '.'] = false := by
    cases h : HasPrefix (Clean path) ['.', '.'] with
    | false => rfl
    | true => rw [sanitizePath_dotdot_error wd base path hrel h] at hok; cases hok
  refine ⟨hrel, hp, ?_⟩
  unfold sanitizePath at hok
  simp only [isAbs_Clean, hrel, hp, Bool.false_eq_true, ↓reduceIte] at hok
  repeat' split at hok
  all_goals first
    | (cases hok; rfl)
    | cases hok

theorem sanitized_inside (wd : Except GoString GoString) (base path q : GoString)
    (h : sanitizePath wd base path = .ok q) : InsideDst wd base q := by
  obtain ⟨_, _, hq⟩ := sanitizePath_ok_shape wd base path q h
  unfold sanitizePath at h
  simp only [] at h
  split at h
  · cases h
  · split at h
    · cases h
    · split at h
      · cases h
      · rename_i absBase hB
        split at h
        · cases h
        · rename_i absResult hR
          split at h
          · cases h
          · rename_i hcond
            rw [← hq] at hR
            refine ⟨absBase, absResult, hB, hR, ?_⟩
            have := (finalCheck_eq_false_iff absBase absResult).mp (by simpa using hcond)
            rcases this with h1 | h1 | h1
            · exact Or.inr (Or.inr h1)
            · exact Or.inr (Or.inl h1)
            · exact Or.inl h1

theorem clean_rooted_names (xs : List GoString) (hxs : ∀ a ∈ xs, IsName a) :
    Clean (Separator :: joinSegs xs) = Separator :: joinSegs xs := by
  have hr : render true 0 xs = Separator :: joinSegs xs := by simp [render, dots]
  have hok : NormOK true (0, xs) := ⟨hxs, fun _ => rfl⟩
  have habs : IsAbs (Separator :: joinSegs xs) = true := by rw [isAbs_cons]; rfl
  have hnf := normalForm_render true 0 xs hok
  rw [hr] at hnf
  rw [(Clean_of_abs _ habs).1, hnf]

/-- With an absolute base, the parent directory of a sanitized path that is
not the base itself is the base or a descendant of it. -/
theorem sanitized_parent_inside (wd : Except GoString GoString) (base path q : GoString)
    (hb : IsAbs base = true) (hok : sanitizePath wd base path = .ok q)
    (hnotroot : q ≠ Clean base) : InsideDst wd base (Dir q) := by
  obtain ⟨hrel, hp, htp⟩ := sanitizePath_ok_shape wd base path q hok
  have hshape := Join_abs_shape base path hb hrel hp
  have hbase := (Clean_of_abs base hb).1
  have hokb := normalForm_ok base
  have hokp := normalForm_ok path
  rw [hb] at hokb
  rw [hrel] at hokp
  have hnames : (normalForm path).2 ≠ [] := by
    intro hnil
    apply hnotroot
    rw [htp, hshape, hbase, hnil, List.append_nil]
  have hlast := List.dropLast_append_getLast hnames
  have hall : ∀ a ∈ (normalForm base).2 ++ (normalForm path).2.dropLast, IsName a := by
    intro a ha
    rcases List.mem_append.mp ha with h | h
    · exact hokb.1 a h
    · exact hokp.1 a (List.mem_of_mem_dropLast h)
  have hdir : Dir q =
      Separator :: joinSegs ((normalForm base).2 ++ (normalForm path).2.dropLast) := by
    have e1 : (normalForm base).2 ++ (normalForm path).2 =
        ((normalForm base).2 ++ (normalForm path).2.dropLast) ++
          [(normalForm path).2.getLast hnames] := by
      rw [List.append_assoc, hlast]
    rw [htp, hshape, e1]
    exact Dir_render _ _ hall (hokp.1 _ (List.getLast_mem hnames))
  have hdabs : IsAbs (Dir q) = true := by rw [hdir, isAbs_cons]; rfl
  refine ⟨Clean base, Dir q, by simp [Abs, hb], ?_, ?_⟩
  · simp only [Abs, hdabs, ↓reduceIte]
    rw [hdir, clean_rooted_names _ hall]
  · rw [hdir, hbase]
    by_cases h1 : (normalForm base).2 = []
    · right; right; rw [h1]; rfl
    · by_cases h2 : (normalForm path).2.dropLast = []
      · left; rw [h2, List.append_nil]
      · right; left
        rw [joinSegs_append _ _ h1 h2]
        exact ⟨joinSegs (normalForm path).2.dropLast, by simp⟩

theorem confined_of_no_path (env : Env) (opts : CpFromInstanceOptions) (ev : Event)
    (h : ev.localPath = none) : Confined env opts ev := by
  intro p hp
  rw [h] at hp
  cases hp

theorem confined_of_sanitized (env : Env) (opts : CpFromInstanceOptions) (ev : Event)
    (hp q : GoString) (hok : sanitizePath env.wd opts.DstPath hp = .ok q)
    (h : ev.localPath = some q) : Confined env opts ev := by
  intro p hp2
  rw [h] at hp2
  cases hp2
  exact Or.inl ⟨hp, hok⟩

theorem confined_parent (env : Env) (opts : CpFromInstanceOptions)
    (hp q : GoString) (hok : sanitizePath env.wd opts.DstPath hp = .ok q) :
    Confined env opts (.mkdirAll (Dir q) 0o755) :=
  fun _ _ => Or.inr ⟨hp, q, hok, rfl⟩

theorem PathInv.afterEvent (env : Env) (opts : CpFromInstanceOptions) (s : RecvState) (ev : Event)
    (h : PathInv env opts s) (hev : Confined env opts ev) : PathInv env opts (s.emit ev) := by
  refine ⟨?_, h.2⟩
  intro e he
  simp only [RecvState.emit, List.mem_append, List.mem_singleton] at he
  rcases he with he | he
  · exact h.1 e he
  · rw [he]; exact hev

theorem onHeader_pathInv (env : Env) (opts : CpFromInstanceOptions) (s : RecvState)
    (hd : Except GoString cpFileHeader) (h : PathInv env opts s) :
    (onHeader env opts s hd).Holds (PathInv env opts) := by
  obtain ⟨htr, hcur⟩ := h
  have c3 : ∀ ev : Event, ev.localPath = none → Confined env opts ev :=
    confined_of_no_path env opts
  cases hd with
  | error e =>
    unfold onHeader
    cases hcf : s.currentFile <;>
      (simp only [Step.Holds, PathInv, RecvState.emit, List.forall_mem_append,
        List.forall_mem_singleton, List.forall_mem_cons]
       split_ands
       all_goals first
        | exact htr
        | exact c3 _ rfl
        | (intro f hf; cases hf)
        | exact hcur)
  | ok header =>
    cases hsp : sanitizePath env.wd opts.DstPath header.Path with
    | error e =>
      unfold onHeader
      cases hcf : s.currentFile <;>
        (simp only [hsp, Step.Holds, PathInv, RecvState.emit, List.forall_mem_append,
          List.forall_mem_singleton, List.forall_mem_cons]
         split_ands
         all_goals first
          | exact htr
          | exact c3 _ rfl
          | (intro f hf; rw [hcf] at hf; cases hf)
          | (intro f hf; cases hf))
    | ok target =>
      have c1 : ∀ ev : Event, ev.localPath = some target → Confined env opts ev :=
        fun ev hev => confined_of_sanitized env opts ev _ _ hsp hev
      have c2 : Confined env opts (.mkdirAll (Dir target) 0o755) :=
        confined_parent env opts _ _ hsp
      unfold onHeader
      cases hcf : s.currentFile <;>
        (simp only [hsp]
         repeat' split
         all_goals
          simp only [Step.Holds, PathInv, RecvState.emit, List.forall_mem_append,
            List.forall_mem_singleton, List.forall_mem_cons]
          split_ands
         all_goals first
          | exact htr
          | exact c2
          | exact c1 _ rfl
          | exact c3 _ rfl
          | (intro f hf; cases hf; exact ⟨header, rfl, hsp⟩)
          | (intro f hf; rw [hcf] at hf; cases hf)
          | (intro f hf; cases hf))

theorem onEnd_pathInv (env : Env) (opts : CpFromInstanceOptions) (s : RecvState)
    (m : Except GoString cpEndMarker) (h : PathInv env opts s) :
    (onEnd env opts s m).Holds (PathInv env opts) := by
  obtain ⟨htr, hcur⟩ := h
  have c3 : ∀ ev : Event, ev.localPath = none → Confined env opts ev :=
    confined_of_no_path env opts
  cases m with
  | error e => exact ⟨htr, hcur⟩
  | ok endMarker =>
    cases hcf : s.currentFile with
    | none =>
      unfold onEnd
      simp only [hcf]
      split
      · exact ⟨htr, fun f hf => by simp at hf⟩
      · exact ⟨htr, fun f hf => by rw [hcf] at hf; cases hf⟩
    | some f =>
      obtain ⟨hd, hh, hsp⟩ := hcur f hcf
      have c1 : ∀ ev : Event, ev.localPath = some f → Confined env opts ev :=
        fun ev hev => confined_of_sanitized env opts ev _ _ hsp hev
      unfold onEnd
      simp only [hcf, hh, hsp]
      repeat' split
      all_goals
        simp only [Step.Holds, PathInv, RecvState.emit, List.forall_mem_append,
          List.forall_mem_singleton, List.forall_mem_cons]
        split_ands
      all_goals first
        | exact htr
        | exact c1 _ rfl
        | exact c3 _ rfl
        | (intro f hf; cases hf)

theorem recvStep_pathInv (env : Env) (opts : CpFromInstanceOptions) (s : RecvState)
    (f : Frame) (h : PathInv env opts s) : (recvStep env opts s f).Holds (PathInv env opts) := by
  unfold recvStep
  split
  · split
    · exact h
    · split
      · exact onHeader_pathInv env opts s _ h
      · split
        · exact onEnd_pathInv env opts s _ h
        · repeat' split
          all_goals exact h
  · obtain ⟨htr, hcur⟩ := h
    have c3 : ∀ ev : Event, ev.localPath = none → Confined env opts ev :=
      confined_of_no_path env opts
    cases hcf : s.currentFile <;>
      (simp only []
       repeat' split
       all_goals
        simp only [Step.Holds, PathInv, RecvState.emit, List.forall_mem_append,
          List.forall_mem_singleton, List.forall_mem_cons]
        split_ands
       all_goals first
        | exact htr
        | exact c3 _ rfl
        | exact hcur)

theorem recvLoop_pathInv (env : Env) (opts : CpFromInstanceOptions) (ending : ReadError) :
    ∀ (frames : List Frame) (s : RecvState), PathInv env opts s →
      PathInv env opts (recvLoop env opts frames ending s).1 := by
  intro frames
  induction frames with
  | nil =>
    intro s h
    have := PathInv.afterEvent env opts s .wsRead h (confined_of_no_path env opts _ rfl)
    simp only [recvLoop]
    repeat' split
    all_goals exact this
  | cons f rest ih =>
    intro s h
    simp only [recvLoop]
    have h1 := recvStep_pathInv env opts (s.emit .wsRead) f
      (PathInv.afterEvent env opts s .wsRead h (confined_of_no_path env opts _ rfl))
    cases hstep : recvStep env opts (s.emit .wsRead) f with
    | next s1 =>
      rw [hstep] at h1
      exact ih s1 h1
    | ret s1 r =>
      rw [hstep] at h1
      exact h1

theorem CpFromInstance_confined (env : Env) (cfg : CpConfig) (opts : CpFromInstanceOptions) :
    ∀ ev ∈ (CpFromInstance env cfg opts).1, Confined env opts ev := by
  have c3 : ∀ ev : Event, ev.localPath = none → Confined env opts ev :=
    confined_of_no_path env opts
  cases hurl : buildWsURL env cfg.BaseURL opts.InstanceID with
  | error e => simp [CpFromInstance, hurl]
  | ok wsURL =>
    cases hdial : env.dial 0 wsURL with
    | error f =>
      have : (CpFromInstance env cfg opts).1 =
          [Event.dial wsURL ("Bearer ".toList ++ cfg.APIKey)] := by
        simp only [CpFromInstance, hurl, hdial]
        rcases f.resp with _ | ⟨status, body⟩ <;> rfl
      rw [this]
      intro ev hev
      rw [List.mem_singleton] at hev
      rw [hev]
      exact c3 _ rfl
    | ok ws =>
      cases hw : ws.writeErr 0 with
      | some e =>
        simp only [CpFromInstance, hurl, hdial, hw, List.forall_mem_append,
          List.forall_mem_singleton, List.forall_mem_cons]
        split_ands
        all_goals exact c3 _ rfl
      | none =>
        rw [CpFromInstance_connected env cfg opts wsURL ws hurl hdial hw]
        have hinit : PathInv env opts (recvInit cfg opts wsURL) := by
          refine ⟨?_, fun f hf => by cases hf⟩
          simp only [recvInit, List.forall_mem_cons]
          exact ⟨c3 _ rfl, c3 _ rfl, fun x hx => by cases hx⟩
        have hfin := recvLoop_pathInv env opts ws.ending ws.frames _ hinit
        simp only [recvDeferred]
        cases hcf :
            (recvLoop env opts ws.frames ws.ending (recvInit cfg opts wsURL)).1.currentFile <;>
          (simp only [List.forall_mem_append, List.forall_mem_singleton]
           split_ands
           all_goals first
            | exact hfin.1
            | exact c3 _ rfl)

/-- C27 fails for a file header whose path is `.`: with `DstPath` `/dest` the
file is opened at `/dest` itself, and before that `os.MkdirAll` is called on
`/`, the parent directory of the destination, which is neither `/dest` nor
under `/dest/`. -/
theorem CpFromInstance_root_file_makes_parent :
    CpFromInstance (mockEnv rootFileFrames) mockCfg mockOpts =
      ([.dial mockURL "Bearer test-key".toList,
        .sendRequest (cpRequest.mk "from".toList "/app".toList false 0 false 0 0),
        .wsRead, .mkdirAll "/".toList 0o755, .openFile "/dest".toList 0o644,
        .wsRead, .write "/dest".toList [1, 2, 3, 4, 5],
        .wsRead, .closeFile "/dest".toList, .wsClose], none) ∧
    Abs (.ok "/home/user".toList) "/dest".toList = .ok "/dest".toList ∧
    Abs (.ok "/home/user".toList) "/".toList = .ok "/".toList ∧
    "/".toList ≠ "/dest".toList ∧ ¬ ("/dest/".toList <+: "/".toList) := by
  decide

/-- C27 as amended: every local path that `CpFromInstance` creates, opens,
removes or changes the attributes of is a result of `sanitizePath` for
`DstPath`, hence `DstPath` itself or a descendant of it, with one exception:
for a file or symlink header `os.MkdirAll` is called on the parent directory
of such a result.  With an absolute `DstPath` that parent is again `DstPath`
or a descendant of it unless the result is `DstPath` itself (a header whose
path is empty or `.`); then it is the parent directory of `DstPath`. -/
theorem local_paths_inside_or_parent (env : Env) (cfg : CpConfig)
    (opts : CpFromInstanceOptions) :
    ∀ ev ∈ (CpFromInstance env cfg opts).1, ∀ p, ev.localPath = some p →
      ((∃ hp, sanitizePath env.wd opts.DstPath hp = .ok p) ∧
        InsideDst env.wd opts.DstPath p) ∨
      (∃ hp q, sanitizePath env.wd opts.DstPath hp = .ok q ∧
        InsideDst env.wd opts.DstPath q ∧ ev = .mkdirAll (Dir q) 0o755 ∧
        (IsAbs opts.DstPath = true → q ≠ Clean opts.DstPath →
          InsideDst env.wd opts.DstPath (Dir q))) := by
  intro ev hev p hp
  rcases CpFromInstance_confined env cfg opts ev hev p hp with ⟨x, hx⟩ | ⟨x, q, hx, he⟩
  · exact Or.inl ⟨⟨x, hx⟩, sanitized_inside _ _ _ _ hx⟩
  · exact Or.inr ⟨x, q, hx, sanitized_inside _ _ _ _ hx, he,
      fun hb hq => sanitized_parent_inside _ _ _ _ hb hx hq⟩

theorem local_paths_inside_or_parent_witness :
    ((∃ hp, sanitizePath (.ok "/home/user".toList) "/dest".toList hp =
        .ok "/dest/output.txt".toList) ∧
      InsideDst (.ok "/home/user".toList) "/dest".toList "/dest/output.txt".toList) ∨
    (∃ hp q, sanitizePath (.ok "/home/user".toList) "/dest".toList hp = .ok q ∧
      InsideDst (.ok "/home/user".toList) "/dest".toList q ∧
      Event.openFile "/dest/output.txt".toList 0o644 = .mkdirAll (Dir q) 0o755 ∧
      (IsAbs "/dest".toList = true → q ≠ Clean "/dest".toList →
        InsideDst (.ok "/home/user".toList) "/dest".toList (Dir q))) :=
  local_paths_inside_or_parent (mockEnv normalFileFrames) mockCfg mockOpts
    (.openFile "/dest/output.txt".toList 0o644) (by decide) "/dest/output.txt".toList rfl

/-! ## Symlinks in a copy to the instance -/

theorem cpToInstanceInternal_starts (env : Env) (fs : SrcFS) (cfg : CpConfig) (fuel : Nat)
    (opts : CpToInstanceOptions) (st st' : SendState) (r : Option GoString)
    (wsURL : GoString) (ws : Conn) (info : FileInfo)
    (hurl : buildWsURL env cfg.BaseURL opts.InstanceID = .ok wsURL)
    (hdial : env.dial st.dials wsURL = .ok ws) (hstat : fs.Stat opts.SrcPath = .ok info)
    (hrun : cpToInstanceInternal env fs cfg fuel opts st = some (st', r)) :
    ∃ evs, st'.trace = st.trace ++
      [Event.dial wsURL ("Bearer ".toList ++ cfg.APIKey),
       Event.sendRequest (requestFor opts info)] ++ evs := by
  cases fuel with
  | zero => simp [cpToInstanceInternal] at hrun
  | succ n =>
    cases hw0 : ws.writeErr 0 with
    | some e =>
      rw [cpToInstanceInternal_write_error env fs cfg n opts st wsURL ws info e hurl hdial
        hstat hw0] at hrun
      cases hrun
      exact ⟨[.wsClose], by simp [SendState.emit, dialed]⟩
    | none =>
      cases hdir : info.IsDir with
      | false =>
        rw [cpToInstanceInternal_file env fs cfg n opts st wsURL ws info hurl hdial hstat hdir
          hw0] at hrun
        cases hrun
        obtain ⟨evs, he, -⟩ := copyFileToWs_quiet fs ws opts.SrcPath info.Size opts.Callbacks
          (st.trace ++ [.dial wsURL ("Bearer ".toList ++ cfg.APIKey),
            .sendRequest (requestFor opts info)])
        exact ⟨evs ++ [.wsClose], by rw [he]; simp⟩
      | true =>
        rw [cpToInstanceInternal_dir env fs cfg n opts st wsURL ws info hurl hdial hstat hdir
          hw0] at hrun
        cases hcd : copyDirToWs env fs cfg n ws (dirCopyOf opts)
          (requested env fs cfg opts info wsURL st) with
        | none => simp [hcd] at hrun
        | some x =>
          obtain ⟨st4, r4⟩ := x
          simp only [hcd, Option.map_some', Option.some.injEq, Prod.mk.injEq] at hrun
          obtain ⟨evs, ht, -⟩ := (send_grows env fs cfg n).2.1 _ _ _ _ _ hcd
          refine ⟨evs ++ [.wsClose], ?_⟩
          rw [← hrun.1]
          simp [SendState.emit, ht, requested_trace]

/-- C22 fails: in the copy of `/src` without `FollowLinks`, the request for
the symlink `l` carries the mode `0777`, the permission bits of the symlink
itself, and not `0644`, the mode of its target. -/
theorem CpToInstance_symlink_own_mode_sent :
    (CpToInstance (mockEnv [successFrame]) fileLinkFS mockCfg 8 nestedOpts).map
      (fun r => (r.2, r.1.filter (Event.isRequestFor "/dst/l".toList))) =
      some (none,
        [.sendRequest (cpRequest.mk "to".toList "/dst/l".toList false 0o777 false 0 0)]) ∧
    (fileLinkFS.Lstat "/src/l".toList).map FileInfo.Perm = .ok 0o777 ∧
    (fileLinkFS.Stat "/src/l".toList).map FileInfo.Perm = .ok 0o644 := by
  decide

/-- C22 as amended: for a symlink child that the walk sends, the mode in the
request is taken from the target of the link (`os.Stat`) when `FollowLinks` is
set; without `FollowLinks` it is the permission bits of the symlink itself
(`DirEntry.Info`), and the mode of the target only when those bits are zero.
The other fields are as for every entry. -/
theorem symlink_child_mode (env : Env) (fs : SrcFS) (cfg : CpConfig) (fuel : Nat)
    (dc : DirCopy) (p rel : GoString) (info srcInfo : FileInfo) (url : GoString) (ws : Conn)
    (st st' : SendState) (r : Option GoString)
    (hp : p ≠ dc.srcPath) (hrel : Rel dc.srcPath p = .ok rel)
    (hl : fs.Lstat p = .ok info) (hs : info.IsSymlink = true)
    (hurl : buildWsURL env cfg.BaseURL dc.instanceID = .ok url)
    (hdial : env.dial st.dials url = .ok ws) (hstat : fs.Stat p = .ok srcInfo)
    (hrun : walkFn env fs cfg fuel dc p st = some (st', r))
    (hsent : st'.dials ≠ st.dials) :
    ∃ evs, st'.trace = st.trace ++
      [Event.dial url ("Bearer ".toList ++ cfg.APIKey),
       Event.sendRequest (cpRequest.mk "to".toList (pathJoin [dc.dstPath, rel]) srcInfo.IsDir
         (if dc.followLinks then srcInfo.Perm
           else if info.Perm = 0 then srcInfo.Perm else info.Perm)
         dc.followLinks
         (if dc.archive then (srcInfo.Owner.getD (0, 0)).1 else 0)
         (if dc.archive then (srcInfo.Owner.getD (0, 0)).2 else 0))] ++ evs := by
  cases fuel with
  | zero => simp [walkFn] at hrun
  | succ n =>
    simp only [walkFn, beq_iff_eq, hp, if_false, hrel, hl, hs, Bool.and_true,
      Bool.true_and] at hrun
    cases hf : dc.followLinks with
    | false =>
      simp only [hf, Bool.false_eq_true, if_false] at hrun
      obtain ⟨evs, he⟩ := cpToInstanceInternal_starts env fs cfg n _ st st' r url ws srcInfo
        hurl hdial hstat hrun
      refine ⟨evs, ?_⟩
      rw [he]
      unfold requestFor
      by_cases hm : info.Perm = 0 <;> cases hO : srcInfo.Owner <;> simp [hm, hO]
    | true =>
      simp only [hf, if_true] at hrun
      split at hrun
      · rename_i hcheck
        cases hrun
        exact absurd rfl hsent
      · rename_i st1 hcheck
        have hst1 : st1.trace = st.trace ∧ st1.dials = st.dials := by
          revert hcheck
          repeat' split
          all_goals
            intro hcheck
            first
              | (cases hcheck; exact ⟨rfl, rfl⟩)
              | cases hcheck
        rw [← hst1.2] at hdial
        obtain ⟨evs, he⟩ := cpToInstanceInternal_starts env fs cfg n _ st1 st' r url ws srcInfo
          hurl hdial hstat hrun
        refine ⟨evs, ?_⟩
        rw [he, hst1.1]
        unfold requestFor
        cases hO : srcInfo.Owner <;> simp [hO]

theorem symlink_child_mode_witness :
    ∃ evs, [Event.dial mockURL "Bearer test-key".toList,
       Event.sendRequest (cpRequest.mk "to".toList "/dst/l".toList false 0o777 false 0 0),
       Event.openSource "/src/l".toList, Event.sendBinary [104, 105], Event.sendEnd,
       Event.wsRead, Event.closeSource "/src/l".toList, Event.wsClose] =
      [] ++ [Event.dial mockURL ("Bearer ".toList ++ "test-key".toList),
       Event.sendRequest (cpRequest.mk "to".toList "/dst/l".toList false 0o777 false 0 0)] ++
        evs :=
  symlink_child_mode (mockEnv [successFrame]) fileLinkFS mockCfg 3 (dirCopyOf nestedOpts)
    "/src/l".toList "l".toList linkInfo smallFileInfo mockURL (mockConn [successFrame])
    { trace := [], visited := [], dials := 0 }
    { trace := [Event.dial mockURL "Bearer test-key".toList,
       Event.sendRequest (cpRequest.mk "to".toList "/dst/l".toList false 0o777 false 0 0),
       Event.openSource "/src/l".toList, Event.sendBinary [104, 105], Event.sendEnd,
       Event.wsRead, Event.closeSource "/src/l".toList, Event.wsClose],
      visited := [], dials := 1 } none
    (by decide) (by decide) (by decide) rfl (by decide) rfl (by decide) rfl (by decide)

/-! ## A symlink to a directory is sent without its contents -/

/-- A directory copy whose root is not a directory for `os.Lstat` (a symlink
to a directory) sends the end marker, reads the reply and is done:
`filepath.WalkDir` calls the walk function for the root only, which skips
it. -/
theorem copyDirToWs_symlink_root (env : Env) (fs : SrcFS) (cfg : CpConfig) (fuel : Nat)
    (ws : Conn) (dc : DirCopy) (st : SendState) (info : FileInfo)
    (hw : ws.writeErr 1 = none) (hres : awaitResult ws = none)
    (hl : fs.Lstat dc.srcPath = .ok info) (hnd : info.IsDir = false) :
    copyDirToWs env fs cfg (fuel + 3) ws dc st =
      some ((st.emit .sendEnd).emit .wsRead, none) := by
  simp [copyDirToWs, walkDir, walkFn, hw, hres, hl, hnd]

/-- With `FollowLinks`, a symlink that resolves to a directory which is not
yet a key of `visitedDirs` is sent on one connection as a directory, and
nothing else is sent for it: the events are the dial, the request with
`is_dir`, the end marker, the read of the reply and the close.  The entries of
the directory it points to are not sent beneath it. -/
theorem walkFn_symlinked_dir (env : Env) (fs : SrcFS) (cfg : CpConfig) (fuel : Nat)
    (dc : DirCopy) (p rel real : GoString) (info realInfo srcInfo : FileInfo)
    (url : GoString) (ws : Conn) (st : SendState)
    (hp : p ≠ dc.srcPath) (hrel : Rel dc.srcPath p = .ok rel)
    (hl : fs.Lstat p = .ok info) (hf : dc.followLinks = true)
    (hs : info.IsSymlink = true) (hnd : info.IsDir = false)
    (he : fs.EvalSymlinks p = .ok real)
    (hst : fs.Stat real = .ok realInfo) (hd : realInfo.IsDir = true)
    (hv : real ∉ st.visited)
    (hurl : buildWsURL env cfg.BaseURL dc.instanceID = .ok url)
    (hdial : env.dial st.dials url = .ok ws) (hstat : fs.Stat p = .ok srcInfo)
    (hsd : srcInfo.IsDir = true) (hw0 : ws.writeErr 0 = none) (hw1 : ws.writeErr 1 = none)
    (hres : awaitResult ws = none) :
    ∃ st', walkFn env fs cfg (fuel + 5) dc p st = some (st', none) ∧
      st'.trace = st.trace ++
        [Event.dial url ("Bearer ".toList ++ cfg.APIKey),
         Event.sendRequest (cpRequest.mk "to".toList (pathJoin [dc.dstPath, rel]) true
           srcInfo.Perm true
           (if dc.archive then (srcInfo.Owner.getD (0, 0)).1 else 0)
           (if dc.archive then (srcInfo.Owner.getD (0, 0)).2 else 0)),
         Event.sendEnd, Event.wsRead, Event.wsClose] ∧
      st'.dials = st.dials + 1 ∧ real ∈ st'.visited := by
  rw [walkFn_sends_unvisited env fs cfg (fuel + 4) dc p rel real info realInfo st hp hrel hl hf
    hs he hst hd hv]
  have e1 := cpToInstanceInternal_dir env fs cfg (fuel + 3)
    { InstanceID := dc.instanceID, SrcPath := p, DstPath := pathJoin [dc.dstPath, rel],
      Mode := 0, Archive := dc.archive, FollowLinks := true, Callbacks := dc.callbacks }
    { st with visited := real :: st.visited } url ws srcInfo hurl hdial hstat hsd hw0
  rw [e1]
  rw [copyDirToWs_symlink_root env fs cfg fuel ws _ _ info hw1 hres ?_ hnd]
  swap
  · exact hl
  refine ⟨_, rfl, ?_, ?_, ?_⟩
  · simp only [SendState.emit, requested_trace, dialed, requestFor, hsd]
    cases hO : srcInfo.Owner <;> simp
  · simp [SendState.emit, requested_dials]
  · simp only [SendState.emit, requested, dialed]
    split <;> simp

theorem walkFn_symlinked_dir_example :
    ∃ st', walkFn (mockEnv [successFrame]) dirLinkFS mockCfg (0 + 5)
        (dirCopyOf (followOpts "/src".toList)) "/src/link".toList
        { trace := [], visited := ["/src".toList], dials := 1 } = some (st', none) ∧
      st'.trace = [] ++
        [Event.dial mockURL ("Bearer ".toList ++ "test-key".toList),
         Event.sendRequest (cpRequest.mk "to".toList "/dst/link".toList true 0o755 true 0 0),
         Event.sendEnd, Event.wsRead, Event.wsClose] ∧
      st'.dials = 1 + 1 ∧ "/data".toList ∈ st'.visited :=
  walkFn_symlinked_dir (mockEnv [successFrame]) dirLinkFS mockCfg 0
    (dirCopyOf (followOpts "/src".toList)) "/src/link".toList "link".toList "/data".toList
    linkInfo dirInfo dirInfo mockURL (mockConn [successFrame])
    { trace := [], visited := ["/src".toList], dials := 1 }
    (by decide) (by decide) (by decide) rfl rfl rfl (by decide) (by decide) rfl (by decide)
    (by decide) rfl (by decide) rfl rfl rfl (by decide)

/-- C23 fails: `/src` holds the symlink `link` to the directory `/data`, which
holds the file `f`.  The copy of `/src` with `FollowLinks` succeeds with two
connections: it sends `/dst` and, as a directory, `/dst/link`, and no request
for `/dst/link/f` or for any other path. -/
theorem CpToInstance_symlinked_dir_contents_not_sent :
    (CpToInstance (mockEnv [successFrame]) dirLinkFS mockCfg 10
        (followOpts "/src".toList)).map
      (fun r => (r.2, r.1.countP Event.isDial,
        r.1.countP (Event.isDirRequestFor "/dst/link".toList),
        r.1.countP (Event.isRequestFor "/dst/link/f".toList))) = some (none, 2, 1, 0) ∧
    (dirLinkFS.ReadDir "/data".toList).1 = [{ Name := "f".toList, IsDir := false }] ∧
    dirLinkFS.EvalSymlinks "/src/link".toList = .ok "/data".toList := by
  decide

/-! ## A symlink to a directory that was already sent -/

theorem send_visited (env : Env) (fs : SrcFS) (cfg : CpConfig) : ∀ fuel : Nat,
    (∀ opts st st' r, cpToInstanceInternal env fs cfg fuel opts st = some (st', r) →
      st.visited ⊆ st'.visited) ∧
    (∀ ws dc st st' r, copyDirToWs env fs cfg fuel ws dc st = some (st', r) →
      st.visited ⊆ st'.visited) ∧
    (∀ dc p st st' r, walkFn env fs cfg fuel dc p st = some (st', r) →
      st.visited ⊆ st'.visited) ∧
    (∀ dc p d st st' r, walkDir env fs cfg fuel dc p d st = some (st', r) →
      st.visited ⊆ st'.visited) ∧
    (∀ dc p ds st st' r, walkEntries env fs cfg fuel dc p ds st = some (st', r) →
      st.visited ⊆ st'.visited) := by
  intro fuel
  induction fuel with
  | zero => simp [cpToInstanceInternal, copyDirToWs, walkFn, walkDir, walkEntries]
  | succ n ih =>
    obtain ⟨ih1, ih2, ih3, ih4, ih5⟩ := ih
    refine ⟨?_, ?_, ?_, ?_, ?_⟩
    · intro opts st st' r h
      cases hurl : buildWsURL env cfg.BaseURL opts.InstanceID with
      | error e =>
        rw [cpToInstanceInternal_url_error env fs cfg n opts st e hurl] at h
        cases h
        exact List.Subset.refl _
      | ok url =>
        cases hdial : env.dial st.dials url with
        | error f =>
          rw [cpToInstanceInternal_dial_error env fs cfg n opts st url f hurl hdial] at h
          cases h
          exact List.Subset.refl _
        | ok ws =>
          cases hstat : fs.Stat opts.SrcPath with
          | error e =>
            rw [cpToInstanceInternal_stat_error env fs cfg n opts st url ws e hurl hdial
              hstat] at h
            cases h
            exact List.Subset.refl _
          | ok info =>
            cases hw0 : ws.writeErr 0 with
            | some e =>
              rw [cpToInstanceInternal_write_error env fs cfg n opts st url ws info e hurl
                hdial hstat hw0] at h
              cases h
              exact List.Subset.refl _
            | none =>
              cases hdir : info.IsDir with
              | false =>
                rw [cpToInstanceInternal_file env fs cfg n opts st url ws info hurl hdial
                  hstat hdir hw0] at h
                cases h
                exact List.Subset.refl _
              | true =>
                rw [cpToInstanceInternal_dir env fs cfg n opts st url ws info hurl hdial
                  hstat hdir hw0] at h
                cases hcd : copyDirToWs env fs cfg n ws (dirCopyOf opts)
                  (requested env fs cfg opts info url st) with
                | none => simp [hcd] at h
                | some x =>
                  obtain ⟨st4, r4⟩ := x
                  simp only [hcd, Option.map_some', Option.some.injEq, Prod.mk.injEq] at h
                  obtain ⟨rfl, rfl⟩ := h
                  have h2 := ih2 ws (dirCopyOf opts) _ _ _ hcd
                  have h1 : st.visited ⊆ (requested env fs cfg opts info url st).visited := by
                    simp only [requested, SendState.emit, dialed]
                    split
                    · exact List.subset_cons_self _ _
                    · exact List.Subset.refl _
                  exact h1.trans h2
    · intro ws dc st st' r h
      simp only [copyDirToWs] at h
      split at h
      · cases h
        exact List.Subset.refl _
      · split at h
        · cases h
          exact List.Subset.refl _
        · split at h
          · cases h
            exact List.Subset.refl _
          · have h2 := ih4 _ _ _ _ _ _ h
            exact h2
    · intro dc p st st' r h
      simp only [walkFn] at h
      split at h
      · cases h
        exact List.Subset.refl _
      · split at h
        · cases h
          exact List.Subset.refl _
        · split at h
          · cases h
            exact List.Subset.refl _
          · split at h
            · cases h
              exact List.Subset.refl _
            · rename_i st1 hcheck
              have hst1 : st.visited ⊆ st1.visited := by
                revert hcheck
                repeat' split
                all_goals
                  intro hcheck
                  first
                    | (cases hcheck; exact List.subset_cons_self _ _)
                    | (cases hcheck; exact List.Subset.refl _)
                    | cases hcheck
              exact hst1.trans (ih1 _ _ _ _ h)
    · intro dc p d st st' r h
      simp only [walkDir] at h
      split at h
      · cases h
      · rename_i st1 e hfn
        cases h
        exact ih3 _ _ _ _ _ hfn
      · rename_i st1 hfn
        have h1 := ih3 _ _ _ _ _ hfn
        split at h
        · cases h
          exact h1
        · split at h
          · cases h
            exact h1
          · exact h1.trans (ih5 _ _ _ _ _ _ h)
    · intro dc p ds st st' r h
      cases ds with
      | nil =>
        simp only [walkEntries] at h
        cases h
        exact List.Subset.refl _
      | cons d1 rest =>
        simp only [walkEntries] at h
        split at h
        · cases h
        · rename_i st1 e hwd
          cases h
          exact ih4 _ _ _ _ _ _ hwd
        · rename_i st1 hwd
          exact (ih4 _ _ _ _ _ _ hwd).trans (ih5 _ _ _ _ _ _ h)

/-- A directory that `cpToInstanceInternal` has sent is a key of `visitedDirs`
from then on, whether or not it is an ancestor of what the walk visits
later. -/
theorem sent_directory_stays_visited (env : Env) (fs : SrcFS) (cfg : CpConfig) (fuel : Nat)
    (opts : CpToInstanceOptions) (st st' : SendState) (r : Option GoString)
    (url : GoString) (ws : Conn) (info : FileInfo)
    (hurl : buildWsURL env cfg.BaseURL opts.InstanceID = .ok url)
    (hdial : env.dial st.dials url = .ok ws) (hstat : fs.Stat opts.SrcPath = .ok info)
    (hdir : info.IsDir = true) (hw0 : ws.writeErr 0 = none)
    (hrun : cpToInstanceInternal env fs cfg fuel opts st = some (st', r)) :
    visitedKey env fs opts.SrcPath ∈ st'.visited := by
  cases fuel with
  | zero => simp [cpToInstanceInternal] at hrun
  | succ n =>
    rw [cpToInstanceInternal_dir env fs cfg n opts st url ws info hurl hdial hstat hdir
      hw0] at hrun
    cases hcd : copyDirToWs env fs cfg n ws (dirCopyOf opts)
      (requested env fs cfg opts info url st) with
    | none => simp [hcd] at hrun
    | some x =>
      obtain ⟨st4, r4⟩ := x
      simp only [hcd, Option.map_some', Option.some.injEq, Prod.mk.injEq] at hrun
      obtain ⟨rfl, rfl⟩ := hrun
      have h2 := (send_visited env fs cfg n).2.1 ws (dirCopyOf opts) _ _ _ hcd
      have h1 : visitedKey env fs opts.SrcPath ∈
          (requested env fs cfg opts info url st).visited := by
        simp only [requested, SendState.emit, dialed]
        split
        · exact List.mem_cons_self _ _
        · rename_i hc
          simpa using hc
      exact h2 h1

/-- C28 fails: `/src` holds the empty directory `a` and the symlink `b` to
`a`, a sibling and not an ancestor of `b`.  The copy of `/src` with
`FollowLinks` succeeds with two connections, for `/dst` and `/dst/a`: the
symlink `b` is skipped, no request names `/dst/b`. -/
theorem CpToInstance_sibling_symlink_skipped :
    (CpToInstance (mockEnv [successFrame]) siblingFS mockCfg 10
        (followOpts "/src".toList)).map
      (fun r => (r.2, r.1.countP Event.isDial,
        r.1.countP (Event.isRequestFor "/dst/a".toList),
        r.1.countP (Event.isRequestFor "/dst/b".toList))) = some (none, 2, 1, 0) ∧
    (siblingFS.ReadDir "/src".toList).1 =
      [{ Name := "a".toList, IsDir := true }, { Name := "b".toList, IsDir := false }] ∧
    siblingFS.EvalSymlinks "/src/b".toList = .ok "/src/a".toList := by
  decide

/-! ## The last check of `sanitizePath` -/

theorem normStep_rooted_of_unrooted (N : List GoString) (k : Nat) (n : List GoString)
    (seg : GoString) :
    normStep true (0, List.dropLast^[k] N ++ n) seg =
      (0, List.dropLast^[(normStep false (k, n) seg).1] N ++ (normStep false (k, n) seg).2) := by
  unfold normStep
  by_cases h1 : seg = [] ∨ seg = ['.']
  · simp [h1]
  · by_cases h2 : seg = ['.', '.']
    · by_cases hn : n = []
      · subst hn
        by_cases hD : List.dropLast^[k] N = []
        · simp [h1, h2, hD, Function.iterate_succ_apply']
        · simp [h1, h2, hD, Function.iterate_succ_apply']
      · have hne : List.dropLast^[k] N ++ n ≠ [] := by simp [hn]
        simp [h1, h2, hn, hne, List.dropLast_append_of_ne_nil]
    · simp [h1, h2]

theorem foldl_rooted_of_unrooted (N : List GoString) (segs : List GoString) :
    ∀ (k : Nat) (n : List GoString),
      segs.foldl (normStep true) (0, List.dropLast^[k] N ++ n) =
        (0, List.dropLast^[(segs.foldl (normStep false) (k, n)).1] N ++
          (segs.foldl (normStep false) (k, n)).2) := by
  induction segs with
  | nil => intro k n; rfl
  | cons seg rest ih =>
    intro k n
    simp only [List.foldl_cons]
    rw [normStep_rooted_of_unrooted N k n seg]
    exact ih _ _

theorem normalForm_Clean (x : GoString) : normalForm (Clean x) = normalForm x := by
  rw [Clean_eq_cleanSpec]
  rcases cleanSpec_cases x with ⟨h1, _, h3⟩ | ⟨h1, _⟩
  · rw [h1, h3]; decide
  · rw [h1]
    exact normalForm_render _ _ _ (normalForm_ok x)

theorem Clean_ne_nil (x : GoString) : Clean x ≠ [] := by
  rw [Clean_eq_cleanSpec]
  rcases cleanSpec_cases x with ⟨h1, _, _⟩ | ⟨h1, h2⟩
  · rw [h1]; simp
  · rw [h1]; exact h2

/-- The absolute form of a relative path under a rooted working directory. -/
theorem Abs_relative (d x : GoString) (hd : IsAbs d = true) (hx : IsAbs x = false) :
    Abs (.ok d) x = .ok (Separator :: joinSegs
      (List.dropLast^[(normalForm x).1] (normalForm d).2 ++ (normalForm x).2)) := by
  have hdne : d ≠ [] := by
    intro e; rw [e] at hd; cases hd
  have habs : IsAbs (d ++ Separator :: x) = true := by rw [isAbs_append d _ hdne]; exact hd
  have hd0 : (normalForm d).1 = 0 := (Clean_of_abs d hd).2
  have hnf : normalForm (d ++ Separator :: x) =
      (0, List.dropLast^[(normalForm x).1] (normalForm d).2 ++ (normalForm x).2) := by
    have e := foldl_rooted_of_unrooted (normalForm d).2 (segments x) 0 []
    simp only [Function.iterate_zero, id_eq, List.append_nil] at e
    show foldSegs (IsAbs (d ++ Separator :: x)) (0, []) (d ++ Separator :: x) = _
    rw [habs]
    unfold foldSegs
    rw [segments_append_sep, List.foldl_append]
    have e0 : (segments d).foldl (normStep true) (0, []) = (0, (normalForm d).2) := by
      have : normalForm d = (segments d).foldl (normStep true) (0, []) := by
        unfold normalForm foldSegs; rw [hd]
      rw [← this, ← hd0]
    rw [e0, e]
    unfold normalForm foldSegs
    rw [hx]
  simp only [Abs, hx, Bool.false_eq_true, ↓reduceIte, Join, ne_eq, hdne, not_false_eq_true,
    List.append_assoc, List.singleton_append]
  rw [(Clean_of_abs _ habs).1, hnf]

/-- The result that `sanitizePath` joins: it is rooted exactly when the base
is, and its normal form is that of the base extended by the names of the
candidate. -/
theorem joined_normalForm (base cand : GoString) (hc : IsAbs cand = false)
    (hp : HasPrefix (Clean cand) ['.', '.'] = false) :
    IsAbs (Join base (Clean cand)) = IsAbs base ∧
      normalForm (Join base (Clean cand)) =
        ((normalForm base).1, (normalForm base).2 ++ (normalForm cand).2) := by
  obtain ⟨hk, hcases⟩ := clean_relative_down cand hc hp
  by_cases hb : base = []
  · subst hb
    have hne := Clean_ne_nil cand
    have hJ : Join [] (Clean cand) = Clean (Clean cand) := by
      simp [Join, hne]
    have hnil : normalForm ([] : GoString) = (0, []) := by decide
    rw [hJ, Clean_idem, isAbs_Clean, hc, normalForm_Clean, hnil]
    refine ⟨rfl, ?_⟩
    rw [← hk]
    simp
  · obtain ⟨hJ, hnf, habs⟩ :=
      Join_down base (Clean cand) (normalForm cand).2 hb (normalForm_ok cand).1 hcases
    rw [hJ, ← Clean_eq_cleanSpec, isAbs_Clean, normalForm_Clean]
    exact ⟨habs, hnf⟩

/-- The absolute forms that `sanitizePath` compares, when the working
directory is rooted: that of the result is that of the base extended by the
names of the candidate. -/
theorem abs_of_joined (wd : Except GoString GoString) (base cand absBase : GoString)
    (hwd : ∀ d, wd = .ok d → IsAbs d = true) (hc : IsAbs cand = false)
    (hp : HasPrefix (Clean cand) ['.', '.'] = false) (hB : Abs wd base = .ok absBase) :
    ∃ A, absBase = Separator :: joinSegs A ∧
      Abs wd (Join base (Clean cand)) =
        .ok (Separator :: joinSegs (A ++ (normalForm cand).2)) := by
  obtain ⟨hja, hjn⟩ := joined_normalForm base cand hc hp
  cases hb : IsAbs base with
  | true =>
    have hshape := Join_abs_shape base cand hb hc hp
    have hokb := normalForm_ok base
    have hokc := normalForm_ok cand
    rw [hb] at hokb
    rw [hc] at hokc
    refine ⟨(normalForm base).2, ?_, ?_⟩
    · simp only [Abs, hb, ↓reduceIte, Except.ok.injEq] at hB
      rw [← hB]
      exact (Clean_of_abs base hb).1
    · rw [hb] at hja
      simp only [Abs, hja, ↓reduceIte]
      rw [hshape, clean_rooted_names]
      intro a ha
      rcases List.mem_append.mp ha with h | h
      · exact hokb.1 a h
      · exact hokc.1 a h
  | false =>
    cases hw : wd with
    | error e =>
      rw [hw] at hB
      simp [Abs, hb] at hB
    | ok d =>
      have hd := hwd d hw
      rw [hw] at hB
      rw [Abs_relative d base hd hb] at hB
      rw [hb] at hja
      rw [Abs_relative d _ hd hja, hjn]
      refine ⟨List.dropLast^[(normalForm base).1] (normalForm d).2 ++ (normalForm base).2,
        ?_, ?_⟩
      · injection hB with hB
        exact hB.symm
      · simp

theorem joined_inside (wd : Except GoString GoString) (base cand absBase : GoString)
    (hwd : ∀ d, wd = .ok d → IsAbs d = true) (hc : IsAbs cand = false)
    (hp : HasPrefix (Clean cand) ['.', '.'] = false) (hB : Abs wd base = .ok absBase) :
    ∃ absResult, Abs wd (Join base (Clean cand)) = .ok absResult ∧
      (absResult = absBase ∨ (absBase ++ [Separator]) <+: absResult ∨
        absBase = [Separator]) := by
  obtain ⟨A, hA, hR⟩ := abs_of_joined wd base cand absBase hwd hc hp hB
  refine ⟨_, hR, ?_⟩
  rw [hA]
  by_cases h1 : A = []
  · right; right; rw [h1]; rfl
  · by_cases h2 : (normalForm cand).2 = []
    · left; rw [h2, List.append_nil]
    · right; left
      rw [joinSegs_append _ _ h1 h2]
      exact ⟨joinSegs (normalForm cand).2, by simp⟩

/-- With a rooted working directory, `sanitizePath` accepts every relative
candidate whose cleaned form does not begin with the characters `..`, unless
the base cannot be made absolute. -/
theorem sanitizePath_of_rooted_wd (wd : Except GoString GoString) (base cand : GoString)
    (hwd : ∀ d, wd = .ok d → IsAbs d = true) (hc : IsAbs cand = false)
    (hp : HasPrefix (Clean cand) ['.', '.'] = false) :
    sanitizePath wd base cand =
      match Abs wd base with
      | .error e => .error ("resolve base path: ".toList ++ e)
      | .ok _ => .ok (Join base (Clean cand)) := by
  unfold sanitizePath
  simp only [isAbs_Clean, hc, hp, Bool.false_eq_true, ↓reduceIte]
  cases hB : Abs wd base with
  | error e => rfl
  | ok absBase =>
    obtain ⟨absResult, hR, hin⟩ := joined_inside wd base cand absBase hwd hc hp hB
    have hfin := (finalCheck_eq_false_iff absBase absResult).mpr (by
      rcases hin with h | h | h
      · exact Or.inr (Or.inr h)
      · exact Or.inr (Or.inl h)
      · exact Or.inl h)
    simp only [hR, hfin, Bool.false_eq_true, ↓reduceIte]

/-- C30: the last check of `sanitizePath` never rejects.  The working
directory is rooted, as `os.Getwd` returns it.  For every base and every
candidate that passes the absolute-path check and the check for a leading
`..`, the absolute form of the joined result is the absolute form of the base,
or begins with it followed by a separator, or the base is the root; so
`sanitizePath` returns the joined result, and its only failure left is that
the base cannot be made absolute (`os.Getwd` fails), never the error
"path escapes destination" of the last check. -/
theorem final_check_never_rejects (wd : Except GoString GoString) (base path : GoString)
    (hwd : ∀ d, wd = .ok d → IsAbs d = true)
    (h1 : IsAbs (Clean path) = false) (h2 : HasPrefix (Clean path) ['.', '.'] = false) :
    (∀ absBase, Abs wd base = .ok absBase →
      ∃ absResult, Abs wd (Join base (Clean path)) = .ok absResult ∧
        (absResult = absBase ∨ (absBase ++ [Separator]) <+: absResult ∨
          absBase = [Separator])) ∧
    sanitizePath wd base path =
      match Abs wd base with
      | .error e => .error ("resolve base path: ".toList ++ e)
      | .ok _ => .ok (Join base (Clean path)) := by
  rw [isAbs_Clean] at h1
  exact ⟨fun absBase hB => joined_inside wd base path absBase hwd h1 h2 hB,
    sanitizePath_of_rooted_wd wd base path hwd h1 h2⟩

theorem final_check_never_rejects_witness :
    (∀ absBase, Abs (.ok "/home/user".toList) "../out".toList = .ok absBase →
      ∃ absResult, Abs (.ok "/home/user".toList)
          (Join "../out".toList (Clean "sub/../a/b".toList)) = .ok absResult ∧
        (absResult = absBase ∨ (absBase ++ [Separator]) <+: absResult ∨
          absBase = [Separator])) ∧
    sanitizePath (.ok "/home/user".toList) "../out".toList "sub/../a/b".toList =
      .ok "../out/a/b".toList ∧
    Abs (.ok "/home/user".toList) "../out".toList = .ok "/home/out".toList ∧
    Abs (.ok "/home/user".toList) "../out/a/b".toList = .ok "/home/out/a/b".toList :=
  ⟨(final_check_never_rejects (.ok "/home/user".toList) "../out".toList "sub/../a/b".toList
      (fun d h => by cases h; decide) (by decide) (by decide)).1,
   (final_check_never_rejects (.ok "/home/user".toList) "../out".toList "sub/../a/b".toList
      (fun d h => by cases h; decide) (by decide) (by decide)).2.trans (by decide),
   by decide, by decide⟩

/-! ## Names that begin with two dots -/

/-- C25 fails for the file name `..foo`: for every base, `sanitizePath`
rejects it with the error "path escapes destination", although its cleaned
form is `..foo`, one proper name, which is not `..` and does not start with
`../`, and joined to `/dest` it names `/dest/..foo`. -/
theorem sanitizePath_rejects_dotdot_name (wd : Except GoString GoString) (base : GoString) :
    sanitizePath wd base "..foo".toList =
      .error "invalid path: path escapes destination: ..foo".toList ∧
    Clean "..foo".toList = "..foo".toList ∧
    normalForm "..foo".toList = (0, ["..foo".toList]) ∧
    ¬ StartsWithParentSegment (Clean "..foo".toList) ∧
    Join "/dest".toList (Clean "..foo".toList) = "/dest/..foo".toList := by
  refine ⟨sanitizePath_dotdot_error wd base _ (by decide) (by decide), by decide, by decide,
    ?_, by decide⟩
  have e : Clean "..foo".toList = "..foo".toList := by decide
  rw [e]
  rintro (h | ⟨t, ht⟩)
  · exact absurd h (by decide)
  · simp at ht

/-- The hypothesis on the working directory is needed in the model: with a
working directory that is not rooted, which `os.Getwd` does not return, the
last check rejects the candidate `a` for the empty base. -/
theorem final_check_rejects_unrooted_wd :
    sanitizePath (.ok []) [] "a".toList =
      .error "invalid path: path escapes destination: a".toList := by
  decide

/-! ## The instance ID `.` -/

theorem Clean_dot_segment (a b : GoString) :
    Clean (a ++ Separator :: '.' :: Separator :: b) = Clean (a ++ Separator :: b) := by
  have hseg : segments (a ++ Separator :: '.' :: Separator :: b) =
      segments a ++ (['.'] :: segments b) := by
    rw [segments_append_sep]
    have e : ('.' :: Separator :: b : GoString) = ['.'] ++ Separator :: b := rfl
    rw [e, segments_append_sep]
    rfl
  have habs : IsAbs (a ++ Separator :: '.' :: Separator :: b) = IsAbs (a ++ Separator :: b) := by
    cases a with
    | nil => simp [isAbs_cons]
    | cons c t => simp [isAbs_cons]
  have hnf : normalForm (a ++ Separator :: '.' :: Separator :: b) =
      normalForm (a ++ Separator :: b) := by
    unfold normalForm foldSegs
    rw [habs, hseg, segments_append_sep, List.foldl_append, List.foldl_append, List.foldl_cons]
    congr 1
  rw [Clean_eq_cleanSpec, Clean_eq_cleanSpec]
  unfold cleanSpec
  rw [habs, hnf]

theorem pathJoin_dot_id (p : GoString) :
    pathJoin [p, "instances".toList, ".".toList, "cp".toList] =
      pathJoin [p, "instances".toList, "cp".toList] := by
  have h1 : ((([p, "instances".toList, ".".toList, "cp".toList] : List GoString).map
      List.length).sum == 0) = false := by simp
  have h2 : ((([p, "instances".toList, "cp".toList] : List GoString).map
      List.length).sum == 0) = false := by simp
  unfold pathJoin
  rw [h1, h2]
  simp only [Bool.false_eq_true, if_false]
  cases p with
  | nil =>
    have e1 : pathJoinBuf [[], "instances".toList, ".".toList, "cp".toList] [] =
        "instances".toList ++ Separator :: '.' :: Separator :: "cp".toList := by decide
    have e2 : pathJoinBuf [[], "instances".toList, "cp".toList] [] =
        "instances".toList ++ Separator :: "cp".toList := by decide
    rw [e1, e2, Clean_dot_segment]
  | cons c t =>
    have e1 : pathJoinBuf [c :: t, "instances".toList, ".".toList, "cp".toList] [] =
        ((c :: t) ++ Separator :: "instances".toList) ++
          Separator :: '.' :: Separator :: "cp".toList := by
      simp [pathJoinBuf, Separator]
    have e2 : pathJoinBuf [c :: t, "instances".toList, "cp".toList] [] =
        ((c :: t) ++ Separator :: "instances".toList) ++ Separator :: "cp".toList := by
      simp [pathJoinBuf, Separator]
    rw [e1, e2, Clean_dot_segment]

/-- C26 fails for the instance ID `.`, which passes the validation: for every
base URL that `url.Parse` accepts, the path of the URL that `buildWsURL`
returns is `path.Join(u.Path, "instances", "cp")`, the path built without any
instance ID; the ID is no segment of it.  For the base URL
`https://api.example.com/v1` the URL is
`wss://api.example.com/v1/instances/cp`. -/
theorem buildWsURL_dot_id_is_no_segment (env : Env) (baseURL : GoString) :
    buildWsURL env baseURL ".".toList =
      (match env.urlParse baseURL with
       | .error e => .error ("invalid base URL: ".toList ++ e)
       | .ok u => .ok (env.urlString { u with
           Scheme := wsScheme u.Scheme
           Path := pathJoin [u.Path, "instances".toList, "cp".toList] })) ∧
    buildWsURL urlEnv "https://api.example.com/v1".toList ".".toList =
      .ok "wss://api.example.com/v1/instances/cp".toList ∧
    segments "/v1/instances/cp".toList =
      [[], "v1".toList, "instances".toList, "cp".toList] := by
  refine ⟨?_, by decide, by decide⟩
  have hne : (".".toList : GoString) ≠ [] := by decide
  have hc : (Contains ".".toList ['/'] || Contains ".".toList ['\\'] ||
      Contains ".".toList ['.', '.']) = false := by decide
  unfold buildWsURL
  simp only [beq_iff_eq, hne, if_false, hc, Bool.false_eq_true]
  cases hparse : env.urlParse baseURL with
  | error e => rfl
  | ok u =>
    simp only [pathJoin_dot_id]
    unfold wsScheme
    by_cases h1 : u.Scheme = "https".toList
    · simp [h1]
    · by_cases h2 : u.Scheme = "http".toList
      · simp [h2]
      · simp only [h1, h2, if_false]

/-! ## The rule for `..` segments -/

/-- C3 as amended: `sanitizePath` fails with an "invalid path" error for every
candidate that has an absolute prefix or in which some `..` segment is not
cancelled by an ordinary segment before it.  A `..` segment that is cancelled
is no reason for a rejection: the candidate is cleaned before any check, and a
relative candidate is rejected as a traversal exactly when its cleaned form
begins with the characters `..`.  When it does not, the candidate has no
uncancelled `..` segment and, with a rooted working directory, the outcome is
the base joined with the cleaned candidate, or the error of a base that
cannot be made absolute, which is no "invalid path" error. -/
theorem sanitizePath_dotdot_rule (wd : Except GoString GoString) (base cand : GoString) :
    (IsAbs cand = true ∨ ClimbsAboveStart cand →
      ∃ e, sanitizePath wd base cand = .error e ∧ "invalid path: ".toList <+: e) ∧
    (IsAbs cand = false → HasPrefix (Clean cand) ['.', '.'] = true →
      sanitizePath wd base cand =
        .error ("invalid path: path escapes destination: ".toList ++ cand)) ∧
    (IsAbs cand = false → HasPrefix (Clean cand) ['.', '.'] = false →
      ¬ ClimbsAboveStart cand ∧
      ((∀ d, wd = .ok d → IsAbs d = true) →
        sanitizePath wd base cand =
          (match Abs wd base with
           | .error e => .error ("resolve base path: ".toList ++ e)
           | .ok _ => .ok (Join base (Clean cand))) ∧
        ¬ ∃ e, sanitizePath wd base cand = .error e ∧ "invalid path: ".toList <+: e)) := by
  refine ⟨?_, ?_, ?_⟩
  · intro h
    by_cases habs : IsAbs cand = true
    · exact ⟨_, sanitizePath_abs_error wd base cand habs,
        "absolute paths not allowed: ".toList ++ cand, rfl⟩
    · have hrel : IsAbs cand = false := by simpa using habs
      have hc : ClimbsAboveStart cand := by
        rcases h with h | h
        · exact absurd h habs
        · exact h
      exact ⟨_, sanitizePath_dotdot_error wd base cand hrel
          (hasPrefix_clean_of_dots cand hrel (climbs_normalForm cand hrel hc)),
        "path escapes destination: ".toList ++ cand, rfl⟩
  · intro hrel hp
    exact sanitizePath_dotdot_error wd base cand hrel hp
  · intro hrel hp
    refine ⟨?_, ?_⟩
    · intro hc
      have := hasPrefix_clean_of_dots cand hrel (climbs_normalForm cand hrel hc)
      rw [hp] at this
      cases this
    · intro hwd
      have heq := sanitizePath_of_rooted_wd wd base cand hwd hrel hp
      refine ⟨heq, ?_⟩
      rintro ⟨e, he, hpre⟩
      rw [heq] at he
      cases hB : Abs wd base with
      | error e0 =>
        rw [hB] at he
        simp only [Except.error.injEq] at he
        rw [← he] at hpre
        obtain ⟨t, ht⟩ := hpre
        simp at ht
      | ok b =>
        rw [hB] at he
        cases he

theorem sanitizePath_dotdot_rule_witness :
    (∃ e, sanitizePath (.ok "/home/user".toList) "/dest".toList
        "sub/../../../etc/passwd".toList = .error e ∧ "invalid path: ".toList <+: e) ∧
    sanitizePath (.ok "/home/user".toList) "/dest".toList "a/../..foo".toList =
      .error "invalid path: path escapes destination: a/../..foo".toList ∧
    ¬ ClimbsAboveStart "a/../..foo".toList ∧
    ¬ ClimbsAboveStart "a/../b".toList ∧
    sanitizePath (.ok "/home/user".toList) "/dest".toList "a/../b".toList =
      .ok "/dest/b".toList :=
  ⟨(sanitizePath_dotdot_rule (.ok "/home/user".toList) "/dest".toList
      "sub/../../../etc/passwd".toList).1 (Or.inr ⟨3, by decide⟩),
   (sanitizePath_dotdot_rule (.ok "/home/user".toList) "/dest".toList
      "a/../..foo".toList).2.1 (by decide) (by decide),
   fun hc => by
     have e : (normalForm "a/../..foo".toList).1 = 0 := by decide
     have := climbs_normalForm "a/../..foo".toList (by decide) hc
     omega,
   ((sanitizePath_dotdot_rule (.ok "/home/user".toList) "/dest".toList
      "a/../b".toList).2.2 (by decide) (by decide)).1,
   (((sanitizePath_dotdot_rule (.ok "/home/user".toList) "/dest".toList
      "a/../b".toList).2.2 (by decide) (by decide)).2
        (fun d h => by cases h; decide)).1.trans (by decide)⟩

/-! ## The reply to a send and the outcome of the call -/

/-- C12 fails for a directory: in the copy of `/src`, which holds `a`, the
reply on the first connection is a result with `success` true, and the call
fails all the same, with the error of the dial for the entry `a`. -/
theorem CpToInstance_dir_fails_after_success_reply :
    (CpToInstance secondDialFailsEnv nestedFS mockCfg 20 nestedOpts).map
      (fun r => (r.2, r.1.countP Event.isDial, r.1.take 4)) =
      some (some "websocket connect failed: connection refused".toList, 2,
        [.dial mockURL "Bearer test-key".toList,
         .sendRequest (cpRequest.mk "to".toList "/dst".toList true 0o755 false 0 0),
         .sendEnd, .wsRead]) ∧
    secondDialFailsEnv.dial 0 mockURL = .ok (mockConn [successFrame]) ∧
    awaitResult (mockConn [successFrame]) = none ∧
    successFrame.IsResult { Success := true, Error := [], BytesWritten := 0 } := by
  refine ⟨by decide, rfl, by decide, rfl, rfl⟩

/-- C12 as amended: the frame read at the end of a send decides the outcome of
a file send, and the failure of a directory send.  For a file whose data went
through, an error message makes the call fail with `copy failed: ` followed by
its message, and a result message makes it succeed when `success` is true and
otherwise fail with `copy failed: ` followed by the error text of the result.
For a directory, an error message or a failed result makes the call fail in
the same way, right after the read and before anything inside the directory
is sent; a result with `success` true raises no error, and the call goes on
to walk the directory: its outcome is the outcome of that walk. -/
theorem reply_decides_send (env : Env) (fs : SrcFS) (cfg : CpConfig) (fuel : Nat)
    (opts : CpToInstanceOptions) (st : SendState) (url : GoString) (ws : Conn)
    (info : FileInfo) (f : Frame) (rest : List Frame)
    (hurl : buildWsURL env cfg.BaseURL opts.InstanceID = .ok url)
    (hdial : env.dial st.dials url = .ok ws) (hstat : fs.Stat opts.SrcPath = .ok info)
    (hframes : ws.frames = f :: rest) (hw : ∀ n, ws.writeErr n = none) :
    (info.IsDir = false →
      ∀ file, fs.Open opts.SrcPath = .ok file →
        (∀ x ∈ file (32 * 1024), x.2.isFailure = false) →
        (∀ e, f.IsError e → ∃ st', cpToInstanceInternal env fs cfg (fuel + 1) opts st =
          some (st', some ("copy failed: ".toList ++ e.Message))) ∧
        (∀ r, f.IsResult r → ∃ st', cpToInstanceInternal env fs cfg (fuel + 1) opts st =
          some (st', if r.Success then none else some ("copy failed: ".toList ++ r.Error)))) ∧
    (info.IsDir = true →
      (∀ e, f.IsError e → cpToInstanceInternal env fs cfg (fuel + 2) opts st =
        some ((((requested env fs cfg opts info url st).emit .sendEnd).emit .wsRead).emit
          .wsClose, some ("copy failed: ".toList ++ e.Message))) ∧
      (∀ r, f.IsResult r → r.Success = false →
        cpToInstanceInternal env fs cfg (fuel + 2) opts st =
          some ((((requested env fs cfg opts info url st).emit .sendEnd).emit .wsRead).emit
            .wsClose, some ("copy failed: ".toList ++ r.Error))) ∧
      (∀ r, f.IsResult r → r.Success = true →
        cpToInstanceInternal env fs cfg (fuel + 2) opts st =
          (match fs.Lstat opts.SrcPath with
            | .error e =>
              some (((requested env fs cfg opts info url st).emit .sendEnd).emit .wsRead,
                some e)
            | .ok linfo =>
              walkDir env fs cfg fuel (dirCopyOf opts) opts.SrcPath linfo.IsDir
                (((requested env fs cfg opts info url st).emit .sendEnd).emit .wsRead)).map
            (fun (x : SendState × Option GoString) => (x.1.emit .wsClose, x.2)))) := by
  constructor
  · intro hfile file hopen hread
    rw [cpToInstanceInternal_file env fs cfg fuel opts st url ws info hurl hdial hstat hfile
      (hw 0)]
    rw [copyFileToWs_reply fs ws _ _ _ _ file hopen hw hread]
    constructor
    · intro e he
      rw [awaitResult_error ws f rest e hframes he]
      exact ⟨_, rfl⟩
    · intro r hr
      rw [awaitResult_result ws f rest r hframes hr]
      exact ⟨_, rfl⟩
  · intro hdir
    rw [cpToInstanceInternal_dir env fs cfg (fuel + 1) opts st url ws info hurl hdial hstat hdir
      (hw 0)]
    refine ⟨?_, ?_, ?_⟩
    · intro e he
      simp only [copyDirToWs, hw, awaitResult_error ws f rest e hframes he, Option.map_some']
    · intro r hr hs
      simp only [copyDirToWs, hw, awaitResult_result ws f rest r hframes hr, hs,
        Bool.false_eq_true, if_false, Option.map_some']
    · intro r hr hs
      simp only [copyDirToWs, hw, awaitResult_result ws f rest r hframes hr, hs, if_true]
      rfl

theorem reply_decides_send_witness :
    (∃ st', cpToInstanceInternal
        (mockEnv [errorFrame { Message := "disk full".toList, Path := [] }]) helloFS mockCfg
        (0 + 1) helloOpts { trace := [], visited := [], dials := 0 } =
      some (st', some ("copy failed: ".toList ++ "disk full".toList))) ∧
    cpToInstanceInternal
        (mockEnv [resultFrame { Success := false, Error := "denied".toList, BytesWritten := 0 }])
        nestedFS mockCfg (0 + 2) nestedOpts { trace := [], visited := [], dials := 0 } =
      some ((((requested
        (mockEnv [resultFrame { Success := false, Error := "denied".toList, BytesWritten := 0 }])
        nestedFS mockCfg nestedOpts dirInfo mockURL
        { trace := [], visited := [], dials := 0 }).emit .sendEnd).emit .wsRead).emit .wsClose,
        some ("copy failed: ".toList ++ "denied".toList)) :=
  ⟨((reply_decides_send (mockEnv [errorFrame { Message := "disk full".toList, Path := [] }])
      helloFS mockCfg 0 helloOpts { trace := [], visited := [], dials := 0 } mockURL
      (mockConn [errorFrame { Message := "disk full".toList, Path := [] }])
      { IsDir := false, IsSymlink := false, Perm := 0o644, Size := 11,
        Owner := some (1000, 1000) }
      _ [] (by decide) rfl (by decide) rfl (fun _ => rfl)).1 rfl (readsOf helloWorld) rfl
        (by decide)).1 _ ⟨rfl, rfl⟩,
   ((reply_decides_send
      (mockEnv [resultFrame { Success := false, Error := "denied".toList, BytesWritten := 0 }])
      nestedFS mockCfg 0 nestedOpts { trace := [], visited := [], dials := 0 } mockURL
      (mockConn [resultFrame { Success := false, Error := "denied".toList, BytesWritten := 0 }])
      dirInfo _ [] (by decide) rfl (by decide) rfl (fun _ => rfl)).2 rfl).2.1 _ ⟨rfl, rfl⟩ rfl⟩

/-! ## The mode of the entries of a directory copy -/

/-- C14 fails for the entries inside a directory: the copy of `/src` with the
`Mode` option `0600` sends `/dst` with mode `0600`, but `/dst/a` with `0755`
and `/dst/a/f` with `0644`, the permission bits of these entries, although the
option is not zero. -/
theorem CpToInstance_mode_option_root_only :
    (CpToInstance (mockEnv [successFrame]) nestedFS mockCfg 20 nestedModeOpts).map
      (fun r => (r.2, r.1.filterMap Event.requestMode)) =
      some (none, [("/dst".toList, 0o600), ("/dst/a".toList, 0o755),
        ("/dst/a/f".toList, 0o644), ("/dst/a/f".toList, 0o644)]) := by
  decide

/-- The request for an entry that the walk of a directory copy sends: its
mode is the mode of the target when the entry is a symlink and `FollowLinks`
is set, and else the permission bits of the entry itself (the mode that
`os.Stat` reports when those are zero).  The `Mode` option of the call does
not enter. -/
theorem child_request_mode (env : Env) (fs : SrcFS) (cfg : CpConfig) (fuel : Nat)
    (dc : DirCopy) (p rel : GoString) (info srcInfo : FileInfo) (url : GoString) (ws : Conn)
    (st st' : SendState) (r : Option GoString)
    (hp : p ≠ dc.srcPath) (hrel : Rel dc.srcPath p = .ok rel)
    (hl : fs.Lstat p = .ok info)
    (hurl : buildWsURL env cfg.BaseURL dc.instanceID = .ok url)
    (hdial : env.dial st.dials url = .ok ws) (hstat : fs.Stat p = .ok srcInfo)
    (hrun : walkFn env fs cfg fuel dc p st = some (st', r))
    (hsent : st'.dials ≠ st.dials) :
    ∃ evs, st'.trace = st.trace ++
      [Event.dial url ("Bearer ".toList ++ cfg.APIKey),
       Event.sendRequest (cpRequest.mk "to".toList (pathJoin [dc.dstPath, rel]) srcInfo.IsDir
         (if info.IsSymlink && dc.followLinks then srcInfo.Perm
           else if info.Perm = 0 then srcInfo.Perm else info.Perm)
         dc.followLinks
         (if dc.archive then (srcInfo.Owner.getD (0, 0)).1 else 0)
         (if dc.archive then (srcInfo.Owner.getD (0, 0)).2 else 0))] ++ evs := by
  cases fuel with
  | zero => simp [walkFn] at hrun
  | succ n =>
    simp only [walkFn, beq_iff_eq, hp, if_false, hrel, hl] at hrun
    split at hrun
    · cases hrun
      exact absurd rfl hsent
    · rename_i st1 hcheck
      have hst1 : st1.trace = st.trace ∧ st1.dials = st.dials := by
        revert hcheck
        repeat' split
        all_goals
          intro hcheck
          first
            | (cases hcheck; exact ⟨rfl, rfl⟩)
            | cases hcheck
      rw [← hst1.2] at hdial
      obtain ⟨evs, he⟩ := cpToInstanceInternal_starts env fs cfg n _ st1 st' r url ws srcInfo
        hurl hdial hstat hrun
      refine ⟨evs, ?_⟩
      rw [he, hst1.1]
      unfold requestFor
      cases hsy : info.IsSymlink <;> cases hf : dc.followLinks <;>
        by_cases hm : info.Perm = 0 <;> cases hO : srcInfo.Owner <;> simp [hm, hO]

end Hypeman
